/-
Verification of the scrape/filter pipeline of the gta-data-jobs-scan
repository (src/job_scan.py and the script variants collected in
src/unnamed/part_000).

The embedding works over Lean `String`s, with the heavy lifting done on
`List Char`.  Python's `str.lower` is modelled by `Char.toLower` per
character (all configured keywords are ASCII), `in` (substring test) by
`containsSub`, `str.split()` by `splitWs`, `str.strip()` by `trimWs`.

Namespaces:
  `JobScan`  — definitions taken from src/job_scan.py
  `Scraper`  — definitions taken from the final script variant in
               src/unnamed/part_000 (the one whose entry point is
               `run_scraper`, lines 1404-2306)
  `ScraperV2` — definitions from the middle variant of part_000 where they
               differ (e.g. `extract_qualifications`, lines 1103-1123)
-/
import Mathlib

set_option maxRecDepth 10000

/-- Python `str.lower()` (ASCII case folding, per character). -/
def toLowerS (s : String) : String := ⟨s.data.map Char.toLower⟩

/-- Python substring test `pat in s` on character lists. -/
def containsSub (pat : List Char) : List Char → Bool
  | [] => pat.isEmpty
  | c :: rest => pat.isPrefixOf (c :: rest) || containsSub pat rest

/-- Python substring test `pat in s` on strings. -/
def containsSubS (pat s : String) : Bool := containsSub pat.data s.data

/-- Python slicing `s[:n]`. -/
def takeS (n : Nat) (s : String) : String := ⟨s.data.take n⟩

/-- `p` occurs as a contiguous substring of `s` (specification-side form). -/
def IsSub (p s : String) : Prop := ∃ l r, s.data = l ++ p.data ++ r

/-- `p` occurs as a case-insensitive contiguous substring of `s`. -/
def IsSubCI (p s : String) : Prop := IsSub (toLowerS p) (toLowerS s)

theorem containsSub_iff (p s : List Char) :
    containsSub p s = true ↔ ∃ l r, s = l ++ p ++ r := by
  induction s with
  | nil =>
    simp only [containsSub, List.isEmpty_iff]
    constructor
    · rintro rfl; exact ⟨[], [], rfl⟩
    · rintro ⟨l, r, h⟩
      have : l = [] ∧ p = [] ∧ r = [] := by simpa using h.symm
      exact this.2.1
  | cons c rest ih =>
    simp only [containsSub, Bool.or_eq_true, ih]
    constructor
    · rintro (hp | ⟨l, r, rfl⟩)
      · rcases List.isPrefixOf_iff_prefix.mp hp with ⟨r, hr⟩
        exact ⟨[], r, hr.symm⟩
      · exact ⟨c :: l, r, rfl⟩
    · rintro ⟨l, r, h⟩
      cases l with
      | nil =>
        left
        exact List.isPrefixOf_iff_prefix.mpr ⟨r, by simpa using h.symm⟩
      | cons x xs =>
        right
        refine ⟨xs, r, ?_⟩
        injection h with _ h2

theorem containsSubS_iff (p s : String) :
    containsSubS p s = true ↔ IsSub p s := containsSub_iff p.data s.data

/-- Python `str.strip()`: drop whitespace from both ends. -/
def trimWs (cs : List Char) : List Char :=
  ((cs.dropWhile Char.isWhitespace).reverse.dropWhile Char.isWhitespace).reverse

/-- Python `str.strip()` on strings. -/
def trimS (s : String) : String := ⟨trimWs s.data⟩

/-- Python `str.split()` helper: accumulates the current word (reversed). -/
def splitWsAux : List Char → List Char → List (List Char)
  | cur, [] => if cur.isEmpty then [] else [cur.reverse]
  | cur, c :: cs =>
    if c.isWhitespace then
      if cur.isEmpty then splitWsAux [] cs else cur.reverse :: splitWsAux [] cs
    else
      splitWsAux (c :: cur) cs

/-- Python `str.split()` (split on whitespace runs, dropping empties). -/
def splitWs (cs : List Char) : List (List Char) := splitWsAux [] cs

/-- Python `" ".join(words)`. -/
def joinSp : List (List Char) → List Char
  | [] => []
  | [w] => w
  | w :: v :: ws => w ++ ' ' :: joinSp (v :: ws)

/-- `" ".join(text.split())` — whitespace normalization. -/
def normWs (cs : List Char) : List Char := joinSp (splitWs cs)

namespace Scraper

/-- `norm` from part_000 (final variant): `str(s or "").strip()`. -/
def norm (s : String) : String := trimS s

/-- `is_missing` from part_000 (final variant). -/
def is_missing (s : String) : Bool :=
  let t := norm s
  t = "" || (toLowerS t = "n/a" || toLowerS t = "na" || toLowerS t = "none" ||
    toLowerS t = "null")

/-- Exclusion keyword list of the final part_000 variant (lines 1418-1424). -/
def BAD_KEYWORDS : List String :=
  ["intern", "co-op", "coop", "student", "summer", "placement",
   "manager", "director", "head of", "vp", "president", "chief", "principal", "lead",
   "sales", "customer service", "technician", "support", "clerk", "admin",
   "marketing", "account executive", "driver", "warehouse", "nurse", "bilingual",
   "business analyst", "business systems analyst", "business system analyst",
   "financial analyst"]

/-- Strong-positive keyword list of the final part_000 variant. -/
def STRONG_KEYWORDS : List String :=
  ["data scientist", "data engineer", "machine learning", "ai engineer", "analytics",
   "computer vision", "nlp", "business intelligence", "deep learning",
   "data analyst", "quantitative researcher", "statistical modeling", "statistician"]

/-- Ambiguous keyword list of the final part_000 variant. -/
def AMBIGUOUS_KEYWORDS : List String :=
  ["analyst", "insights", "consultant", "scientist", "researcher",
   "strategist", "specialist", "associate"]

/-- Technical-term list of the final part_000 variant. -/
def TECH_KEYWORDS : List String :=
  ["sql", "python", " r ", "r-programming", "tableau", "power bi", "powerbi",
   "aws", "azure", "gcp", "snowflake", "etl", "pipeline", "modeling", "models",
   "machine learning", "statistical", "looker", "bigquery", "spark", "hadoop"]

end Scraper

namespace JobScan

/-- Exclusion keyword list of src/job_scan.py (lines 26-32). -/
def BAD_KEYWORDS : List String :=
  ["intern", "co-op", "coop", "student", "summer", "placement",
   "manager", "director", "head of", "vp", "president", "chief", "principal", "lead",
   "sales", "customer service", "technician", "support", "clerk", "admin", "engineer",
   "marketing", "account executive", "driver", "warehouse", "nurse", "bilingual",
   "business analyst", "business systems analyst", "business system analyst"]

/-- Strong-positive keyword list of src/job_scan.py. -/
def STRONG_KEYWORDS : List String :=
  ["data scientist", "data engineer", "machine learning", "ai engineer",
   "computer vision", "nlp", "business intelligence", "deep learning",
   "data analyst", "quantitative researcher"]

/-- Ambiguous keyword list of src/job_scan.py. -/
def AMBIGUOUS_KEYWORDS : List String :=
  ["analyst", "insights", "consultant", "scientist", "researcher",
   "strategist", "specialist", "associate"]

/-- Technical-term list of src/job_scan.py. -/
def TECH_KEYWORDS : List String :=
  ["sql", "python", " r ", "r-programming", "tableau", "power bi", "powerbi",
   "aws", "azure", "gcp", "snowflake", "etl", "pipeline", "modeling",
   "machine learning", "statistical", "looker", "bigquery", "spark", "hadoop"]

end JobScan

/-- Relevance verdict for a job title (spec: SKIP / KEEP_IMMEDIATE /
CHECK_DESCRIPTION; job_scan.py spells the latter two "KEEP" / "CHECK"). -/
inductive Verdict where
  | SKIP
  | KEEP_IMMEDIATE
  | CHECK_DESCRIPTION
deriving DecidableEq, Repr

/-- The title-classification logic shared by `run` (src/job_scan.py lines
207-216) and `run_scraper` (part_000 lines 2188-2204): test the lowercased
title against the exclusion list first (`continue`, i.e. SKIP), then the
strong list (KEEP), then the ambiguous list (CHECK), else SKIP. -/
def classify_title (bad strong ambiguous : List String) (title : String) : Verdict :=
  let title_lower := toLowerS title
  if bad.any (fun b => containsSubS b title_lower) then .SKIP
  else if strong.any (fun s => containsSubS s title_lower) then .KEEP_IMMEDIATE
  else if ambiguous.any (fun a => containsSubS a title_lower) then .CHECK_DESCRIPTION
  else .SKIP

/-- The save decision of `run` (job_scan.py lines 223-234) and `run_scraper`
(part_000 lines 2223-2238): a KEEP verdict saves unconditionally; a CHECK
verdict saves iff the description is not the sentinel and its lowercase form
contains a technical keyword. -/
def should_save_of (tech : List String) : Verdict → String → Bool
  | .KEEP_IMMEDIATE, _ => true
  | .CHECK_DESCRIPTION, desc =>
    if desc ≠ "N/A" then tech.any (fun t => containsSubS t (toLowerS desc))
    else false
  | .SKIP, _ => false

theorem classify_title_skip_of_bad (bad strong ambiguous : List String) (title : String)
    (h : ∃ b ∈ bad, containsSubS b (toLowerS title) = true) :
    classify_title bad strong ambiguous title = .SKIP := by
  obtain ⟨b, hb, hsub⟩ := h
  unfold classify_title
  have : bad.any (fun b => containsSubS b (toLowerS title)) = true :=
    List.any_eq_true.mpr ⟨b, hb, hsub⟩
  simp only [this, if_true]

theorem containsSub_lower_of_isSubCI {b title : String} (hlow : toLowerS b = b)
    (h : IsSubCI b title) : containsSubS b (toLowerS title) = true := by
  rw [containsSubS_iff]
  unfold IsSubCI at h
  rwa [hlow] at h

/-- All configured keyword lists are already lowercase, so the code's
one-sided lowering (`bad in title.lower()`) is genuinely case-insensitive. -/
theorem jobscan_bad_lower : ∀ b ∈ JobScan.BAD_KEYWORDS, toLowerS b = b := by decide

theorem scraper_bad_lower : ∀ b ∈ Scraper.BAD_KEYWORDS, toLowerS b = b := by decide

theorem jobscan_tech_lower : ∀ t ∈ JobScan.TECH_KEYWORDS, toLowerS t = t := by decide

theorem scraper_tech_lower : ∀ t ∈ Scraper.TECH_KEYWORDS, toLowerS t = t := by decide

/-- C2: a title containing (case-insensitively) any exclusion-list keyword is
classified SKIP, in both script variants, regardless of which strong or
ambiguous keywords it also contains: the exclusion test is the first branch
of the classifier (job_scan.py lines 207-216, part_000 lines 2188-2204). -/
theorem claim_C2_exclusion_precedence (title : String) :
    ((∃ b ∈ JobScan.BAD_KEYWORDS, IsSubCI b title) →
      classify_title JobScan.BAD_KEYWORDS JobScan.STRONG_KEYWORDS
        JobScan.AMBIGUOUS_KEYWORDS title = .SKIP) ∧
    ((∃ b ∈ Scraper.BAD_KEYWORDS, IsSubCI b title) →
      classify_title Scraper.BAD_KEYWORDS Scraper.STRONG_KEYWORDS
        Scraper.AMBIGUOUS_KEYWORDS title = .SKIP) := by
  constructor
  · rintro ⟨b, hb, hsub⟩
    exact classify_title_skip_of_bad _ _ _ _
      ⟨b, hb, containsSub_lower_of_isSubCI (jobscan_bad_lower b hb) hsub⟩
  · rintro ⟨b, hb, hsub⟩
    exact classify_title_skip_of_bad _ _ _ _
      ⟨b, hb, containsSub_lower_of_isSubCI (scraper_bad_lower b hb) hsub⟩

/-- Witness for C2 at the spec's own example: "Senior Data Scientist Intern"
contains the exclusion term "intern" (despite the strong term
"data scientist") and is classified SKIP by both variants. -/
theorem claim_C2_exclusion_precedence_witness :
    classify_title JobScan.BAD_KEYWORDS JobScan.STRONG_KEYWORDS
      JobScan.AMBIGUOUS_KEYWORDS "Senior Data Scientist Intern" = .SKIP ∧
    classify_title Scraper.BAD_KEYWORDS Scraper.STRONG_KEYWORDS
      Scraper.AMBIGUOUS_KEYWORDS "Senior Data Scientist Intern" = .SKIP := by
  have h := claim_C2_exclusion_precedence "Senior Data Scientist Intern"
  refine ⟨h.1 ⟨"intern", by decide, ?_⟩, h.2 ⟨"intern", by decide, ?_⟩⟩ <;>
    exact ⟨"senior data scientist ".data, [], by decide⟩

theorem should_save_check_iff (tech : List String) (desc : String)
    (hlow : ∀ t ∈ tech, toLowerS t = t) :
    should_save_of tech .CHECK_DESCRIPTION desc = true ↔
      desc ≠ "N/A" ∧ ∃ t ∈ tech, IsSubCI t desc := by
  unfold should_save_of
  by_cases hd : desc = "N/A"
  · simp [hd]
  · simp only [ne_eq, hd, not_false_eq_true, if_true, true_and, List.any_eq_true]
    constructor
    · rintro ⟨t, ht, hsub⟩
      refine ⟨t, ht, ?_⟩
      unfold IsSubCI
      rw [hlow t ht]
      exact (containsSubS_iff _ _).mp hsub
    · rintro ⟨t, ht, hsub⟩
      exact ⟨t, ht, containsSub_lower_of_isSubCI (hlow t ht) hsub⟩

/-- C3: for a CHECK_DESCRIPTION verdict, the save decision of `run`
(job_scan.py lines 223-234) and `run_scraper` (part_000 lines 2223-2238) is
true iff the description is not the "N/A" sentinel and contains some
technical-term keyword case-insensitively. -/
theorem claim_C3_check_description_save (desc : String) :
    (should_save_of JobScan.TECH_KEYWORDS .CHECK_DESCRIPTION desc = true ↔
      desc ≠ "N/A" ∧ ∃ t ∈ JobScan.TECH_KEYWORDS, IsSubCI t desc) ∧
    (should_save_of Scraper.TECH_KEYWORDS .CHECK_DESCRIPTION desc = true ↔
      desc ≠ "N/A" ∧ ∃ t ∈ Scraper.TECH_KEYWORDS, IsSubCI t desc) :=
  ⟨should_save_check_iff _ _ jobscan_tech_lower,
   should_save_check_iff _ _ scraper_tech_lower⟩

namespace Scraper

/-- `fix_doubled_title` from part_000 (lines 1475-1500): whitespace-normalize,
collapse a word-level duplication ("Data Scientist Data Scientist"), else a
character-level duplication (len > 4, even, equal halves), else return the
normalized text. -/
def fix_doubled_title (text : String) : String :=
  if text = "" then ""
  else
    let t := normWs text.data
    let parts := splitWs t
    if parts.length ≥ 2 ∧ parts.length % 2 = 0 ∧
        parts.take (parts.length / 2) = parts.drop (parts.length / 2) then
      ⟨joinSp (parts.take (parts.length / 2))⟩
    else if t.length > 4 ∧ t.length % 2 = 0 ∧
        t.take (t.length / 2) = t.drop (t.length / 2) then
      ⟨t.take (t.length / 2)⟩
    else ⟨t⟩

end Scraper

/-- A word in the sense of `str.split()`: nonempty, no whitespace char. -/
def IsWord (w : List Char) : Prop := w ≠ [] ∧ ∀ c ∈ w, ¬ c.isWhitespace

theorem splitWsAux_word (cur w cs : List Char) (hw : ∀ c ∈ w, ¬ c.isWhitespace) :
    splitWsAux cur (w ++ cs) = splitWsAux (w.reverse ++ cur) cs := by
  induction w generalizing cur with
  | nil => simp
  | cons c w' ih =>
    have hc : c.isWhitespace = false := by
      simpa using hw c (by simp)
    simp only [List.cons_append, splitWsAux, hc, Bool.false_eq_true, if_false,
      List.reverse_cons, List.append_assoc, List.singleton_append]
    exact ih _ (fun d hd => hw d (by simp [hd]))

theorem splitWsAux_space (cur cs : List Char) (hcur : cur ≠ []) :
    splitWsAux cur (' ' :: cs) = cur.reverse :: splitWsAux [] cs := by
  have : (' ' : Char).isWhitespace = true := by decide
  simp [splitWsAux, this, List.isEmpty_iff, hcur]

theorem splitWs_joinSp (W : List (List Char)) (hW : ∀ w ∈ W, IsWord w) :
    splitWs (joinSp W) = W := by
  induction W with
  | nil => simp [splitWs, joinSp, splitWsAux]
  | cons w ws ih =>
    have hw := hW w (by simp)
    cases ws with
    | nil =>
      show splitWsAux [] (joinSp [w]) = [w]
      have : joinSp [w] = w ++ [] := by simp [joinSp]
      rw [this, splitWsAux_word [] w [] hw.2]
      simp [splitWsAux, List.isEmpty_iff, hw.1]
    | cons v ws' =>
      show splitWsAux [] (joinSp (w :: v :: ws')) = w :: v :: ws'
      have hj : joinSp (w :: v :: ws') = w ++ ' ' :: joinSp (v :: ws') := rfl
      rw [hj, splitWsAux_word [] w _ hw.2, List.append_nil,
        splitWsAux_space _ _ (by simpa using hw.1)]
      simp only [List.reverse_reverse, List.cons.injEq, true_and]
      exact ih (fun u hu => hW u (by simp [hu]))

theorem joinSp_cons_ne (v : List Char) (l : List (List Char)) (hl : l ≠ []) :
    joinSp (v :: l) = v ++ ' ' :: joinSp l := by
  cases l with
  | nil => exact absurd rfl hl
  | cons x xs => rfl

/-- C10: `fix_doubled_title` collapses an exact word-level duplication
"W W" to "W", and leaves any input alone (beyond whitespace normalization)
whose normalized word list is not two equal halves and whose normalized
character sequence is not two equal halves (part_000 lines 1475-1500). -/
theorem claim_C10_fix_doubled_title :
    (∀ W : List (List Char), W ≠ [] → (∀ w ∈ W, IsWord w) →
      Scraper.fix_doubled_title ⟨joinSp (W ++ W)⟩ = ⟨joinSp W⟩) ∧
    (∀ s : String, (¬ ∃ H, splitWs (normWs s.data) = H ++ H) →
      (¬ ∃ h, normWs s.data = h ++ h) →
      Scraper.fix_doubled_title s = ⟨normWs s.data⟩) := by
  constructor
  · intro W hne hwf
    have hWW : ∀ w ∈ W ++ W, IsWord w := by
      intro w hw
      rcases List.mem_append.mp hw with h | h
      · exact hwf w h
      · exact hwf w h
    obtain ⟨w, ws, rfl⟩ : ∃ w ws, W = w :: ws := by
      cases W with
      | nil => exact absurd rfl hne
      | cons w ws => exact ⟨w, ws, rfl⟩
    have htail : ws ++ w :: ws ≠ [] := by simp
    have hjoin : joinSp ((w :: ws) ++ (w :: ws)) =
        w ++ ' ' :: joinSp (ws ++ w :: ws) := by
      rw [List.cons_append]
      exact joinSp_cons_ne w _ htail
    have hne' : (⟨joinSp ((w :: ws) ++ (w :: ws))⟩ : String) ≠ "" := by
      intro h
      have hd : joinSp ((w :: ws) ++ (w :: ws)) = [] := congrArg String.data h
      rw [hjoin] at hd
      simp at hd
    unfold Scraper.fix_doubled_title
    rw [if_neg hne']
    have hdata : (⟨joinSp ((w :: ws) ++ (w :: ws))⟩ : String).data =
        joinSp ((w :: ws) ++ (w :: ws)) := rfl
    rw [hdata]
    have hnorm : normWs (joinSp ((w :: ws) ++ (w :: ws))) =
        joinSp ((w :: ws) ++ (w :: ws)) := by
      unfold normWs
      rw [splitWs_joinSp _ hWW]
    rw [hnorm]
    dsimp only
    rw [splitWs_joinSp _ hWW]
    set W := w :: ws with hw
    have hlen : (W ++ W).length = W.length + W.length := by simp
    have hhalf : (W ++ W).length / 2 = W.length := by omega
    have hcond : (W ++ W).length ≥ 2 ∧ (W ++ W).length % 2 = 0 ∧
        (W ++ W).take ((W ++ W).length / 2) = (W ++ W).drop ((W ++ W).length / 2) := by
      have hWlen : W.length = ws.length + 1 := by rw [hw]; rfl
      refine ⟨by omega, by omega, ?_⟩
      rw [hhalf]
      rw [List.take_left, List.drop_left]
    rw [if_pos hcond, hhalf, List.take_left]
  · intro s hW hC
    by_cases hs : s = ""
    · subst hs
      exact absurd ⟨[], by decide⟩ hW
    · unfold Scraper.fix_doubled_title
      rw [if_neg hs]
      have hw : ¬(((splitWs (normWs s.data)).length ≥ 2 ∧
          (splitWs (normWs s.data)).length % 2 = 0 ∧
          (splitWs (normWs s.data)).take ((splitWs (normWs s.data)).length / 2) =
            (splitWs (normWs s.data)).drop ((splitWs (normWs s.data)).length / 2))) := by
        rintro ⟨-, -, h3⟩
        refine hW ⟨(splitWs (normWs s.data)).take ((splitWs (normWs s.data)).length / 2), ?_⟩
        conv_lhs => rw [← List.take_append_drop ((splitWs (normWs s.data)).length / 2)
          (splitWs (normWs s.data))]
        rw [← h3]
      rw [if_neg hw]
      have hc : ¬(((normWs s.data).length > 4 ∧ (normWs s.data).length % 2 = 0 ∧
          (normWs s.data).take ((normWs s.data).length / 2) =
            (normWs s.data).drop ((normWs s.data).length / 2))) := by
        rintro ⟨-, -, h3⟩
        refine hC ⟨(normWs s.data).take ((normWs s.data).length / 2), ?_⟩
        conv_lhs => rw [← List.take_append_drop ((normWs s.data).length / 2) (normWs s.data)]
        rw [← h3]
      rw [if_neg hc]

/-- Witness for C10: "Data Scientist Data Scientist" collapses to
"Data Scientist"; "Analyst" is returned unchanged. -/
theorem claim_C10_fix_doubled_title_witness :
    Scraper.fix_doubled_title "Data Scientist Data Scientist" = "Data Scientist" ∧
    Scraper.fix_doubled_title "Analyst" = "Analyst" := by
  constructor
  · have h := claim_C10_fix_doubled_title.1 ["Data".data, "Scientist".data]
      (by decide) (by intro u hu; fin_cases hu <;> exact ⟨by decide, by decide⟩)
    have e1 : (⟨joinSp (["Data".data, "Scientist".data] ++
        ["Data".data, "Scientist".data])⟩ : String) = "Data Scientist Data Scientist" := by
      decide
    have e2 : (⟨joinSp ["Data".data, "Scientist".data]⟩ : String) = "Data Scientist" := by
      decide
    rw [e1, e2] at h
    exact h
  · have h := claim_C10_fix_doubled_title.2 "Analyst" ?_ ?_
    · have e : (⟨normWs "Analyst".data⟩ : String) = "Analyst" := by decide
      rw [e] at h
      exact h
    · rintro ⟨H, hH⟩
      have e : splitWs (normWs "Analyst".data) = ["Analyst".data] := by decide
      rw [e] at hH
      have := congrArg List.length hH
      simp at this
      omega
    · rintro ⟨h, hh⟩
      have e : normWs "Analyst".data = "Analyst".data := by decide
      rw [e] at hh
      have := congrArg List.length hh
      simp at this
      omega

namespace Scraper

/-- The record dictionary built by `parse_job_data` in the final part_000
variant (title/company/url from the card, then description, salary,
qualifications, scraped_at from the detail pane). -/
structure JobData where
  title : String
  company : String
  url : String
  description : String
  salary : String
  qualifications : String
  scraped_at : String
deriving DecidableEq, Repr

/-- The duplicate signature of a record (part_000 line 2215):
`(title.lower().strip(), company.lower().strip())`. -/
def sig (jd : JobData) : String × String :=
  (trimS (toLowerS jd.title), trimS (toLowerS jd.company))

/-- Environmental outcome of one card iteration of `run_scraper`
(part_000 lines 2148-2251): what the browser returned at each step.
`checkUrl` is the card-level URL (none models an exception inside that
`try` block, line 2173); `rawTitle` is the card title after
`fix_doubled_title`; `parseResult` is the outcome of `parse_job_data`. -/
structure CardInput where
  checkUrl : Option String
  rawTitle : String
  parseResult : Option JobData
deriving DecidableEq, Repr

/-- Mutable state of one `run_scraper` run (part_000 lines 2104-2126):
the two seen-sets (modelled as lists used set-wise), the in-memory buffer
of accepted records, the accepted-record count, and the last accepted
description (fed back into `parse_job_data`). -/
structure ScanState where
  seen_urls : List String
  seen_signatures : List (String × String)
  new_jobs_buffer : List JobData
  total_saved_this_run : Nat
  prev_description : String
deriving DecidableEq, Repr

/-- The three-tier relevance computation of `run_scraper` (part_000 lines
2195-2199), applied to the lowercased card title. -/
def relevance_of (title_lower : String) : Verdict :=
  if STRONG_KEYWORDS.any (fun k => containsSubS k title_lower) then .KEEP_IMMEDIATE
  else if AMBIGUOUS_KEYWORDS.any (fun a => containsSubS a title_lower) then
    .CHECK_DESCRIPTION
  else .SKIP

/-- One card iteration of the inner loop of `run_scraper` (part_000 lines
2148-2251), from the card-level duplicate check to the buffered insert.
Every `continue` is modelled by returning the state unchanged. -/
def processCard (s : ScanState) (c : CardInput) : ScanState :=
  if (match c.checkUrl with
      | some u => u ≠ "" && s.seen_urls.contains u
      | none => false) then s
  else if is_missing c.rawTitle then s
  else if BAD_KEYWORDS.any (fun b => containsSubS b (toLowerS c.rawTitle)) then s
  else if relevance_of (toLowerS c.rawTitle) = .SKIP then s
  else
    match c.parseResult with
    | none => s
    | some jd =>
      if s.seen_urls.contains jd.url then s
      else if s.seen_signatures.contains (sig jd) then s
      else if should_save_of TECH_KEYWORDS (relevance_of (toLowerS c.rawTitle))
          jd.description then
        { s with
          prev_description := jd.description,
          new_jobs_buffer := s.new_jobs_buffer ++ [jd],
          seen_urls := s.seen_urls ++ [jd.url],
          seen_signatures := s.seen_signatures ++ [sig jd],
          total_saved_this_run := s.total_saved_this_run + 1 }
      else { s with prev_description := jd.description }

/-- The per-page card loop of `run_scraper` (part_000 lines 2144-2251):
before each card, the accepted-record cap is checked and the loop `break`s
once it is reached (line 2145), leaving the remaining cards unprocessed. -/
def runCards (maxJobs : Nat) (s : ScanState) : List CardInput → ScanState
  | [] => s
  | c :: cs =>
    if maxJobs ≤ s.total_saved_this_run then s
    else runCards maxJobs (processCard s c) cs

/-- The page loop of `run_scraper` (part_000 lines 2136-2262): run the card
loop on each page's card list; after a page, stop if the cap is reached
(line 2253), else paginate.  The page list abstracts the pages the browser
would successively serve (the per-keyword page cap bounds its length). -/
def runPages (maxJobs : Nat) (s : ScanState) : List (List CardInput) → ScanState
  | [] => s
  | p :: ps =>
    let s' := runCards maxJobs s p
    if maxJobs ≤ s'.total_saved_this_run then s'
    else runPages maxJobs s' ps

/-- Case split for one card step: either nothing observable changes, or
exactly one record whose URL was not yet seen is appended, its URL and
signature are inserted, and the count increments. -/
theorem processCard_spec (s : ScanState) (c : CardInput) :
    ((processCard s c).new_jobs_buffer = s.new_jobs_buffer ∧
     (processCard s c).seen_urls = s.seen_urls ∧
     (processCard s c).total_saved_this_run = s.total_saved_this_run) ∨
    (∃ jd, c.parseResult = some jd ∧ s.seen_urls.contains jd.url = false ∧
      (processCard s c).new_jobs_buffer = s.new_jobs_buffer ++ [jd] ∧
      (processCard s c).seen_urls = s.seen_urls ++ [jd.url] ∧
      (processCard s c).total_saved_this_run = s.total_saved_this_run + 1) := by
  unfold processCard
  split
  · left; exact ⟨rfl, rfl, rfl⟩
  split
  · left; exact ⟨rfl, rfl, rfl⟩
  split
  · left; exact ⟨rfl, rfl, rfl⟩
  split
  · left; exact ⟨rfl, rfl, rfl⟩
  split
  · left; exact ⟨rfl, rfl, rfl⟩
  rename_i jd heq
  split
  · left; exact ⟨rfl, rfl, rfl⟩
  rename_i hurl
  split
  · left; exact ⟨rfl, rfl, rfl⟩
  split
  · right
    exact ⟨jd, heq, by simpa using hurl, rfl, rfl, rfl⟩
  · left; exact ⟨rfl, rfl, rfl⟩

/-- C4: across any run segment, the seen-URL set only grows (no operation
removes from it), and once a URL is in the set no later record carrying it
is added to the buffer (part_000 lines 2210-2213, 2240-2244). -/
theorem claim_C4_seen_url_no_readd (m : Nat) (s : ScanState) (cs : List CardInput) :
    s.seen_urls ⊆ (runCards m s cs).seen_urls ∧
    ∀ u ∈ s.seen_urls, ∀ r ∈ (runCards m s cs).new_jobs_buffer,
      r.url = u → r ∈ s.new_jobs_buffer := by
  induction cs generalizing s with
  | nil => exact ⟨fun x hx => hx, fun u hu r hr _ => hr⟩
  | cons c cs ih =>
    rw [runCards]
    split
    · exact ⟨fun x hx => hx, fun u hu r hr _ => hr⟩
    · rcases processCard_spec s c with ⟨hb, hs, -⟩ | ⟨jd, -, hurl, hb, hs, -⟩
      · refine ⟨?_, ?_⟩
        · intro x hx
          exact (ih (processCard s c)).1 (hs ▸ hx)
        · intro u hu r hr hru
          have := (ih (processCard s c)).2 u (hs ▸ hu) r hr hru
          rwa [hb] at this
      · have hnotmem : jd.url ∉ s.seen_urls := by simpa using hurl
        refine ⟨?_, ?_⟩
        · intro x hx
          exact (ih (processCard s c)).1 (hs ▸ List.mem_append_left _ hx)
        · intro u hu r hr hru
          have hmem := (ih (processCard s c)).2 u (hs ▸ List.mem_append_left _ hu) r hr hru
          rw [hb] at hmem
          rcases List.mem_append.mp hmem with h | h
          · exact h
          · exfalso
            have : r = jd := by simpa using h
            exact hnotmem (this ▸ hru ▸ hu)

/-- Witness for C4: a state that has already seen "https://x" never gets a
buffered record with that URL again, even when a matching savable card
arrives. -/
theorem claim_C4_seen_url_no_readd_witness :
    "https://x" ∈ (ScanState.mk ["https://x"] [] [] 0 "").seen_urls ∧
    ∀ r ∈ (runCards 500 (ScanState.mk ["https://x"] [] [] 0 "")
        [CardInput.mk (some "https://x") "Data Scientist"
          (some (JobData.mk "Data Scientist" "Acme" "https://x" "desc" "N/A" "N/A"
            "2026-01-01"))]).new_jobs_buffer,
      r.url = "https://x" → r ∈ (ScanState.mk ["https://x"] [] [] 0 "").new_jobs_buffer :=
  ⟨by decide, (claim_C4_seen_url_no_readd 500 _ _).2 "https://x" (by decide)⟩

theorem runCards_total_le (m : Nat) (s : ScanState) (cs : List CardInput)
    (h : s.total_saved_this_run ≤ m) :
    (runCards m s cs).total_saved_this_run ≤ m := by
  induction cs generalizing s with
  | nil => exact h
  | cons c cs ih =>
    rw [runCards]
    split
    · exact h
    · rename_i hlt
      have hstep : (processCard s c).total_saved_this_run ≤ m := by
        rcases processCard_spec s c with ⟨-, -, ht⟩ | ⟨-, -, -, -, -, ht⟩ <;> omega
      exact ih _ hstep

/-- C5: the accepted-record count never exceeds the cap; and once the count
has reached the cap, the card loop processes no further card and changes
nothing at all (part_000 lines 2144-2146 and 2253-2254; job_scan.py lines
198-199 and 241 are structurally identical). -/
theorem claim_C5_record_cap (m : Nat) (s : ScanState) (cs : List CardInput)
    (pgs : List (List CardInput)) :
    (s.total_saved_this_run ≤ m → (runCards m s cs).total_saved_this_run ≤ m) ∧
    (s.total_saved_this_run ≤ m → (runPages m s pgs).total_saved_this_run ≤ m) ∧
    (m ≤ s.total_saved_this_run → runCards m s cs = s) := by
  refine ⟨runCards_total_le m s cs, ?_, ?_⟩
  · intro h
    induction pgs generalizing s with
    | nil => exact h
    | cons p ps ih =>
      rw [runPages]
      have hp := runCards_total_le m s p h
      split
      · exact hp
      · exact ih _ hp
  · intro h
    cases cs with
    | nil => rfl
    | cons c cs => simp [runCards, h]

/-- Witness for C5: with cap 1 and two savable cards, the run stops at 1;
and a state already at the cap is left untouched by a further card. -/
theorem claim_C5_record_cap_witness :
    (runCards 1 (ScanState.mk [] [] [] 0 "")
      [CardInput.mk none "Data Scientist"
        (some (JobData.mk "Data Scientist" "Acme" "https://a" "d" "N/A" "N/A" "t")),
       CardInput.mk none "Data Engineer"
        (some (JobData.mk "Data Engineer" "Acme" "https://b" "d" "N/A" "N/A"
          "t"))]).total_saved_this_run ≤ 1 ∧
    runCards 1 (ScanState.mk [] [] [] 1 "")
      [CardInput.mk none "Data Scientist"
        (some (JobData.mk "Data Scientist" "Acme" "https://a" "d" "N/A" "N/A" "t"))] =
      ScanState.mk [] [] [] 1 "" :=
  ⟨(claim_C5_record_cap 1 _ _ []).1 (by decide),
   (claim_C5_record_cap 1 _ _ []).2.2 (by decide)⟩

end Scraper

/-! ### Salary normalizer

Executable embeddings of the two salary regexes.  Python's backtracking
regex engine is modelled by deterministic greedy matchers; at each place
where the engine could backtrack (an optional currency symbol whose
following mandatory digits fail, a connector alternative whose following
unit word fails), the alternative continuations are spelled out, and the
branches are equivalent to the engine's alternative order because the
alternatives start with pairwise distinct characters. -/

/-- `\s*` — consume a maximal whitespace run, returning (consumed, rest). -/
def spanWs (cs : List Char) : List Char × List Char :=
  (cs.takeWhile Char.isWhitespace, cs.dropWhile Char.isWhitespace)

/-- Case-insensitive literal: `pat` is given lowercase; the consumed text
keeps the original characters (re.IGNORECASE semantics for `group(0)`). -/
def stripCI (pat : List Char) (cs : List Char) : Option (List Char × List Char) :=
  match pat, cs with
  | [], cs => some ([], cs)
  | p :: ps, c :: cs' =>
    if c.toLower = p then
      match stripCI ps cs' with
      | some (m, r) => some (c :: m, r)
      | none => none
    else none
  | _ :: _, [] => none

/-- Ordered alternation of case-insensitive literals (`a|b|c` in a regex):
try each pattern left to right. -/
def tryPats (pats : List (List Char)) (cs : List Char) : Option (List Char × List Char) :=
  match pats with
  | [] => none
  | p :: ps =>
    match stripCI p cs with
    | some v => some v
    | none => tryPats ps cs

namespace Scraper

/-- `(?:CA?\$|C\$|\$)` with re.IGNORECASE (part_000 SALARY_RE, line 1451):
a bare dollar sign, or C/c followed by a dollar sign, or C/c then A/a then a
dollar sign (the backtracking alternative order collapses to this case
split because the alternatives are distinguished by their first two
characters). -/
def matchCurrency (cs : List Char) : Option (List Char × List Char) :=
  match cs with
  | [] => none
  | c0 :: r0 =>
    if c0 = '$' then some (['$'], r0)
    else if c0 = 'C' ∨ c0 = 'c' then
      match r0 with
      | [] => none
      | c1 :: r1 =>
        if c1 = '$' then some ([c0, '$'], r1)
        else if c1 = 'A' ∨ c1 = 'a' then
          match r1 with
          | '$' :: r2 => some ([c0, c1, '$'], r2)
          | _ => none
        else none
    else none

/-- `[\d]{1,3}` — one to three digits, greedy. -/
def matchDigits13 (cs : List Char) : Option (List Char × List Char) :=
  if ((cs.takeWhile Char.isDigit).take 3).isEmpty then none
  else some ((cs.takeWhile Char.isDigit).take 3,
    cs.drop ((cs.takeWhile Char.isDigit).take 3).length)

/-- `(?:[,\s]\d{3})*` — greedy repetition of a thousands group. -/
def matchThousands : List Char → List Char × List Char
  | c :: d1 :: d2 :: d3 :: r =>
    if (c = ',' ∨ c.isWhitespace) ∧ d1.isDigit ∧ d2.isDigit ∧ d3.isDigit then
      let (m2, r2) := matchThousands r
      (c :: d1 :: d2 :: d3 :: m2, r2)
    else ([], c :: d1 :: d2 :: d3 :: r)
  | cs => ([], cs)

/-- `(?:\.\d+)?` — optional decimal part, greedy. -/
def matchDec : List Char → List Char × List Char
  | '.' :: r =>
    if (r.takeWhile Char.isDigit).isEmpty then ([], '.' :: r)
    else ('.' :: r.takeWhile Char.isDigit, r.drop (r.takeWhile Char.isDigit).length)
  | cs => ([], cs)

/-- `\s*[kK]?` — spaces (consumed regardless) then an optional k. -/
def matchSpK (cs : List Char) : List Char × List Char :=
  match (spanWs cs).2 with
  | 'k' :: r2 => ((spanWs cs).1 ++ ['k'], r2)
  | 'K' :: r2 => ((spanWs cs).1 ++ ['K'], r2)
  | r => ((spanWs cs).1, r)

/-- `[\d]{1,3}(?:[,\s]\d{3})*(?:\.\d+)?\s*[kK]?` — one amount. -/
def matchAmount (cs : List Char) : Option (List Char × List Char) :=
  match matchDigits13 cs with
  | none => none
  | some (d, r1) =>
    let (th, r2) := matchThousands r1
    let (dc, r3) := matchDec r2
    let (k, r4) := matchSpK r3
    some (d ++ th ++ dc ++ k, r4)

/-- `(?:-|–|—|to)` with re.IGNORECASE. -/
def matchSep (cs : List Char) : Option (List Char × List Char) :=
  match cs with
  | [] => none
  | c1 :: r1 =>
    if c1 = '-' then some (['-'], r1)
    else if c1 = '–' then some (['–'], r1)
    else if c1 = '—' then some (['—'], r1)
    else if c1 = 't' ∨ c1 = 'T' then
      match r1 with
      | [] => none
      | c2 :: r2 => if c2 = 'o' ∨ c2 = 'O' then some ([c1, c2], r2) else none
    else none

/-- The optional range tail
`(?:\s*(?:-|–|—|to)\s*(?:CA?\$|C\$|\$)?\s*[\d]{1,3}(?:[,\s]\d{3})*(?:\.\d+)?\s*[kK]?)?`.
If the optional second currency symbol is present but no digits follow it,
the engine backtracks to the no-currency branch, which then also fails
(a currency character is not a digit), so the whole group is empty. -/
def matchRange (cs : List Char) : List Char × List Char :=
  let (sp1, r1) := spanWs cs
  match matchSep r1 with
  | none => ([], cs)
  | some (sep, r2) =>
    let (sp2, r3) := spanWs r2
    match matchCurrency r3 with
    | some (cur, r4) =>
      let (sp3, r5) := spanWs r4
      match matchAmount r5 with
      | some (amt, r6) => (sp1 ++ sep ++ sp2 ++ cur ++ sp3 ++ amt, r6)
      | none => ([], cs)
    | none =>
      match matchAmount r3 with
      | some (amt, r4) => (sp1 ++ sep ++ sp2 ++ amt, r4)
      | none => ([], cs)

/-- `(?:hour|hr|year|yr|month|mo|week|wk|day|annum)` with re.IGNORECASE,
alternatives in the source order. -/
def matchUnitWord (cs : List Char) : Option (List Char × List Char) :=
  tryPats ["hour".data, "hr".data, "year".data, "yr".data, "month".data,
    "mo".data, "week".data, "wk".data, "day".data, "annum".data] cs

/-- The optional unit tail `(?:\s*(?:/|per\s*)?(?:hour|...|annum))?`.
The connector alternatives `/`, `per`, or absent start with distinct
characters ('/', 'p', and a unit word's first letter), so the engine's
alternative order collapses to this case split; the extra fallback after a
matched `per` whose unit word fails mirrors the engine trying the
connector-absent branch at the same position. -/
def matchUnit (cs : List Char) : List Char × List Char :=
  let (sp, r1) := spanWs cs
  match r1 with
  | '/' :: r2 =>
    match matchUnitWord r2 with
    | some (w, r3) => (sp ++ '/' :: w, r3)
    | none => ([], cs)
  | _ =>
    match stripCI "per".data r1 with
    | some (per, r2) =>
      let (sp2, r3) := spanWs r2
      match matchUnitWord r3 with
      | some (w, r4) => (sp ++ per ++ sp2 ++ w, r4)
      | none =>
        match matchUnitWord r1 with
        | some (w, r2') => (sp ++ w, r2')
        | none => ([], cs)
    | none =>
      match matchUnitWord r1 with
      | some (w, r2) => (sp ++ w, r2)
      | none => ([], cs)

/-- The whole SALARY_RE of part_000 (lines 1449-1458, identical at 68-77)
applied at one position. -/
def matchSalary (cs : List Char) : Option (List Char × List Char) :=
  match matchCurrency cs with
  | none => none
  | some (cur, r1) =>
    let (sp1, r2) := spanWs r1
    match matchAmount r2 with
    | none => none
    | some (amt, r3) =>
      let (rng, r4) := matchRange r3
      let (unit, r5) := matchUnit r4
      some (cur ++ sp1 ++ amt ++ rng ++ unit, r5)

end Scraper

/-- `re.search`: try the matcher at each position, leftmost first. -/
def searchAt (f : List Char → Option (List Char × List Char)) :
    List Char → Option (List Char)
  | [] => (f []).map Prod.fst
  | c :: rest =>
    match f (c :: rest) with
    | some (m, _) => some m
    | none => searchAt f rest

namespace Scraper

/-- `clean_salary_text` of part_000 (lines 1529-1534, identical at 101-110):
empty input yields the sentinel; otherwise collapse whitespace, search
SALARY_RE, and return the stripped match or the sentinel. -/
def clean_salary_text (text : String) : String :=
  if text = "" then "N/A"
  else
    match searchAt matchSalary (normWs text.data) with
    | some m => ⟨trimWs m⟩
    | none => "N/A"

/-- `clean_salary_text` applied to a possibly-absent value: Python's
`if not text` treats None like the empty string. -/
def clean_salary_text_opt : Option String → String
  | none => "N/A"
  | some s => clean_salary_text s

end Scraper

namespace JobScan

/-- `[\d,]+` — one or more digits/commas, greedy (job_scan.py pattern). -/
def matchNum (cs : List Char) : Option (List Char × List Char) :=
  let ds := cs.takeWhile (fun c => c.isDigit || c = ',')
  if ds.isEmpty then none else some (ds, cs.drop ds.length)

/-- `(?:\.\d{2})?` — optional decimal with exactly two digits. -/
def matchDec2 : List Char → List Char × List Char
  | '.' :: d1 :: d2 :: r =>
    if d1.isDigit ∧ d2.isDigit then (['.', d1, d2], r)
    else ([], '.' :: d1 :: d2 :: r)
  | cs => ([], cs)

/-- The optional range tail `(?:[-–—]\s*\$?\s*[\d,]+(?:\.\d{2})?)?` of the
job_scan.py pattern.  As in the part_000 variant, a matched `\$` whose
following digits/commas fail makes the engine backtrack to the no-dollar
branch, which also fails, so the group is empty. -/
def matchRangeA : List Char → List Char × List Char
  | [] => ([], [])
  | c :: r1 =>
    if c = '-' ∨ c = '–' ∨ c = '—' then
      let (sp1, r2) := spanWs r1
      match r2 with
      | '$' :: r3 =>
        let (sp2, r4) := spanWs r3
        match matchNum r4 with
        | some (n, r5) =>
          let (dc, r6) := matchDec2 r5
          (c :: (sp1 ++ '$' :: (sp2 ++ n ++ dc)), r6)
        | none => ([], c :: r1)
      | _ =>
        match matchNum r2 with
        | some (n, r3) =>
          let (dc, r4) := matchDec2 r3
          (c :: (sp1 ++ n ++ dc), r4)
        | none => ([], c :: r1)
    else ([], c :: r1)

/-- `(?:year|yr|annum|hour|hr|month|mo)` with re.IGNORECASE, source order. -/
def matchUnitWordA (cs : List Char) : Option (List Char × List Char) :=
  tryPats ["year".data, "yr".data, "annum".data, "hour".data, "hr".data,
    "month".data, "mo".data] cs

/-- The optional unit tail `(?:\s*(?:a|per|/)\s*(?:year|...|mo))?` of the
job_scan.py pattern (the connector is mandatory inside the group; the
three connector alternatives start with distinct characters). -/
def matchUnitA (cs : List Char) : List Char × List Char :=
  let (sp, r1) := spanWs cs
  match stripCI "a".data r1 with
  | some (ca, r2) =>
    let (sp2, r3) := spanWs r2
    match matchUnitWordA r3 with
    | some (w, r4) => (sp ++ ca ++ sp2 ++ w, r4)
    | none => ([], cs)
  | none =>
    match stripCI "per".data r1 with
    | some (cp, r2) =>
      let (sp2, r3) := spanWs r2
      match matchUnitWordA r3 with
      | some (w, r4) => (sp ++ cp ++ sp2 ++ w, r4)
      | none => ([], cs)
    | none =>
      match r1 with
      | '/' :: r2 =>
        let (sp2, r3) := spanWs r2
        match matchUnitWordA r3 with
        | some (w, r4) => (sp ++ '/' :: (sp2 ++ w), r4)
        | none => ([], cs)
      | _ => ([], cs)

/-- The whole job_scan.py salary pattern (line 67)
`\$\s*[\d,]+(?:\.\d{2})?\s*(?:[-–—]\s*\$?\s*[\d,]+(?:\.\d{2})?)?`
`(?:\s*(?:a|per|/)\s*(?:year|yr|annum|hour|hr|month|mo))?`
applied at one position. -/
def matchSalaryA (cs : List Char) : Option (List Char × List Char) :=
  match cs with
  | '$' :: r1 =>
    let (sp0, r2) := spanWs r1
    match matchNum r2 with
    | none => none
    | some (n, r3) =>
      let (dc, r4) := matchDec2 r3
      let (sp1, r5) := spanWs r4
      let (rng, r6) := matchRangeA r5
      let (unit, r7) := matchUnitA r6
      some ('$' :: (sp0 ++ n ++ dc ++ sp1 ++ rng ++ unit), r7)
  | _ => none

/-- `clean_salary_text` of src/job_scan.py (lines 63-69): no whitespace
normalization; search the pattern in the raw text; stripped match or
sentinel. -/
def clean_salary_text (text : String) : String :=
  if text = "" then "N/A"
  else
    match searchAt matchSalaryA text.data with
    | some m => ⟨trimWs m⟩
    | none => "N/A"

/-- `clean_salary_text` applied to a possibly-absent value (`if not text`
treats None like the empty string). -/
def clean_salary_text_opt : Option String → String
  | none => "N/A"
  | some s => clean_salary_text s

end JobScan

/-- A dollar sign followed, after optional whitespace, by a digit — the
claim-side reading of "currency-prefixed digit sequence" (every currency
alternative of both patterns ends in `\$`). -/
def DollarThenDigit (cs : List Char) : Prop :=
  ∃ pre sp d post, cs = pre ++ '$' :: (sp ++ d :: post) ∧
    (∀ c ∈ sp, c.isWhitespace) ∧ d.isDigit

/-- A dollar sign followed, after optional whitespace, by a digit or a
comma — what job_scan.py's `[\d,]+` actually requires. -/
def DollarThenNumChar (cs : List Char) : Prop :=
  ∃ pre sp d post, cs = pre ++ '$' :: (sp ++ d :: post) ∧
    (∀ c ∈ sp, c.isWhitespace) ∧ (d.isDigit ∨ d = ',')

theorem DollarThenDigit_mem {cs : List Char} (h : DollarThenDigit cs) : '$' ∈ cs := by
  obtain ⟨pre, sp, d, post, rfl, -, -⟩ := h
  simp

theorem DollarThenNumChar_mem {cs : List Char} (h : DollarThenNumChar cs) : '$' ∈ cs := by
  obtain ⟨pre, sp, d, post, rfl, -, -⟩ := h
  simp

theorem spanWs_split (cs : List Char) :
    cs = (spanWs cs).1 ++ (spanWs cs).2 ∧ ∀ c ∈ (spanWs cs).1, c.isWhitespace := by
  refine ⟨(List.takeWhile_append_dropWhile Char.isWhitespace cs).symm, ?_⟩
  intro c hc
  exact List.mem_takeWhile_imp hc

theorem matchCurrency_dollar {cs cur r : List Char}
    (h : Scraper.matchCurrency cs = some (cur, r)) :
    ∃ p, cs = p ++ '$' :: r := by
  unfold Scraper.matchCurrency at h
  split at h
  · exact absurd h (by simp)
  · rename_i c0 r0
    split_ifs at h with h1 h2
    · simp only [Option.some.injEq, Prod.mk.injEq] at h
      obtain ⟨rfl, rfl⟩ := h
      exact ⟨[], by subst h1; simp⟩
    · split at h
      · exact absurd h (by simp)
      · rename_i c1 r1
        split_ifs at h with h3 h4
        · simp only [Option.some.injEq, Prod.mk.injEq] at h
          obtain ⟨rfl, rfl⟩ := h
          exact ⟨[c0], by subst h3; simp⟩
        · split at h
          · rename_i r2
            simp only [Option.some.injEq, Prod.mk.injEq] at h
            obtain ⟨rfl, rfl⟩ := h
            exact ⟨[c0, c1], rfl⟩
          · exact absurd h (by simp)

theorem matchDigits13_head {cs d r : List Char}
    (h : Scraper.matchDigits13 cs = some (d, r)) :
    ∃ d0 r0, cs = d0 :: r0 ∧ d0.isDigit := by
  cases cs with
  | nil => simp [Scraper.matchDigits13] at h
  | cons c rest =>
    cases hcd : c.isDigit with
    | false =>
      exfalso
      simp [Scraper.matchDigits13, List.takeWhile_cons, hcd] at h
    | true => exact ⟨c, rest, rfl, hcd⟩

theorem matchAmount_head {cs a r : List Char}
    (h : Scraper.matchAmount cs = some (a, r)) :
    ∃ d0 r0, cs = d0 :: r0 ∧ d0.isDigit := by
  unfold Scraper.matchAmount at h
  split at h
  · exact absurd h (by simp)
  · rename_i d r1 heq
    exact matchDigits13_head heq

theorem matchNum_head {cs n r : List Char}
    (h : JobScan.matchNum cs = some (n, r)) :
    ∃ d0 r0, cs = d0 :: r0 ∧ (d0.isDigit ∨ d0 = ',') := by
  cases cs with
  | nil => simp [JobScan.matchNum] at h
  | cons c rest =>
    cases hcd : (c.isDigit || decide (c = ',')) with
    | false =>
      exfalso
      simp only [JobScan.matchNum, List.takeWhile_cons] at h
      rw [hcd] at h
      simp at h
    | true =>
      refine ⟨c, rest, rfl, ?_⟩
      rcases Bool.or_eq_true .. ▸ hcd with h1 | h1
      · exact Or.inl h1
      · exact Or.inr (of_decide_eq_true h1)

theorem searchAt_split {f : List Char → Option (List Char × List Char)}
    {cs m : List Char} (h : searchAt f cs = some m) :
    ∃ pre suf r, cs = pre ++ suf ∧ f suf = some (m, r) := by
  induction cs with
  | nil =>
    unfold searchAt at h
    rcases Option.map_eq_some'.mp h with ⟨⟨m', r⟩, hm, he⟩
    exact ⟨[], [], r, rfl, by rw [hm, ← he]⟩
  | cons c rest ih =>
    unfold searchAt at h
    split at h
    · rename_i m0 r0 heq
      cases h
      exact ⟨[], c :: rest, r0, rfl, heq⟩
    · obtain ⟨pre, suf, r, heq, hf⟩ := ih h
      exact ⟨c :: pre, suf, r, by rw [heq, List.cons_append], hf⟩

theorem matchSalary_dollarDigit {cs m r : List Char}
    (h : Scraper.matchSalary cs = some (m, r)) : DollarThenDigit cs := by
  unfold Scraper.matchSalary at h
  split at h
  · exact absurd h (by simp)
  · rename_i cur r1 hcur
    obtain ⟨p, hp⟩ := matchCurrency_dollar hcur
    obtain ⟨hsplit, hws⟩ := spanWs_split r1
    rcases hsp : spanWs r1 with ⟨sp1, r2⟩
    rw [hsp] at hsplit hws h
    split at h
    rename_i m2 r2x heq
    injection heq with e1 e2
    subst e1
    subst e2
    split at h
    · exact absurd h (by simp)
    · rename_i amt r3 hamt
      obtain ⟨d0, r0, hr2, hd0⟩ := matchAmount_head hamt
      exact ⟨p, sp1, d0, r0, by rw [hp, hsplit, hr2], hws, hd0⟩

theorem matchSalaryA_dollarNum {cs m r : List Char}
    (h : JobScan.matchSalaryA cs = some (m, r)) : DollarThenNumChar cs := by
  unfold JobScan.matchSalaryA at h
  split at h
  · rename_i r1
    obtain ⟨hsplit, hws⟩ := spanWs_split r1
    rcases hsp : spanWs r1 with ⟨sp0, r2⟩
    rw [hsp] at hsplit hws h
    split at h
    rename_i m2 r2x heq
    injection heq with e1 e2
    subst e1
    subst e2
    split at h
    · exact absurd h (by simp)
    · rename_i n r3 hnum
      obtain ⟨d0, r0, hr2, hd0⟩ := matchNum_head hnum
      exact ⟨[], sp0, d0, r0, by simp [hsplit, hr2], hws, hd0⟩
  · exact absurd h (by simp)

/-- C7 counterexample: "$," contains no digit at all, yet job_scan.py's
normalizer returns "$," rather than the sentinel — its `[\d,]+` accepts a
lone comma as the "digit sequence". -/
theorem claim_C7_counterexample :
    JobScan.clean_salary_text "$," = "$," ∧
    JobScan.clean_salary_text "$," ≠ "N/A" ∧
    ∀ c ∈ "$,".data, ¬ c.isDigit := by
  refine ⟨by decide, by decide, by decide⟩

/-- C7 (amended): empty or absent input yields the sentinel in both
variants; a text with no dollar sign followed (after optional whitespace)
by a digit makes part_000's normalizer return the sentinel; job_scan.py's
normalizer returns the sentinel when there is no dollar sign followed
(after optional whitespace) by a digit or comma. -/
theorem claim_C7_sentinel :
    JobScan.clean_salary_text "" = "N/A" ∧
    Scraper.clean_salary_text "" = "N/A" ∧
    JobScan.clean_salary_text_opt none = "N/A" ∧
    Scraper.clean_salary_text_opt none = "N/A" ∧
    (∀ t : String, ¬ DollarThenDigit (normWs t.data) →
      Scraper.clean_salary_text t = "N/A") ∧
    (∀ t : String, ¬ DollarThenNumChar t.data →
      JobScan.clean_salary_text t = "N/A") := by
  refine ⟨rfl, rfl, rfl, rfl, ?_, ?_⟩
  · intro t hno
    unfold Scraper.clean_salary_text
    by_cases ht : t = ""
    · simp [ht]
    · rw [if_neg ht]
      cases hs : searchAt Scraper.matchSalary (normWs t.data) with
      | none => rfl
      | some mm =>
        exfalso
        obtain ⟨pre, suf, rr, hsplit, hf⟩ := searchAt_split hs
        obtain ⟨p, sp, d, post, hsuf, hws, hd⟩ := matchSalary_dollarDigit hf
        exact hno ⟨pre ++ p, sp, d, post, by rw [hsplit, hsuf, List.append_assoc], hws, hd⟩
  · intro t hno
    unfold JobScan.clean_salary_text
    by_cases ht : t = ""
    · simp [ht]
    · rw [if_neg ht]
      cases hs : searchAt JobScan.matchSalaryA t.data with
      | none => rfl
      | some mm =>
        exfalso
        obtain ⟨pre, suf, rr, hsplit, hf⟩ := searchAt_split hs
        obtain ⟨p, sp, d, post, hsuf, hws, hd⟩ := matchSalaryA_dollarNum hf
        exact hno ⟨pre ++ p, sp, d, post, by rw [hsplit, hsuf, List.append_assoc], hws, hd⟩

/-- Witness for C7 on concrete inputs without any dollar-digit pattern. -/
theorem claim_C7_sentinel_witness :
    Scraper.clean_salary_text "salary unavailable" = "N/A" ∧
    JobScan.clean_salary_text "salary unavailable" = "N/A" :=
  ⟨claim_C7_sentinel.2.2.2.2.1 "salary unavailable"
    (fun h => by have := DollarThenDigit_mem h; revert this; decide),
   claim_C7_sentinel.2.2.2.2.2 "salary unavailable"
    (fun h => by have := DollarThenNumChar_mem h; revert this; decide)⟩

/-- Python `"; ".join(...)`. -/
def joinSemi : List String → String
  | [] => ""
  | [q] => q
  | q :: r :: qs => q ++ "; " ++ joinSemi (r :: qs)

namespace ScraperV2

/-- Phase 1 of `extract_qualifications` (part_000 lines 1108-1113): each
item's textContent (None modelled as the empty string) is stripped and
kept only if nonempty. -/
def collectQuals (items : List String) : List String :=
  (items.map trimS).filter (fun t => t ≠ "")

/-- Phase 2 of `extract_qualifications` (part_000 lines 1114-1120): de-dupe
while preserving first-seen order, via a seen set. -/
def dedupSeen (seen : List String) : List String → List String
  | [] => []
  | q :: qs =>
    if seen.contains q then dedupSeen seen qs
    else q :: dedupSeen (seen ++ [q]) qs

/-- `extract_qualifications` (part_000 lines 1103-1123). -/
def extract_qualifications (items : List String) : List String :=
  dedupSeen [] (collectQuals items)

/-- Storage of the extracted qualifications in the middle variant's
`parse_job_data` (part_000 line 1216): `"; ".join(quals) if quals else "N/A"`. -/
def qualifications_stored (items : List String) : String :=
  if extract_qualifications items = [] then "N/A"
  else joinSemi (extract_qualifications items)

theorem dedupSeen_sublist (l seen : List String) : List.Sublist (dedupSeen seen l) l := by
  induction l generalizing seen with
  | nil => exact List.Sublist.refl []
  | cons x xs ih =>
    unfold dedupSeen
    split
    · exact (ih seen).cons x
    · exact (ih (seen ++ [x])).cons₂ x

theorem dedupSeen_mem (l : List String) (seen : List String) (q : String) :
    q ∈ dedupSeen seen l ↔ (q ∈ l ∧ q ∉ seen) := by
  induction l generalizing seen with
  | nil => simp [dedupSeen]
  | cons x xs ih =>
    unfold dedupSeen
    by_cases hx : seen.contains x = true
    · have hxmem : x ∈ seen := by simpa using hx
      rw [if_pos hx, ih]
      constructor
      · rintro ⟨h1, h2⟩
        exact ⟨List.mem_cons_of_mem x h1, h2⟩
      · rintro ⟨h1, h2⟩
        rcases List.mem_cons.mp h1 with rfl | h1
        · exact absurd hxmem h2
        · exact ⟨h1, h2⟩
    · have hxmem : x ∉ seen := by simpa using hx
      rw [if_neg hx]
      simp only [List.mem_cons, ih, List.mem_append, List.mem_singleton]
      by_cases hqx : q = x
      · subst hqx
        simp [hxmem]
      · simp only [hqx, false_or, or_false]
        tauto

theorem dedupSeen_nodup (l seen : List String) : (dedupSeen seen l).Nodup := by
  induction l generalizing seen with
  | nil => exact List.nodup_nil
  | cons x xs ih =>
    unfold dedupSeen
    split
    · exact ih seen
    · refine List.Nodup.cons ?_ (ih (seen ++ [x]))
      intro hmem
      have := (dedupSeen_mem xs (seen ++ [x]) x).mp hmem
      exact this.2 (List.mem_append_right seen (List.mem_singleton.mpr rfl))

end ScraperV2

namespace Scraper

/-- Storage of qualifications in the final variant's `parse_job_data`
(part_000 lines 1668-1673):
`"; ".join(q.text.strip() for q in quals if q.text and q.text.strip()) or "N/A"`
— trims and drops empties but does not de-duplicate. -/
def qualifications_stored (items : List String) : String :=
  if joinSemi ((items.filter (fun t => t ≠ "" && trimS t ≠ "")).map trimS) = ""
  then "N/A"
  else joinSemi ((items.filter (fun t => t ≠ "" && trimS t ≠ "")).map trimS)

end Scraper

/-- C8 counterexample: the stored value produced by the final variant's
`parse_job_data` (the lines the claim cites) keeps repeated items:
["SQL", "SQL", "Python"] is stored as "SQL; SQL; Python", not
"SQL; Python". -/
theorem claim_C8_counterexample :
    Scraper.qualifications_stored ["SQL", "SQL", "Python"] = "SQL; SQL; Python" ∧
    Scraper.qualifications_stored ["SQL", "SQL", "Python"] ≠ "SQL; Python" := by
  exact ⟨by decide, by decide⟩

/-- C8 (amended): `extract_qualifications` (middle variant) trims, drops
empties, and de-duplicates preserving first-seen order (no duplicates in its
output, which is an order-preserving sublist of the trimmed nonempty items
covering all of them), and its stored form maps ["SQL","SQL","Python"] to
"SQL; Python" and the empty list to the sentinel; the final variant's
stored form drops empties and handles the empty list the same way but does
not de-duplicate. -/
theorem claim_C8_qualifications (items : List String) :
    (ScraperV2.extract_qualifications items).Nodup ∧
    List.Sublist (ScraperV2.extract_qualifications items) (ScraperV2.collectQuals items) ∧
    (∀ q, q ∈ ScraperV2.extract_qualifications items ↔
      q ∈ ScraperV2.collectQuals items) ∧
    ScraperV2.qualifications_stored ["SQL", "SQL", "Python"] = "SQL; Python" ∧
    ScraperV2.qualifications_stored [] = "N/A" ∧
    Scraper.qualifications_stored [] = "N/A" := by
  refine ⟨ScraperV2.dedupSeen_nodup _ [], ScraperV2.dedupSeen_sublist _ [], ?_,
    by decide, by decide, by decide⟩
  intro q
  rw [ScraperV2.extract_qualifications, ScraperV2.dedupSeen_mem]
  simp

namespace Scraper

/-- The company-axis loose comparison of the card-to-detail synchronizer
(part_000 line 1608): card company in pane text or pane text in card
company, case-insensitively. -/
def companyLooseMatch (company txt : String) : Bool :=
  containsSubS (toLowerS company) (toLowerS txt) ||
  containsSubS (toLowerS txt) (toLowerS company)

/-- The title-axis fallback comparison of the synchronizer (part_000 line
1612): only the first 10 characters of the card title, one direction. -/
def titlePrefixMatch (title txt : String) : Bool :=
  containsSubS (toLowerS (takeS 10 title)) (toLowerS txt)

end Scraper

namespace JobScan

/-- The sync check of src/job_scan.py (line 110):
`raw_title[:10] in paneText` — case-sensitive, one direction, first 10
characters only. -/
def syncCheck (raw_title paneText : String) : Bool :=
  containsSubS (takeS 10 raw_title) paneText

end JobScan

/-- C9 counterexample: the synchronizer's comparisons are not the claimed
"case-insensitive substring in either direction".  job_scan.py's check is
case-sensitive (it fails on a pane whose text is the lowercased title even
though each string is a case-insensitive substring of the other), and the
run_scraper title check accepts a pane that merely contains the title's
first 10 characters even though neither full string contains the other. -/
theorem claim_C9_counterexample :
    JobScan.syncCheck "Data Scientist III" "data scientist iii" = false ∧
    IsSubCI "Data Scientist III" "data scientist iii" ∧
    Scraper.titlePrefixMatch "Data Scientist III" "data scienXYZ" = true ∧
    containsSubS (toLowerS "Data Scientist III") (toLowerS "data scienXYZ") = false ∧
    containsSubS (toLowerS "data scienXYZ") (toLowerS "Data Scientist III") = false := by
  refine ⟨by decide, ⟨[], [], by decide⟩, by decide, by decide, by decide⟩

/-- C9 (amended): only the company-axis comparison of `run_scraper`'s
synchronizer is a case-insensitive substring test in either direction; the
title-axis comparisons test only the card title's first 10 characters for
one-directional containment in the pane text — lowercased in run_scraper,
case-sensitively in job_scan.py. -/
theorem claim_C9_sync_comparisons (company txt title pane : String) :
    (Scraper.companyLooseMatch company txt = true ↔
      (IsSubCI company txt ∨ IsSubCI txt company)) ∧
    (Scraper.titlePrefixMatch title pane = true ↔
      IsSub (toLowerS (takeS 10 title)) (toLowerS pane)) ∧
    (JobScan.syncCheck title pane = true ↔ IsSub (takeS 10 title) pane) := by
  refine ⟨?_, containsSubS_iff _ _, containsSubS_iff _ _⟩
  unfold Scraper.companyLooseMatch IsSubCI
  rw [Bool.or_eq_true, containsSubS_iff, containsSubS_iff]

/-- Python `s.replace("Posted", "")` — remove every occurrence,
left-to-right, non-overlapping. -/
def replacePosted : List Char → List Char
  | [] => []
  | c :: rest =>
    if "Posted".data.isPrefixOf (c :: rest) then replacePosted ((c :: rest).drop 6)
    else c :: replacePosted rest
termination_by cs => cs.length
decreasing_by
  · simp only [List.length_drop, List.length_cons]
    omega
  · simp only [List.length_cons]
    omega

namespace JobScan

/-- Pre-click card fields of `parse_job_data` (job_scan.py lines 74-96). -/
structure CardFields where
  title : String
  url : String
  company : String
  location : String
  card_salary : String
deriving DecidableEq, Repr

/-- Detail-pane reads of `parse_job_data` when the sync wait succeeded
(job_scan.py lines 123-161).  `compensation` is the text of whichever of
the two salary selectors succeeded (none: both raised, falling back to the
card salary); `qual_items` is the collected qualification texts (none: the
block raised); `date_posted` is the raw timestamp text. -/
structure DetailFields where
  description : String
  compensation : Option String
  qual_items : Option (List String)
  date_posted : Option String
deriving DecidableEq, Repr

/-- The record dictionary of job_scan.py's `parse_job_data`.  Fields that
are skipped when the detail scrape raises before assigning them (lines
163-164 set only `description`) are Options: none models an absent key. -/
structure JobData where
  title : String
  url : String
  company : String
  location : String
  description : Option String
  salary : Option String
  qualifications : Option String
  date_posted : Option String
  scraped_at : String
deriving DecidableEq, Repr

/-- Environmental outcomes of one `parse_job_data` call (job_scan.py lines
71-167): `card` is none when the pre-click scrape raises; `syncOk` is the
outcome of the 7-second wait for `raw_title[:10]` in the pane; `detail` is
none when the detail block raises at the description lookup. -/
structure ParseEnv where
  card : Option CardFields
  syncOk : Bool
  detail : Option DetailFields
  scrapedAt : String
deriving DecidableEq, Repr

/-- `parse_job_data` of src/job_scan.py (lines 71-167).  On sync failure
(lines 115-121) it still returns a partial record: sentinel description /
qualifications / date, and the salary cleaned from the card text. -/
def parse_job_data (env : ParseEnv) : Option JobData :=
  match env.card with
  | none => none
  | some cf =>
    if env.syncOk then
      match env.detail with
      | none =>
        some { title := cf.title, url := cf.url, company := cf.company,
               location := cf.location, description := some "N/A",
               salary := none, qualifications := none, date_posted := none,
               scraped_at := env.scrapedAt }
      | some df =>
        some { title := cf.title, url := cf.url, company := cf.company,
               location := cf.location,
               description := some df.description,
               salary := some (clean_salary_text (df.compensation.getD cf.card_salary)),
               qualifications := some (match df.qual_items with
                 | none => "N/A"
                 | some l => if l = [] then "N/A" else joinSemi l),
               date_posted := some (match df.date_posted with
                 | none => "N/A"
                 | some d => trimS ⟨replacePosted d.data⟩),
               scraped_at := env.scrapedAt }
    else
      some { title := cf.title, url := cf.url, company := cf.company,
             location := cf.location, description := some "N/A",
             salary := some (clean_salary_text cf.card_salary),
             qualifications := some "N/A", date_posted := some "N/A",
             scraped_at := env.scrapedAt }

end JobScan

namespace Scraper

/-- Pre-click card fields of the final variant's `parse_job_data`
(part_000 lines 1543-1560); the title has been through
`fix_doubled_title`. -/
structure CardFields where
  title : String
  url : String
  company : String
deriving DecidableEq, Repr

/-- Detail-pane reads of the final variant's `parse_job_data` after a
successful sync (part_000 lines 1627-1673). -/
structure DetailEnv where
  descText : Option String
  compBox : Option String
  paneText : Option String
  qual_items : Option (List String)
deriving DecidableEq, Repr

/-- Environmental outcomes of one call of the final variant's
`parse_job_data` (part_000 lines 1540-1678): `pane_matched` is the result
of the bounded sync polling loop (lines 1587-1621). -/
structure ParseEnv where
  card : Option CardFields
  clickOk : Bool
  pane_matched : Bool
  detail : DetailEnv
  scrapedAt : String
deriving DecidableEq, Repr

/-- `REQUIRE_COMPANY` (part_000 line 1461). -/
def REQUIRE_COMPANY : Bool := true

/-- `REQUIRE_SALARY` (part_000 line 1462). -/
def REQUIRE_SALARY : Bool := false

/-- `parse_job_data` of the final part_000 variant (lines 1540-1678).
When the sync loop never matches the pane to the card (`pane_matched`
false), the card is abandoned: the function returns none (lines
1622-1625). -/
def parse_job_data (env : ParseEnv) : Option JobData :=
  match env.card with
  | none => none
  | some cf =>
    if is_missing cf.title || is_missing cf.url then none
    else if REQUIRE_COMPANY && is_missing cf.company then none
    else if env.clickOk then
      if env.pane_matched then
        if REQUIRE_SALARY && is_missing (match env.detail.compBox with
            | some s => clean_salary_text s
            | none => match env.detail.paneText with
              | some p => clean_salary_text p
              | none => "N/A") then none
        else
          some { title := cf.title, company := cf.company, url := cf.url,
                 description := env.detail.descText.getD "N/A",
                 salary := (match env.detail.compBox with
                   | some s => clean_salary_text s
                   | none => match env.detail.paneText with
                     | some p => clean_salary_text p
                     | none => "N/A"),
                 qualifications := (match env.detail.qual_items with
                   | none => "N/A"
                   | some l => qualifications_stored l),
                 scraped_at := env.scrapedAt }
      else none
    else none

end Scraper

/-- C1 counterexample: in src/job_scan.py a card whose detail-pane sync
check times out is not abandoned — `parse_job_data` returns a partial
record with sentinel description/qualifications/date and the salary
normalized from the card text (lines 115-121), which `run` then passes to
the save step for KEEP titles. -/
theorem claim_C1_counterexample :
    JobScan.parse_job_data
      ⟨some ⟨"Data Scientist", "https://x", "Acme", "Toronto, ON", "$50,000 a year"⟩,
       false, none, "2026-01-01 00:00:00"⟩ =
      some ⟨"Data Scientist", "https://x", "Acme", "Toronto, ON", some "N/A",
            some "$50,000 a year", some "N/A", some "N/A", "2026-01-01 00:00:00"⟩ := by
  decide

/-- C1 (amended): the final part_000 variant's `parse_job_data` abandons a
card entirely on sync failure (returns none, so nothing reaches the
buffer), while job_scan.py's `parse_job_data` instead emits a partial
record with sentinel fields on sync timeout. -/
theorem claim_C1_sync_failure (env3 : Scraper.ParseEnv) (envJ : JobScan.ParseEnv)
    (cj : JobScan.CardFields)
    (hm : env3.pane_matched = false)
    (hJ : envJ.card = some cj) (hs : envJ.syncOk = false) :
    Scraper.parse_job_data env3 = none ∧
    JobScan.parse_job_data envJ =
      some { title := cj.title, url := cj.url, company := cj.company,
             location := cj.location, description := some "N/A",
             salary := some (JobScan.clean_salary_text cj.card_salary),
             qualifications := some "N/A", date_posted := some "N/A",
             scraped_at := envJ.scrapedAt } := by
  constructor
  · unfold Scraper.parse_job_data
    split
    · rfl
    · split_ifs with h1 h2 h3 <;> simp_all
  · unfold JobScan.parse_job_data
    rw [hJ]
    simp [hs]

/-- Witness for C1's amended theorem at concrete environments. -/
theorem claim_C1_sync_failure_witness :
    Scraper.parse_job_data
      ⟨some ⟨"Data Analyst", "https://y", "Acme"⟩, true, false,
       ⟨none, none, none, none⟩, "t"⟩ = none ∧
    JobScan.parse_job_data ⟨some ⟨"Data Analyst", "https://y", "Acme", "Toronto",
      "no salary"⟩, false, none, "t"⟩ =
      some { title := "Data Analyst", url := "https://y", company := "Acme",
             location := "Toronto", description := some "N/A",
             salary := some (JobScan.clean_salary_text "no salary"),
             qualifications := some "N/A", date_posted := some "N/A",
             scraped_at := "t" } :=
  claim_C1_sync_failure
    ⟨some ⟨"Data Analyst", "https://y", "Acme"⟩, true, false,
      ⟨none, none, none, none⟩, "t"⟩
    ⟨some ⟨"Data Analyst", "https://y", "Acme", "Toronto", "no salary"⟩, false, none, "t"⟩
    ⟨"Data Analyst", "https://y", "Acme", "Toronto", "no salary"⟩ rfl rfl rfl

/-! ### Idempotency of the salary normalizer: generic lemmas -/

/-- No character, or a non-whitespace character, at the head. -/
def HeadNotWs (z : List Char) : Prop := ∀ c, z.head? = some c → ¬ c.isWhitespace

/-- No character, or a non-digit character, at the head. -/
def HeadNotDigit (z : List Char) : Prop := ∀ c, z.head? = some c → ¬ c.isDigit

theorem headNotWs_nil : HeadNotWs [] := fun c h => by cases h

theorem headNotDigit_nil : HeadNotDigit [] := fun c h => by cases h

theorem headNotWs_cons {c : Char} {z : List Char} (h : ¬ c.isWhitespace) :
    HeadNotWs (c :: z) := fun d hd => by
  simp only [List.head?_cons, Option.some.injEq] at hd
  exact hd ▸ h

theorem headNotDigit_cons {c : Char} {z : List Char} (h : ¬ c.isDigit) :
    HeadNotDigit (c :: z) := fun d hd => by
  simp only [List.head?_cons, Option.some.injEq] at hd
  exact hd ▸ h

theorem takeWhile_append_of_all {p : Char → Bool} {a : List Char}
    (ha : ∀ c ∈ a, p c) (z : List Char) (hz : ∀ c, z.head? = some c → p c = false) :
    (a ++ z).takeWhile p = a ∧ (a ++ z).dropWhile p = z := by
  induction a with
  | nil =>
    cases z with
    | nil => exact ⟨rfl, rfl⟩
    | cons c z' =>
      have := hz c rfl
      simp [List.takeWhile_cons, List.dropWhile_cons, this]
  | cons x a' ih =>
    have hx : p x = true := ha x (by simp)
    have := ih (fun c hc => ha c (by simp [hc]))
    simp [List.takeWhile_cons, List.dropWhile_cons, hx, this.1, this.2]

theorem spanWs_resume {sp z : List Char} (hsp : ∀ c ∈ sp, c.isWhitespace)
    (hz : HeadNotWs z) : spanWs (sp ++ z) = (sp, z) := by
  have := takeWhile_append_of_all hsp z (fun c hc => by
    simpa using hz c hc)
  unfold spanWs
  rw [this.1, this.2]

theorem dropWhile_head_false {p : Char → Bool} {cs : List Char} {c : Char}
    (h : (cs.dropWhile p).head? = some c) : p c = false := by
  induction cs with
  | nil => cases h
  | cons x rest ih =>
    rw [List.dropWhile_cons] at h
    split at h
    · exact ih h
    · rename_i hx
      simp only [List.head?_cons, Option.some.injEq] at h
      subst h
      simpa using hx

theorem spanWs_parts (cs : List Char) :
    cs = (spanWs cs).1 ++ (spanWs cs).2 ∧ (∀ c ∈ (spanWs cs).1, c.isWhitespace) ∧
      HeadNotWs (spanWs cs).2 := by
  refine ⟨(List.takeWhile_append_dropWhile Char.isWhitespace cs).symm,
    fun c hc => List.mem_takeWhile_imp hc, fun c hc => ?_⟩
  have := dropWhile_head_false (p := Char.isWhitespace) hc
  simp [this]

theorem stripCI_split {pat cs m r : List Char} (h : stripCI pat cs = some (m, r)) :
    cs = m ++ r := by
  induction pat generalizing cs m r with
  | nil =>
    unfold stripCI at h
    simp only [Option.some.injEq, Prod.mk.injEq] at h
    rw [← h.1, ← h.2]
    rfl
  | cons p ps ih =>
    cases cs with
    | nil => simp [stripCI] at h
    | cons c cs' =>
      unfold stripCI at h
      split at h
      · split at h
        · rename_i m' r' heq
          simp only [Option.some.injEq, Prod.mk.injEq] at h
          rw [← h.1, ← h.2]
          have := ih heq
          simp [this]
        · exact absurd h (by simp)
      · exact absurd h (by simp)

theorem stripCI_resume {pat cs m r : List Char} (h : stripCI pat cs = some (m, r))
    (z : List Char) : stripCI pat (m ++ z) = some (m, z) := by
  induction pat generalizing cs m r with
  | nil =>
    unfold stripCI at h
    simp only [Option.some.injEq, Prod.mk.injEq] at h
    rw [← h.1]
    rfl
  | cons p ps ih =>
    cases cs with
    | nil => simp [stripCI] at h
    | cons c cs' =>
      unfold stripCI at h
      split at h
      · rename_i hlow
        split at h
        · rename_i m' r' heq
          simp only [Option.some.injEq, Prod.mk.injEq] at h
          rw [← h.1]
          simp only [List.cons_append]
          unfold stripCI
          rw [if_pos hlow, ih heq]
        · exact absurd h (by simp)
      · exact absurd h (by simp)

theorem stripCI_extend {pat w m r : List Char} (h : stripCI pat w = some (m, r))
    (z : List Char) : stripCI pat (w ++ z) = some (m, r ++ z) := by
  induction pat generalizing w m r with
  | nil =>
    unfold stripCI at h
    simp only [Option.some.injEq, Prod.mk.injEq] at h
    unfold stripCI
    rw [← h.1, ← h.2]
  | cons p ps ih =>
    cases w with
    | nil => simp [stripCI] at h
    | cons c cs' =>
      unfold stripCI at h
      split at h
      · rename_i hlow
        split at h
        · rename_i m' r' heq
          simp only [Option.some.injEq, Prod.mk.injEq] at h
          rw [← h.1]
          simp only [List.cons_append]
          unfold stripCI
          rw [if_pos hlow, ih heq]
          simp [h.2]
        · exact absurd h (by simp)
      · exact absurd h (by simp)

theorem stripCI_none_of_append {pat w z : List Char}
    (h : stripCI pat (w ++ z) = none) : stripCI pat w = none := by
  cases hs : stripCI pat w with
  | none => rfl
  | some v =>
    obtain ⟨m, r⟩ := v
    rw [stripCI_extend hs z] at h
    cases h

theorem searchAt_hit {f : List Char → Option (List Char × List Char)}
    {cs m r : List Char} (h : f cs = some (m, r)) : searchAt f cs = some m := by
  cases cs with
  | nil => unfold searchAt; rw [h]; rfl
  | cons c rest => unfold searchAt; rw [h]

theorem dropWhile_noop {p : Char → Bool} {cs : List Char}
    (h : ∀ c, cs.head? = some c → p c = false) : cs.dropWhile p = cs := by
  cases cs with
  | nil => rfl
  | cons c rest =>
    rw [List.dropWhile_cons, h c rfl]
    simp

theorem dropWhile_append_all {p : Char → Bool} {a : List Char}
    (ha : ∀ c ∈ a, p c) (b : List Char) :
    (a ++ b).dropWhile p = b.dropWhile p := by
  induction a with
  | nil => rfl
  | cons x a' ih =>
    have hx : p x = true := ha x (by simp)
    simp only [List.cons_append, List.dropWhile_cons, hx, if_true]
    exact ih (fun c hc => ha c (by simp [hc]))

theorem rdrop_append_ws {A sp : List Char} (hsp : ∀ c ∈ sp, c.isWhitespace)
    (hlast : HeadNotWs A.reverse) :
    ((A ++ sp).reverse.dropWhile Char.isWhitespace).reverse = A := by
  rw [List.reverse_append, dropWhile_append_all (by simpa using hsp),
    dropWhile_noop (fun c hc => by simpa using hlast c hc), List.reverse_reverse]

/-- `strip` of `X ++ sp`, where `X` starts and ends with non-whitespace and
`sp` is all whitespace, is `X`. -/
theorem trimWs_append_ws {X sp : List Char} (hhead : HeadNotWs X)
    (hlast : HeadNotWs X.reverse) (hsp : ∀ c ∈ sp, c.isWhitespace) :
    trimWs (X ++ sp) = X := by
  cases X with
  | nil =>
    have h1 : sp.dropWhile Char.isWhitespace = [] := by
      have := dropWhile_append_all hsp ([] : List Char)
      simpa using this
    unfold trimWs
    simp [h1]
  | cons x X' =>
    have hx : x.isWhitespace = false := by simpa using hhead x rfl
    have h1 : List.dropWhile Char.isWhitespace (x :: (X' ++ sp)) = x :: (X' ++ sp) := by
      rw [List.dropWhile_cons, hx]
      simp
    unfold trimWs
    simp only [List.cons_append]
    rw [h1]
    have h2 := @rdrop_append_ws (x :: X') sp hsp hlast
    simpa using h2

/-- `strip` fixes a list that starts and ends with non-whitespace. -/
theorem trimWs_noop {X : List Char} (hhead : HeadNotWs X)
    (hlast : HeadNotWs X.reverse) : trimWs X = X := by
  have := @trimWs_append_ws X [] hhead hlast (by simp)
  simpa using this

/-! ### Idempotency: part_000 (SALARY_RE) component lemmas -/

/-- Shapes a currency-prefix match can take. -/
def CurShape (cur : List Char) : Prop :=
  cur = ['$'] ∨ (∃ c, (c = 'C' ∨ c = 'c') ∧ cur = [c, '$']) ∨
  (∃ c a, (c = 'C' ∨ c = 'c') ∧ (a = 'A' ∨ a = 'a') ∧ cur = [c, a, '$'])

/-- Shapes of the optional `[kK]`. -/
def KShape (k : List Char) : Prop := k = [] ∨ k = ['k'] ∨ k = ['K']

/-- Well-formed text consumed by `(?:[,\s]\d{3})*`. -/
inductive ThReps : List Char → Prop
  | nil : ThReps []
  | cons {c d1 d2 d3 : Char} {rest : List Char} :
      (c = ',' ∨ c.isWhitespace) → d1.isDigit → d2.isDigit → d3.isDigit →
      ThReps rest → ThReps (c :: d1 :: d2 :: d3 :: rest)

/-- Shapes of the optional `\.\d+` (or `\.\d{2}`) part. -/
def DecShape (dc : List Char) : Prop :=
  dc = [] ∨ ∃ ds, dc = '.' :: ds ∧ ds ≠ [] ∧ ∀ c ∈ ds, c.isDigit

/-- Shapes of a range separator match. -/
def SepShape (sep : List Char) : Prop :=
  sep = ['-'] ∨ sep = ['–'] ∨ sep = ['—'] ∨
  ∃ c1 c2, (c1 = 't' ∨ c1 = 'T') ∧ (c2 = 'o' ∨ c2 = 'O') ∧ sep = [c1, c2]

theorem matchCurrency_parts {cs cur r : List Char}
    (h : Scraper.matchCurrency cs = some (cur, r)) :
    cs = cur ++ r ∧ CurShape cur := by
  unfold Scraper.matchCurrency at h
  split at h
  · exact absurd h (by simp)
  · rename_i c0 r0
    split_ifs at h with h1 h2
    · simp only [Option.some.injEq, Prod.mk.injEq] at h
      obtain ⟨rfl, rfl⟩ := h
      subst h1
      exact ⟨rfl, Or.inl rfl⟩
    · split at h
      · exact absurd h (by simp)
      · rename_i c1 r1
        split_ifs at h with h3 h4
        · simp only [Option.some.injEq, Prod.mk.injEq] at h
          obtain ⟨rfl, rfl⟩ := h
          subst h3
          exact ⟨rfl, Or.inr (Or.inl ⟨c0, h2, rfl⟩)⟩
        · split at h
          · rename_i r2
            simp only [Option.some.injEq, Prod.mk.injEq] at h
            obtain ⟨rfl, rfl⟩ := h
            exact ⟨rfl, Or.inr (Or.inr ⟨c0, c1, h2, h4, rfl⟩)⟩
          · exact absurd h (by simp)

theorem matchCurrency_fwd {cur : List Char} (h : CurShape cur) (z : List Char) :
    Scraper.matchCurrency (cur ++ z) = some (cur, z) := by
  rcases h with rfl | ⟨c, hc, rfl⟩ | ⟨c, a, hc, ha, rfl⟩
  · rfl
  · rcases hc with rfl | rfl <;> rfl
  · rcases hc with rfl | rfl <;> rcases ha with rfl | rfl <;> rfl

theorem matchCurrency_none_digit {z : List Char} {c : Char}
    (hz : z.head? = some c) (hd : c.isDigit) : Scraper.matchCurrency z = none := by
  have hne : ¬(c = '$') ∧ ¬(c = 'C' ∨ c = 'c') := by
    constructor
    · rintro rfl; simp [Char.isDigit] at hd
    · rintro (rfl | rfl) <;> simp [Char.isDigit] at hd
  unfold Scraper.matchCurrency
  split
  · rfl
  · rename_i c0 r0
    rw [List.head?_cons] at hz
    have : c0 = c := Option.some.inj hz
    subst this
    rw [if_neg hne.1, if_neg hne.2]

theorem takeWhile_take_parts {p : Char → Bool} (cs : List Char) (n : Nat) :
    cs = (cs.takeWhile p).take n ++ cs.drop ((cs.takeWhile p).take n).length := by
  set A := (cs.takeWhile p).take n with hA
  have h1 : A <+: cs :=
    List.IsPrefix.trans (List.take_prefix n _) (List.takeWhile_prefix p)
  obtain ⟨t, ht⟩ := h1
  rw [← ht, List.drop_left]

theorem matchDigits13_parts {cs d r : List Char}
    (h : Scraper.matchDigits13 cs = some (d, r)) :
    cs = d ++ r ∧ d ≠ [] ∧ (∀ c ∈ d, c.isDigit) ∧ d.length ≤ 3 := by
  unfold Scraper.matchDigits13 at h
  split at h
  · exact absurd h (by simp)
  · rename_i hne
    simp only [Option.some.injEq, Prod.mk.injEq] at h
    obtain ⟨rfl, rfl⟩ := h
    refine ⟨takeWhile_take_parts cs 3,
      by simp only [List.isEmpty_iff] at hne; exact hne, ?_, ?_⟩
    · intro c hc
      exact List.mem_takeWhile_imp (List.take_subset 3 _ hc)
    · exact List.length_take_le 3 _

theorem matchDigits13_fwd {d : List Char} (hne : d ≠ []) (hd : ∀ c ∈ d, c.isDigit)
    (hlen : d.length ≤ 3) {z : List Char} (hz : HeadNotDigit z) :
    Scraper.matchDigits13 (d ++ z) = some (d, z) := by
  have htw := takeWhile_append_of_all (p := Char.isDigit) hd z
    (fun c hc => by simpa using hz c hc)
  unfold Scraper.matchDigits13
  rw [htw.1, List.take_of_length_le hlen]
  rw [if_neg (by simpa using hne)]
  congr 1
  rw [List.drop_left]

theorem matchThousands_parts (cs : List Char) :
    cs = (Scraper.matchThousands cs).1 ++ (Scraper.matchThousands cs).2 ∧
      ThReps (Scraper.matchThousands cs).1 := by
  generalize hn : cs.length = n
  induction n using Nat.strong_induction_on generalizing cs with
  | _ n ih =>
    rcases cs with - | ⟨c, - | ⟨d1, - | ⟨d2, - | ⟨d3, r⟩⟩⟩⟩
    · exact ⟨rfl, ThReps.nil⟩
    · exact ⟨rfl, ThReps.nil⟩
    · exact ⟨rfl, ThReps.nil⟩
    · exact ⟨rfl, ThReps.nil⟩
    · by_cases hcond : ((c = ',' ∨ c.isWhitespace) ∧ d1.isDigit ∧ d2.isDigit ∧ d3.isDigit)
      · have hr := ih r.length
          (by simp only [List.length_cons] at hn; omega) r rfl
        unfold Scraper.matchThousands
        rw [if_pos hcond]
        rcases hmt : Scraper.matchThousands r with ⟨m2, r2⟩
        rw [hmt] at hr
        refine ⟨?_, ?_⟩
        · simpa using hr.1
        · exact ThReps.cons hcond.1 hcond.2.1 hcond.2.2.1 hcond.2.2.2 hr.2
      · unfold Scraper.matchThousands
        rw [if_neg hcond]
        exact ⟨rfl, ThReps.nil⟩

theorem matchThousands_null {z : List Char}
    (h : (∀ c, z.head? = some c → ¬(c = ',' ∨ c.isWhitespace)) ∨
      (∀ c, (z.drop 1).head? = some c → ¬c.isDigit)) :
    Scraper.matchThousands z = ([], z) := by
  rcases z with - | ⟨c, - | ⟨d1, - | ⟨d2, - | ⟨d3, r⟩⟩⟩⟩
  · rfl
  · rfl
  · rfl
  · rfl
  · unfold Scraper.matchThousands
    rw [if_neg]
    rintro ⟨h1, h2, -⟩
    rcases h with h | h
    · exact h c rfl h1
    · exact h d1 rfl h2

theorem matchThousands_fwd {th : List Char} (hth : ThReps th) {z : List Char}
    (hz : Scraper.matchThousands z = ([], z)) :
    Scraper.matchThousands (th ++ z) = (th, z) := by
  induction hth with
  | nil => simpa using hz
  | cons h1 h2 h3 h4 hrest ih =>
    rename_i c d1 d2 d3 rest
    show Scraper.matchThousands (c :: d1 :: d2 :: d3 :: (rest ++ z)) = _
    unfold Scraper.matchThousands
    rw [if_pos ⟨h1, h2, h3, h4⟩, ih]

theorem matchDec_parts (cs : List Char) :
    cs = (Scraper.matchDec cs).1 ++ (Scraper.matchDec cs).2 ∧
      DecShape (Scraper.matchDec cs).1 := by
  unfold Scraper.matchDec
  split
  · rename_i r
    split
    · exact ⟨rfl, Or.inl rfl⟩
    · rename_i hne
      refine ⟨?_, Or.inr ⟨r.takeWhile Char.isDigit, rfl,
        by simp only [List.isEmpty_iff] at hne; exact hne,
        fun c hc => List.mem_takeWhile_imp hc⟩⟩
      have := takeWhile_take_parts (p := Char.isDigit) r (r.takeWhile Char.isDigit).length
      rw [List.take_length] at this  -- placeholder check
      simp only [List.cons_append, List.cons.injEq, true_and]
      exact this
  · exact ⟨rfl, Or.inl rfl⟩

theorem matchDec_fwd {ds : List Char} (hne : ds ≠ []) (hd : ∀ c ∈ ds, c.isDigit)
    {z : List Char} (hz : HeadNotDigit z) :
    Scraper.matchDec ('.' :: (ds ++ z)) = ('.' :: ds, z) := by
  have htw := takeWhile_append_of_all (p := Char.isDigit) hd z
    (fun c hc => by simpa using hz c hc)
  have he : Scraper.matchDec ('.' :: (ds ++ z)) =
      (if (((ds ++ z)).takeWhile Char.isDigit).isEmpty = true then ([], '.' :: (ds ++ z))
       else ('.' :: ((ds ++ z)).takeWhile Char.isDigit,
         ((ds ++ z)).drop (((ds ++ z)).takeWhile Char.isDigit).length)) := rfl
  rw [he, htw.1, if_neg (by simpa using hne)]
  have h1 : (ds ++ z).drop ds.length = z := List.drop_left ds z
  rw [h1]

theorem matchDec_null {z : List Char} (hz : z.head? ≠ some '.') :
    Scraper.matchDec z = ([], z) := by
  unfold Scraper.matchDec
  split
  · rename_i r
    simp at hz
  · rfl

theorem matchSpK_parts (cs : List Char) :
    ∃ sp k, (Scraper.matchSpK cs).1 = sp ++ k ∧
      cs = (sp ++ k) ++ (Scraper.matchSpK cs).2 ∧
      (∀ c ∈ sp, c.isWhitespace) ∧ KShape k ∧
      (k = [] → HeadNotWs (Scraper.matchSpK cs).2 ∧
        (Scraper.matchSpK cs).2.head? ≠ some 'k' ∧
        (Scraper.matchSpK cs).2.head? ≠ some 'K') := by
  obtain ⟨hsplit, hws, hhead⟩ := spanWs_parts cs
  unfold Scraper.matchSpK
  split
  · rename_i r2 heq
    refine ⟨(spanWs cs).1, ['k'], rfl, ?_, hws, Or.inr (Or.inl rfl), by simp⟩
    show cs = ((spanWs cs).1 ++ ['k']) ++ r2
    rw [List.append_assoc]
    conv_lhs => rw [hsplit, heq]
    rfl
  · rename_i r2 heq
    refine ⟨(spanWs cs).1, ['K'], rfl, ?_, hws, Or.inr (Or.inr rfl), by simp⟩
    show cs = ((spanWs cs).1 ++ ['K']) ++ r2
    rw [List.append_assoc]
    conv_lhs => rw [hsplit, heq]
    rfl
  · rename_i hk hK
    refine ⟨(spanWs cs).1, [], by simp, ?_, hws, Or.inl rfl, ?_⟩
    · show cs = ((spanWs cs).1 ++ []) ++ (spanWs cs).2
      simpa using hsplit
    · intro _
      refine ⟨hhead, ?_, ?_⟩
      · show ((spanWs cs).2).head? ≠ some 'k'
        intro hc
        rcases hm : (spanWs cs).2 with - | ⟨c, r⟩
        · rw [hm] at hc; cases hc
        · rw [hm] at hc
          simp only [List.head?_cons, Option.some.injEq] at hc
          subst hc
          exact hk r (by rw [hm])
      · show ((spanWs cs).2).head? ≠ some 'K'
        intro hc
        rcases hm : (spanWs cs).2 with - | ⟨c, r⟩
        · rw [hm] at hc; cases hc
        · rw [hm] at hc
          simp only [List.head?_cons, Option.some.injEq] at hc
          subst hc
          exact hK r (by rw [hm])

theorem matchSpK_fwd_k {sp k z : List Char} (hsp : ∀ c ∈ sp, c.isWhitespace)
    (hk : k = ['k'] ∨ k = ['K']) :
    Scraper.matchSpK (sp ++ (k ++ z)) = (sp ++ k, z) := by
  have hres : spanWs (sp ++ (k ++ z)) = (sp, k ++ z) := by
    apply spanWs_resume hsp
    rcases hk with rfl | rfl <;> exact headNotWs_cons (by decide)
  unfold Scraper.matchSpK
  rw [hres]
  rcases hk with rfl | rfl <;> rfl

theorem matchSpK_fwd_nok {sp z : List Char} (hsp : ∀ c ∈ sp, c.isWhitespace)
    (hz : HeadNotWs z) (hk : z.head? ≠ some 'k') (hK : z.head? ≠ some 'K') :
    Scraper.matchSpK (sp ++ z) = (sp, z) := by
  have hres : spanWs (sp ++ z) = (sp, z) := spanWs_resume hsp hz
  unfold Scraper.matchSpK
  rw [hres]
  rcases z with - | ⟨c, r⟩
  · rfl
  · have h1 : c ≠ 'k' := by simpa using hk
    have h2 : c ≠ 'K' := by simpa using hK
    split
    · rename_i heq
      injection heq with e1 e2
      exact absurd e1 h1
    · rename_i heq
      injection heq with e1 e2
      exact absurd e1 h2
    · rfl

theorem matchSep_parts {cs sep r : List Char}
    (h : Scraper.matchSep cs = some (sep, r)) : cs = sep ++ r ∧ SepShape sep := by
  unfold Scraper.matchSep at h
  split at h
  · exact absurd h (by simp)
  · rename_i c1 r1
    split_ifs at h with h1 h2 h3 h4
    · simp only [Option.some.injEq, Prod.mk.injEq] at h
      obtain ⟨rfl, rfl⟩ := h
      subst h1
      exact ⟨rfl, Or.inl rfl⟩
    · simp only [Option.some.injEq, Prod.mk.injEq] at h
      obtain ⟨rfl, rfl⟩ := h
      subst h2
      exact ⟨rfl, Or.inr (Or.inl rfl)⟩
    · simp only [Option.some.injEq, Prod.mk.injEq] at h
      obtain ⟨rfl, rfl⟩ := h
      subst h3
      exact ⟨rfl, Or.inr (Or.inr (Or.inl rfl))⟩
    · split at h
      · exact absurd h (by simp)
      · rename_i c2 r2
        split_ifs at h with h5
        simp only [Option.some.injEq, Prod.mk.injEq] at h
        obtain ⟨rfl, rfl⟩ := h
        exact ⟨rfl, Or.inr (Or.inr (Or.inr ⟨c1, c2, h4, h5, rfl⟩))⟩

theorem matchSep_fwd {sep : List Char} (h : SepShape sep) (z : List Char) :
    Scraper.matchSep (sep ++ z) = some (sep, z) := by
  rcases h with rfl | rfl | rfl | ⟨c1, c2, h1, h2, rfl⟩
  · rfl
  · rfl
  · rfl
  · rcases h1 with rfl | rfl <;> rcases h2 with rfl | rfl <;> rfl

theorem matchSep_none {z : List Char}
    (hz : ∀ c, z.head? = some c → (c ≠ '-' ∧ c ≠ '–' ∧ c ≠ '—' ∧ c ≠ 't' ∧ c ≠ 'T')) :
    Scraper.matchSep z = none := by
  unfold Scraper.matchSep
  split
  · rfl
  · rename_i c1 r1
    obtain ⟨n1, n2, n3, n4, n5⟩ := hz c1 rfl
    rw [if_neg n1, if_neg n2, if_neg n3, if_neg (by tauto)]

theorem ws_char_cases {c : Char} (h : c.isWhitespace) :
    c = ' ' ∨ c = '\t' ∨ c = '\r' ∨ c = '\n' := by
  simp only [Char.isWhitespace, Bool.or_eq_true, decide_eq_true_eq] at h
  tauto

theorem ws_not_digit {c : Char} (h : c.isWhitespace) : ¬ c.isDigit := by
  rcases ws_char_cases h with rfl | rfl | rfl | rfl <;> decide

theorem ws_ne {c : Char} (h : c.isWhitespace) (d : Char) (hd : ¬ d.isWhitespace) :
    c ≠ d := by
  rintro rfl
  exact hd h

theorem matchAmount_parts {cs amt r : List Char}
    (h : Scraper.matchAmount cs = some (amt, r)) :
    ∃ d th dc sp k,
      amt = d ++ (th ++ (dc ++ (sp ++ k))) ∧ cs = amt ++ r ∧
      d ≠ [] ∧ (∀ c ∈ d, c.isDigit) ∧ d.length ≤ 3 ∧
      ThReps th ∧ DecShape dc ∧ (∀ c ∈ sp, c.isWhitespace) ∧ KShape k ∧
      (k = [] → HeadNotWs r ∧ r.head? ≠ some 'k' ∧ r.head? ≠ some 'K') := by
  unfold Scraper.matchAmount at h
  split at h
  · exact absurd h (by simp)
  · rename_i d r1 hd13
    obtain ⟨hsplit1, hdne, hdall, hdlen⟩ := matchDigits13_parts hd13
    rcases hth : Scraper.matchThousands r1 with ⟨th, r2⟩
    rw [hth] at h
    split at h
    rename_i th2 r22 heq1
    injection heq1 with e1 e2
    subst e1
    subst e2
    have hthp := matchThousands_parts r1
    rw [hth] at hthp
    rcases hdc : Scraper.matchDec r2 with ⟨dc, r3⟩
    rw [hdc] at h
    split at h
    rename_i dc2 r32 heq2
    injection heq2 with e3 e4
    subst e3
    subst e4
    have hdcp := matchDec_parts r2
    rw [hdc] at hdcp
    rcases hspk : Scraper.matchSpK r3 with ⟨spk, r4⟩
    rw [hspk] at h
    split at h
    rename_i spk2 r42 heq3
    injection heq3 with e5 e6
    subst e5
    subst e6
    have hspkp := matchSpK_parts r3
    rw [hspk] at hspkp
    obtain ⟨sp, k, hspk1, hspk2, hspws, hkshape, hknull⟩ := hspkp
    simp only [Option.some.injEq, Prod.mk.injEq] at h
    obtain ⟨rfl, rfl⟩ := h
    simp only at hspk1 hspk2 hthp hdcp hknull
    refine ⟨d, th, dc, sp, k, ?_, ?_, hdne, hdall, hdlen, hthp.2, hdcp.2, hspws,
      hkshape, hknull⟩
    · rw [hspk1]
      simp [List.append_assoc]
    · rw [hsplit1, hthp.1, hdcp.1, hspk2, hspk1]
      simp [List.append_assoc]

theorem matchAmount_fwd {d th dc sp k z : List Char}
    (hdne : d ≠ []) (hdall : ∀ c ∈ d, c.isDigit) (hdlen : d.length ≤ 3)
    (hth : ThReps th) (hdc : DecShape dc) (hsp : ∀ c ∈ sp, c.isWhitespace)
    (hk : KShape k)
    (hzd : HeadNotDigit z) (hznc : z.head? ≠ some ',') (hznd : z.head? ≠ some '.')
    (hknull : k = [] → HeadNotWs z ∧ z.head? ≠ some 'k' ∧ z.head? ≠ some 'K') :
    Scraper.matchAmount (d ++ (th ++ (dc ++ (sp ++ (k ++ z))))) =
      some (d ++ (th ++ (dc ++ (sp ++ k))), z) := by
  have hspnd : HeadNotDigit (sp ++ (k ++ z)) := by
    rcases sp with - | ⟨c, sp'⟩
    · simp only [List.nil_append]
      rcases hk with rfl | rfl | rfl
      · simpa using hzd
      · exact headNotDigit_cons (by decide)
      · exact headNotDigit_cons (by decide)
    · exact headNotDigit_cons (ws_not_digit (hsp c (by simp)))
  have hafter : HeadNotDigit (th ++ (dc ++ (sp ++ (k ++ z)))) := by
    cases hth with
    | nil =>
      simp only [List.nil_append]
      rcases hdc with rfl | ⟨ds, rfl, hne, hds⟩
      · simpa using hspnd
      · exact headNotDigit_cons (by decide)
    | cons h1 h2 h3 h4 h5 =>
      rcases h1 with rfl | h1
      · exact headNotDigit_cons (by decide)
      · exact headNotDigit_cons (ws_not_digit h1)
  have h13 := matchDigits13_fwd hdne hdall hdlen hafter
  have hthz : Scraper.matchThousands (dc ++ (sp ++ (k ++ z))) =
      ([], dc ++ (sp ++ (k ++ z))) := by
    rcases hdc with rfl | ⟨ds, rfl, hne, hds⟩
    · simp only [List.nil_append]
      rcases sp with - | ⟨c, sp'⟩
      · simp only [List.nil_append]
        rcases hk with rfl | rfl | rfl
        · obtain ⟨hznw, -, -⟩ := hknull rfl
          refine matchThousands_null (Or.inl ?_)
          intro c hc
          rintro (rfl | hws)
          · simp only [List.nil_append] at hc
            exact hznc hc
          · exact hznw c (by simpa using hc) hws
        · refine matchThousands_null (Or.inl ?_)
          intro c hc
          simp only [List.cons_append, List.head?_cons, Option.some.injEq] at hc
          subst hc
          decide
        · refine matchThousands_null (Or.inl ?_)
          intro c hc
          simp only [List.cons_append, List.head?_cons, Option.some.injEq] at hc
          subst hc
          decide
      · refine matchThousands_null (Or.inr ?_)
        intro c2 hc2
        simp only [List.cons_append, List.drop_succ_cons, List.drop_zero] at hc2
        rcases sp' with - | ⟨c3, sp''⟩
        · simp only [List.nil_append] at hc2
          rcases hk with rfl | rfl | rfl
          · exact hzd c2 (by simpa using hc2)
          · simp only [List.cons_append, List.head?_cons, Option.some.injEq] at hc2
            subst hc2
            decide
          · simp only [List.cons_append, List.head?_cons, Option.some.injEq] at hc2
            subst hc2
            decide
        · simp only [List.cons_append, List.head?_cons, Option.some.injEq] at hc2
          subst hc2
          exact ws_not_digit (hsp c3 (by simp))
    · refine matchThousands_null (Or.inl ?_)
      intro c hc
      simp only [List.cons_append, List.head?_cons, Option.some.injEq] at hc
      subst hc
      decide
  have hdz : Scraper.matchDec (dc ++ (sp ++ (k ++ z))) = (dc, sp ++ (k ++ z)) := by
    rcases hdc with rfl | ⟨ds, rfl, hne, hds⟩
    · simp only [List.nil_append]
      apply matchDec_null
      rcases sp with - | ⟨c, sp'⟩
      · simp only [List.nil_append]
        rcases hk with rfl | rfl | rfl
        · simpa using hznd
        · simp
        · simp
      · have := hsp c (by simp)
        simp only [List.cons_append, List.head?_cons, ne_eq, Option.some.injEq]
        exact ws_ne this '.' (by decide)
    · simpa [List.append_assoc] using matchDec_fwd hne hds (z := sp ++ (k ++ z)) hspnd
  have hspkz : Scraper.matchSpK (sp ++ (k ++ z)) = (sp ++ k, z) := by
    rcases hk with rfl | rfl | rfl
    · obtain ⟨h1, h2, h3⟩ := hknull rfl
      simpa using matchSpK_fwd_nok hsp h1 h2 h3
    · exact matchSpK_fwd_k hsp (Or.inl rfl)
    · exact matchSpK_fwd_k hsp (Or.inr rfl)
  unfold Scraper.matchAmount
  rw [h13]
  simp only [matchThousands_fwd hth hthz, hdz, hspkz, List.append_assoc]

/-! ### Character-level helpers for case-insensitive matching -/

theorem digit_toLower {c : Char} (h : c.isDigit) : c.toLower = c := by
  simp only [Char.isDigit, Bool.and_eq_true, decide_eq_true_eq] at h
  have h2 : c.val.toNat ≤ 57 := h.2
  unfold Char.toLower
  rw [if_neg]
  rintro ⟨h1, -⟩
  have h3 : c.toNat = c.val.toNat := rfl
  omega

theorem ws_toLower {c : Char} (h : c.isWhitespace) : c.toLower = c := by
  rcases ws_char_cases h with rfl | rfl | rfl | rfl <;> decide

theorem digit_not_ws {c : Char} (h : c.isDigit) : ¬ c.isWhitespace :=
  fun hw => ws_not_digit hw h

theorem not_ws_of_toLower_mem {c : Char} {L : List Char} (h : c.toLower ∈ L)
    (hL : ∀ l ∈ L, ¬ l.isWhitespace) : ¬ c.isWhitespace := by
  intro hws
  rw [ws_toLower hws] at h
  exact hL c h hws

theorem not_digit_of_toLower_mem {c : Char} {L : List Char} (h : c.toLower ∈ L)
    (hL : ∀ l ∈ L, ¬ l.isDigit) : ¬ c.isDigit := by
  intro hd
  rw [digit_toLower hd] at h
  exact hL c h hd

theorem ne_of_toLower_mem {c d : Char} {L : List Char} (h : c.toLower ∈ L)
    (hd : d.toLower ∉ L) : c ≠ d := by
  rintro rfl
  exact hd h

/-! ### Alternation of case-insensitive literals: inversion and re-match -/

theorem stripCI_map {pat cs m r : List Char} (h : stripCI pat cs = some (m, r)) :
    m.map Char.toLower = pat := by
  induction pat generalizing cs m r with
  | nil =>
    unfold stripCI at h
    simp only [Option.some.injEq, Prod.mk.injEq] at h
    rw [← h.1]
    rfl
  | cons p ps ih =>
    cases cs with
    | nil => simp [stripCI] at h
    | cons c cs' =>
      unfold stripCI at h
      split at h
      · rename_i hlow
        split at h
        · rename_i m' r' heq
          simp only [Option.some.injEq, Prod.mk.injEq] at h
          rw [← h.1]
          simp only [List.map_cons, hlow, ih heq]
        · exact absurd h (by simp)
      · exact absurd h (by simp)

theorem stripCI_self {p w : List Char} (hw : w.map Char.toLower = p) (z : List Char) :
    stripCI p (w ++ z) = some (w, z) := by
  induction w generalizing p with
  | nil =>
    subst hw
    rfl
  | cons c w' ih =>
    subst hw
    simp only [List.map_cons, List.cons_append]
    unfold stripCI
    rw [if_pos rfl, ih rfl]

theorem stripCI_none_of_take {p q w : List Char} (hw : w.map Char.toLower = p)
    (h : p.take q.length ≠ q) : stripCI q w = none := by
  cases hs : stripCI q w with
  | none => rfl
  | some v =>
    obtain ⟨m, r⟩ := v
    have h1 := stripCI_split hs
    have h2 := stripCI_map hs
    exfalso
    apply h
    have hlen : q.length = m.length := by rw [← h2, List.length_map]
    rw [← hw, h1, List.map_append, h2, hlen]
    exact List.take_left' hlen

theorem tryPats_parts {pats : List (List Char)} {cs w r : List Char}
    (h : tryPats pats cs = some (w, r)) :
    cs = w ++ r ∧ ∃ p ∈ pats, w.map Char.toLower = p := by
  induction pats with
  | nil => simp [tryPats] at h
  | cons p ps ih =>
    unfold tryPats at h
    split at h
    · rename_i v heq
      obtain ⟨m, r'⟩ := v
      simp only [Option.some.injEq, Prod.mk.injEq] at h
      obtain ⟨rfl, rfl⟩ := h
      exact ⟨stripCI_split heq, p, by simp, stripCI_map heq⟩
    · obtain ⟨h1, p', hp', hm⟩ := ih h
      exact ⟨h1, p', by simp [hp'], hm⟩

/-- The unit words of SALARY_RE, up to case. -/
def UWordB (w : List Char) : Prop :=
  w.map Char.toLower ∈ ["hour".data, "hr".data, "year".data, "yr".data,
    "month".data, "mo".data, "week".data, "wk".data, "day".data, "annum".data]

/-- The unit words of the job_scan.py pattern, up to case. -/
def UWordA (w : List Char) : Prop :=
  w.map Char.toLower ∈ ["year".data, "yr".data, "annum".data, "hour".data,
    "hr".data, "month".data, "mo".data]

theorem matchUnitWord_parts {cs w r : List Char}
    (h : Scraper.matchUnitWord cs = some (w, r)) : cs = w ++ r ∧ UWordB w := by
  obtain ⟨h1, p, hp, hm⟩ := tryPats_parts h
  refine ⟨h1, ?_⟩
  show w.map Char.toLower ∈ _
  rw [hm]
  exact hp

theorem matchUnitWordA_parts {cs w r : List Char}
    (h : JobScan.matchUnitWordA cs = some (w, r)) : cs = w ++ r ∧ UWordA w := by
  obtain ⟨h1, p, hp, hm⟩ := tryPats_parts h
  refine ⟨h1, ?_⟩
  show w.map Char.toLower ∈ _
  rw [hm]
  exact hp

theorem tryPats_cons_none {p : List Char} {ps : List (List Char)} {cs : List Char}
    (h : stripCI p cs = none) : tryPats (p :: ps) cs = tryPats ps cs := by
  conv_lhs => unfold tryPats
  rw [h]

theorem tryPats_cons_some {p : List Char} {ps : List (List Char)} {cs m r : List Char}
    (h : stripCI p cs = some (m, r)) : tryPats (p :: ps) cs = some (m, r) := by
  conv_lhs => unfold tryPats
  rw [h]

theorem matchUnitWord_rerun {w : List Char} (h : UWordB w) :
    Scraper.matchUnitWord w = some (w, []) := by
  simp only [UWordB, List.mem_cons, List.not_mem_nil, or_false] at h
  rcases h with h | h | h | h | h | h | h | h | h | h
  · have es := stripCI_self h []
    rw [List.append_nil] at es
    show tryPats _ w = _
    rw [tryPats_cons_some es]
  · have es := stripCI_self h []
    rw [List.append_nil] at es
    have e0 : stripCI "hour".data w = none :=
      stripCI_none_of_take h (by decide)
    show tryPats _ w = _
    rw [tryPats_cons_none e0, tryPats_cons_some es]
  · have es := stripCI_self h []
    rw [List.append_nil] at es
    have e0 : stripCI "hour".data w = none :=
      stripCI_none_of_take h (by decide)
    have e1 : stripCI "hr".data w = none :=
      stripCI_none_of_take h (by decide)
    show tryPats _ w = _
    rw [tryPats_cons_none e0, tryPats_cons_none e1, tryPats_cons_some es]
  · have es := stripCI_self h []
    rw [List.append_nil] at es
    have e0 : stripCI "hour".data w = none :=
      stripCI_none_of_take h (by decide)
    have e1 : stripCI "hr".data w = none :=
      stripCI_none_of_take h (by decide)
    have e2 : stripCI "year".data w = none :=
      stripCI_none_of_take h (by decide)
    show tryPats _ w = _
    rw [tryPats_cons_none e0, tryPats_cons_none e1, tryPats_cons_none e2, tryPats_cons_some es]
  · have es := stripCI_self h []
    rw [List.append_nil] at es
    have e0 : stripCI "hour".data w = none :=
      stripCI_none_of_take h (by decide)
    have e1 : stripCI "hr".data w = none :=
      stripCI_none_of_take h (by decide)
    have e2 : stripCI "year".data w = none :=
      stripCI_none_of_take h (by decide)
    have e3 : stripCI "yr".data w = none :=
      stripCI_none_of_take h (by decide)
    show tryPats _ w = _
    rw [tryPats_cons_none e0, tryPats_cons_none e1, tryPats_cons_none e2, tryPats_cons_none e3, tryPats_cons_some es]
  · have es := stripCI_self h []
    rw [List.append_nil] at es
    have e0 : stripCI "hour".data w = none :=
      stripCI_none_of_take h (by decide)
    have e1 : stripCI "hr".data w = none :=
      stripCI_none_of_take h (by decide)
    have e2 : stripCI "year".data w = none :=
      stripCI_none_of_take h (by decide)
    have e3 : stripCI "yr".data w = none :=
      stripCI_none_of_take h (by decide)
    have e4 : stripCI "month".data w = none :=
      stripCI_none_of_take h (by decide)
    show tryPats _ w = _
    rw [tryPats_cons_none e0, tryPats_cons_none e1, tryPats_cons_none e2, tryPats_cons_none e3, tryPats_cons_none e4, tryPats_cons_some es]
  · have es := stripCI_self h []
    rw [List.append_nil] at es
    have e0 : stripCI "hour".data w = none :=
      stripCI_none_of_take h (by decide)
    have e1 : stripCI "hr".data w = none :=
      stripCI_none_of_take h (by decide)
    have e2 : stripCI "year".data w = none :=
      stripCI_none_of_take h (by decide)
    have e3 : stripCI "yr".data w = none :=
      stripCI_none_of_take h (by decide)
    have e4 : stripCI "month".data w = none :=
      stripCI_none_of_take h (by decide)
    have e5 : stripCI "mo".data w = none :=
      stripCI_none_of_take h (by decide)
    show tryPats _ w = _
    rw [tryPats_cons_none e0, tryPats_cons_none e1, tryPats_cons_none e2, tryPats_cons_none e3, tryPats_cons_none e4, tryPats_cons_none e5, tryPats_cons_some es]
  · have es := stripCI_self h []
    rw [List.append_nil] at es
    have e0 : stripCI "hour".data w = none :=
      stripCI_none_of_take h (by decide)
    have e1 : stripCI "hr".data w = none :=
      stripCI_none_of_take h (by decide)
    have e2 : stripCI "year".data w = none :=
      stripCI_none_of_take h (by decide)
    have e3 : stripCI "yr".data w = none :=
      stripCI_none_of_take h (by decide)
    have e4 : stripCI "month".data w = none :=
      stripCI_none_of_take h (by decide)
    have e5 : stripCI "mo".data w = none :=
      stripCI_none_of_take h (by decide)
    have e6 : stripCI "week".data w = none :=
      stripCI_none_of_take h (by decide)
    show tryPats _ w = _
    rw [tryPats_cons_none e0, tryPats_cons_none e1, tryPats_cons_none e2, tryPats_cons_none e3, tryPats_cons_none e4, tryPats_cons_none e5, tryPats_cons_none e6, tryPats_cons_some es]
  · have es := stripCI_self h []
    rw [List.append_nil] at es
    have e0 : stripCI "hour".data w = none :=
      stripCI_none_of_take h (by decide)
    have e1 : stripCI "hr".data w = none :=
      stripCI_none_of_take h (by decide)
    have e2 : stripCI "year".data w = none :=
      stripCI_none_of_take h (by decide)
    have e3 : stripCI "yr".data w = none :=
      stripCI_none_of_take h (by decide)
    have e4 : stripCI "month".data w = none :=
      stripCI_none_of_take h (by decide)
    have e5 : stripCI "mo".data w = none :=
      stripCI_none_of_take h (by decide)
    have e6 : stripCI "week".data w = none :=
      stripCI_none_of_take h (by decide)
    have e7 : stripCI "wk".data w = none :=
      stripCI_none_of_take h (by decide)
    show tryPats _ w = _
    rw [tryPats_cons_none e0, tryPats_cons_none e1, tryPats_cons_none e2, tryPats_cons_none e3, tryPats_cons_none e4, tryPats_cons_none e5, tryPats_cons_none e6, tryPats_cons_none e7, tryPats_cons_some es]
  · have es := stripCI_self h []
    rw [List.append_nil] at es
    have e0 : stripCI "hour".data w = none :=
      stripCI_none_of_take h (by decide)
    have e1 : stripCI "hr".data w = none :=
      stripCI_none_of_take h (by decide)
    have e2 : stripCI "year".data w = none :=
      stripCI_none_of_take h (by decide)
    have e3 : stripCI "yr".data w = none :=
      stripCI_none_of_take h (by decide)
    have e4 : stripCI "month".data w = none :=
      stripCI_none_of_take h (by decide)
    have e5 : stripCI "mo".data w = none :=
      stripCI_none_of_take h (by decide)
    have e6 : stripCI "week".data w = none :=
      stripCI_none_of_take h (by decide)
    have e7 : stripCI "wk".data w = none :=
      stripCI_none_of_take h (by decide)
    have e8 : stripCI "day".data w = none :=
      stripCI_none_of_take h (by decide)
    show tryPats _ w = _
    rw [tryPats_cons_none e0, tryPats_cons_none e1, tryPats_cons_none e2, tryPats_cons_none e3, tryPats_cons_none e4, tryPats_cons_none e5, tryPats_cons_none e6, tryPats_cons_none e7, tryPats_cons_none e8, tryPats_cons_some es]

theorem matchUnitWordA_rerun {w : List Char} (h : UWordA w) :
    JobScan.matchUnitWordA w = some (w, []) := by
  simp only [UWordA, List.mem_cons, List.not_mem_nil, or_false] at h
  rcases h with h | h | h | h | h | h | h
  · have es := stripCI_self h []
    rw [List.append_nil] at es
    show tryPats _ w = _
    rw [tryPats_cons_some es]
  · have es := stripCI_self h []
    rw [List.append_nil] at es
    have e0 : stripCI "year".data w = none :=
      stripCI_none_of_take h (by decide)
    show tryPats _ w = _
    rw [tryPats_cons_none e0, tryPats_cons_some es]
  · have es := stripCI_self h []
    rw [List.append_nil] at es
    have e0 : stripCI "year".data w = none :=
      stripCI_none_of_take h (by decide)
    have e1 : stripCI "yr".data w = none :=
      stripCI_none_of_take h (by decide)
    show tryPats _ w = _
    rw [tryPats_cons_none e0, tryPats_cons_none e1, tryPats_cons_some es]
  · have es := stripCI_self h []
    rw [List.append_nil] at es
    have e0 : stripCI "year".data w = none :=
      stripCI_none_of_take h (by decide)
    have e1 : stripCI "yr".data w = none :=
      stripCI_none_of_take h (by decide)
    have e2 : stripCI "annum".data w = none :=
      stripCI_none_of_take h (by decide)
    show tryPats _ w = _
    rw [tryPats_cons_none e0, tryPats_cons_none e1, tryPats_cons_none e2, tryPats_cons_some es]
  · have es := stripCI_self h []
    rw [List.append_nil] at es
    have e0 : stripCI "year".data w = none :=
      stripCI_none_of_take h (by decide)
    have e1 : stripCI "yr".data w = none :=
      stripCI_none_of_take h (by decide)
    have e2 : stripCI "annum".data w = none :=
      stripCI_none_of_take h (by decide)
    have e3 : stripCI "hour".data w = none :=
      stripCI_none_of_take h (by decide)
    show tryPats _ w = _
    rw [tryPats_cons_none e0, tryPats_cons_none e1, tryPats_cons_none e2, tryPats_cons_none e3, tryPats_cons_some es]
  · have es := stripCI_self h []
    rw [List.append_nil] at es
    have e0 : stripCI "year".data w = none :=
      stripCI_none_of_take h (by decide)
    have e1 : stripCI "yr".data w = none :=
      stripCI_none_of_take h (by decide)
    have e2 : stripCI "annum".data w = none :=
      stripCI_none_of_take h (by decide)
    have e3 : stripCI "hour".data w = none :=
      stripCI_none_of_take h (by decide)
    have e4 : stripCI "hr".data w = none :=
      stripCI_none_of_take h (by decide)
    show tryPats _ w = _
    rw [tryPats_cons_none e0, tryPats_cons_none e1, tryPats_cons_none e2, tryPats_cons_none e3, tryPats_cons_none e4, tryPats_cons_some es]
  · have es := stripCI_self h []
    rw [List.append_nil] at es
    have e0 : stripCI "year".data w = none :=
      stripCI_none_of_take h (by decide)
    have e1 : stripCI "yr".data w = none :=
      stripCI_none_of_take h (by decide)
    have e2 : stripCI "annum".data w = none :=
      stripCI_none_of_take h (by decide)
    have e3 : stripCI "hour".data w = none :=
      stripCI_none_of_take h (by decide)
    have e4 : stripCI "hr".data w = none :=
      stripCI_none_of_take h (by decide)
    have e5 : stripCI "month".data w = none :=
      stripCI_none_of_take h (by decide)
    show tryPats _ w = _
    rw [tryPats_cons_none e0, tryPats_cons_none e1, tryPats_cons_none e2, tryPats_cons_none e3, tryPats_cons_none e4, tryPats_cons_none e5, tryPats_cons_some es]

theorem map_cons_inv {w q : List Char} {l : Char}
    (h : w.map Char.toLower = l :: q) :
    ∃ c w', w = c :: w' ∧ c.toLower = l ∧ w'.map Char.toLower = q := by
  cases w with
  | nil => simp at h
  | cons c w' =>
    simp only [List.map_cons, List.cons.injEq] at h
    exact ⟨c, w', rfl, h.1, h.2⟩

theorem map_rev {w p : List Char} (h : w.map Char.toLower = p) :
    w.reverse.map Char.toLower = p.reverse := by
  rw [List.map_reverse, h]

theorem stripCI_none_head {p : Char} {ps : List Char} {c : Char} {cs : List Char}
    (h : c.toLower ≠ p) : stripCI (p :: ps) (c :: cs) = none := by
  unfold stripCI
  rw [if_neg h]

theorem uwordB_head {w : List Char} (h : UWordB w) :
    ∃ c w', w = c :: w' ∧ c.toLower ∈ ['h', 'y', 'm', 'w', 'd', 'a'] := by
  simp only [UWordB, List.mem_cons, List.not_mem_nil, or_false] at h
  rcases h with h | h | h | h | h | h | h | h | h | h
  · obtain ⟨c, w', rfl, hc, -⟩ := map_cons_inv (l := 'h') (q := "our".data) h
    exact ⟨c, w', rfl, by rw [hc]; decide⟩
  · obtain ⟨c, w', rfl, hc, -⟩ := map_cons_inv (l := 'h') (q := "r".data) h
    exact ⟨c, w', rfl, by rw [hc]; decide⟩
  · obtain ⟨c, w', rfl, hc, -⟩ := map_cons_inv (l := 'y') (q := "ear".data) h
    exact ⟨c, w', rfl, by rw [hc]; decide⟩
  · obtain ⟨c, w', rfl, hc, -⟩ := map_cons_inv (l := 'y') (q := "r".data) h
    exact ⟨c, w', rfl, by rw [hc]; decide⟩
  · obtain ⟨c, w', rfl, hc, -⟩ := map_cons_inv (l := 'm') (q := "onth".data) h
    exact ⟨c, w', rfl, by rw [hc]; decide⟩
  · obtain ⟨c, w', rfl, hc, -⟩ := map_cons_inv (l := 'm') (q := "o".data) h
    exact ⟨c, w', rfl, by rw [hc]; decide⟩
  · obtain ⟨c, w', rfl, hc, -⟩ := map_cons_inv (l := 'w') (q := "eek".data) h
    exact ⟨c, w', rfl, by rw [hc]; decide⟩
  · obtain ⟨c, w', rfl, hc, -⟩ := map_cons_inv (l := 'w') (q := "k".data) h
    exact ⟨c, w', rfl, by rw [hc]; decide⟩
  · obtain ⟨c, w', rfl, hc, -⟩ := map_cons_inv (l := 'd') (q := "ay".data) h
    exact ⟨c, w', rfl, by rw [hc]; decide⟩
  · obtain ⟨c, w', rfl, hc, -⟩ := map_cons_inv (l := 'a') (q := "nnum".data) h
    exact ⟨c, w', rfl, by rw [hc]; decide⟩

theorem uwordB_last {w : List Char} (h : UWordB w) :
    ∃ c r, w.reverse = c :: r ∧ c.toLower ∈ ['r', 'h', 'o', 'k', 'y', 'm'] := by
  simp only [UWordB, List.mem_cons, List.not_mem_nil, or_false] at h
  rcases h with h | h | h | h | h | h | h | h | h | h
  · obtain ⟨c, r, he, hc, -⟩ := map_cons_inv (l := 'r') (q := "uoh".data) (map_rev h)
    exact ⟨c, r, he, by rw [hc]; decide⟩
  · obtain ⟨c, r, he, hc, -⟩ := map_cons_inv (l := 'r') (q := "h".data) (map_rev h)
    exact ⟨c, r, he, by rw [hc]; decide⟩
  · obtain ⟨c, r, he, hc, -⟩ := map_cons_inv (l := 'r') (q := "aey".data) (map_rev h)
    exact ⟨c, r, he, by rw [hc]; decide⟩
  · obtain ⟨c, r, he, hc, -⟩ := map_cons_inv (l := 'r') (q := "y".data) (map_rev h)
    exact ⟨c, r, he, by rw [hc]; decide⟩
  · obtain ⟨c, r, he, hc, -⟩ := map_cons_inv (l := 'h') (q := "tnom".data) (map_rev h)
    exact ⟨c, r, he, by rw [hc]; decide⟩
  · obtain ⟨c, r, he, hc, -⟩ := map_cons_inv (l := 'o') (q := "m".data) (map_rev h)
    exact ⟨c, r, he, by rw [hc]; decide⟩
  · obtain ⟨c, r, he, hc, -⟩ := map_cons_inv (l := 'k') (q := "eew".data) (map_rev h)
    exact ⟨c, r, he, by rw [hc]; decide⟩
  · obtain ⟨c, r, he, hc, -⟩ := map_cons_inv (l := 'k') (q := "w".data) (map_rev h)
    exact ⟨c, r, he, by rw [hc]; decide⟩
  · obtain ⟨c, r, he, hc, -⟩ := map_cons_inv (l := 'y') (q := "ad".data) (map_rev h)
    exact ⟨c, r, he, by rw [hc]; decide⟩
  · obtain ⟨c, r, he, hc, -⟩ := map_cons_inv (l := 'm') (q := "unna".data) (map_rev h)
    exact ⟨c, r, he, by rw [hc]; decide⟩

theorem uwordA_head {w : List Char} (h : UWordA w) :
    ∃ c w', w = c :: w' ∧ c.toLower ∈ ['y', 'a', 'h', 'm'] := by
  simp only [UWordA, List.mem_cons, List.not_mem_nil, or_false] at h
  rcases h with h | h | h | h | h | h | h
  · obtain ⟨c, w', rfl, hc, -⟩ := map_cons_inv (l := 'y') (q := "ear".data) h
    exact ⟨c, w', rfl, by rw [hc]; decide⟩
  · obtain ⟨c, w', rfl, hc, -⟩ := map_cons_inv (l := 'y') (q := "r".data) h
    exact ⟨c, w', rfl, by rw [hc]; decide⟩
  · obtain ⟨c, w', rfl, hc, -⟩ := map_cons_inv (l := 'a') (q := "nnum".data) h
    exact ⟨c, w', rfl, by rw [hc]; decide⟩
  · obtain ⟨c, w', rfl, hc, -⟩ := map_cons_inv (l := 'h') (q := "our".data) h
    exact ⟨c, w', rfl, by rw [hc]; decide⟩
  · obtain ⟨c, w', rfl, hc, -⟩ := map_cons_inv (l := 'h') (q := "r".data) h
    exact ⟨c, w', rfl, by rw [hc]; decide⟩
  · obtain ⟨c, w', rfl, hc, -⟩ := map_cons_inv (l := 'm') (q := "onth".data) h
    exact ⟨c, w', rfl, by rw [hc]; decide⟩
  · obtain ⟨c, w', rfl, hc, -⟩ := map_cons_inv (l := 'm') (q := "o".data) h
    exact ⟨c, w', rfl, by rw [hc]; decide⟩

theorem uwordA_last {w : List Char} (h : UWordA w) :
    ∃ c r, w.reverse = c :: r ∧ c.toLower ∈ ['r', 'm', 'h', 'o'] := by
  simp only [UWordA, List.mem_cons, List.not_mem_nil, or_false] at h
  rcases h with h | h | h | h | h | h | h
  · obtain ⟨c, r, he, hc, -⟩ := map_cons_inv (l := 'r') (q := "aey".data) (map_rev h)
    exact ⟨c, r, he, by rw [hc]; decide⟩
  · obtain ⟨c, r, he, hc, -⟩ := map_cons_inv (l := 'r') (q := "y".data) (map_rev h)
    exact ⟨c, r, he, by rw [hc]; decide⟩
  · obtain ⟨c, r, he, hc, -⟩ := map_cons_inv (l := 'm') (q := "unna".data) (map_rev h)
    exact ⟨c, r, he, by rw [hc]; decide⟩
  · obtain ⟨c, r, he, hc, -⟩ := map_cons_inv (l := 'r') (q := "uoh".data) (map_rev h)
    exact ⟨c, r, he, by rw [hc]; decide⟩
  · obtain ⟨c, r, he, hc, -⟩ := map_cons_inv (l := 'r') (q := "h".data) (map_rev h)
    exact ⟨c, r, he, by rw [hc]; decide⟩
  · obtain ⟨c, r, he, hc, -⟩ := map_cons_inv (l := 'h') (q := "tnom".data) (map_rev h)
    exact ⟨c, r, he, by rw [hc]; decide⟩
  · obtain ⟨c, r, he, hc, -⟩ := map_cons_inv (l := 'o') (q := "m".data) (map_rev h)
    exact ⟨c, r, he, by rw [hc]; decide⟩

/-- Shapes of the connector inside a matched unit tail of SALARY_RE. -/
def ConnB (conn sp2 : List Char) : Prop :=
  (conn = ['/'] ∧ sp2 = []) ∨
  (conn.map Char.toLower = "per".data ∧ (∀ c ∈ sp2, c.isWhitespace)) ∨
  (conn = [] ∧ sp2 = [])

theorem matchUnit_nil : Scraper.matchUnit [] = ([], []) := rfl

theorem matchUnit_parts {cs unit r : List Char} (h : Scraper.matchUnit cs = (unit, r)) :
    (unit = [] ∧ r = cs) ∨
    ∃ sp conn sp2 w,
      unit = sp ++ (conn ++ (sp2 ++ w)) ∧ cs = unit ++ r ∧
      (∀ c ∈ sp, c.isWhitespace) ∧ UWordB w ∧ ConnB conn sp2 := by
  obtain ⟨hcs, hspws, hhead⟩ := spanWs_parts cs
  unfold Scraper.matchUnit at h
  rcases hsw : spanWs cs with ⟨sp, r1⟩
  rw [hsw] at h
  rw [hsw] at hcs hspws hhead
  split at h
  rename_i sp' r1' heq0
  injection heq0 with e1 e2
  subst e1
  subst e2
  split at h
  · rename_i r2
    split at h
    · rename_i w r3 hmw
      injection h with e3 e4
      subst e3
      subst e4
      obtain ⟨hr2, hW⟩ := matchUnitWord_parts hmw
      refine Or.inr ⟨sp, ['/'], [], w, by simp, ?_, hspws, hW, Or.inl ⟨rfl, rfl⟩⟩
      rw [hcs, hr2]
      simp
    · injection h with e3 e4
      subst e3
      subst e4
      exact Or.inl ⟨rfl, rfl⟩
  · rename_i hnotslash
    split at h
    · rename_i per r2 hper
      rcases hsw2 : spanWs r2 with ⟨sp2, r3⟩
      rw [hsw2] at h
      split at h
      rename_i sp2' r3' heq1
      injection heq1 with e3 e4
      subst e3
      subst e4
      obtain ⟨hr2, hsp2ws, -⟩ := spanWs_parts r2
      rw [hsw2] at hr2 hsp2ws
      split at h
      · rename_i w r4 hmw
        injection h with e5 e6
        subst e5
        subst e6
        obtain ⟨hr3, hW⟩ := matchUnitWord_parts hmw
        refine Or.inr ⟨sp, per, sp2, w, by simp [List.append_assoc], ?_, hspws, hW,
          Or.inr (Or.inl ⟨stripCI_map hper, hsp2ws⟩)⟩
        rw [hcs, stripCI_split hper, hr2, hr3]
        simp
      · split at h
        · rename_i w r2' hmw
          injection h with e5 e6
          subst e5
          subst e6
          obtain ⟨hr1, hW⟩ := matchUnitWord_parts hmw
          refine Or.inr ⟨sp, [], [], w, by simp, ?_, hspws, hW,
            Or.inr (Or.inr ⟨rfl, rfl⟩)⟩
          rw [hcs, hr1]
          simp
        · injection h with e5 e6
          subst e5
          subst e6
          exact Or.inl ⟨rfl, rfl⟩
    · split at h
      · rename_i w r2' hmw
        injection h with e5 e6
        subst e5
        subst e6
        obtain ⟨hr1, hW⟩ := matchUnitWord_parts hmw
        refine Or.inr ⟨sp, [], [], w, by simp, ?_, hspws, hW,
          Or.inr (Or.inr ⟨rfl, rfl⟩)⟩
        rw [hcs, hr1]
        simp
      · injection h with e5 e6
        subst e5
        subst e6
        exact Or.inl ⟨rfl, rfl⟩

theorem matchUnit_fwd {sp conn sp2 w : List Char}
    (hsp : ∀ c ∈ sp, c.isWhitespace) (hw : UWordB w) (hconn : ConnB conn sp2) :
    Scraper.matchUnit (sp ++ (conn ++ (sp2 ++ w))) = (sp ++ (conn ++ (sp2 ++ w)), []) := by
  obtain ⟨cw, w', rfl, hcL⟩ := uwordB_head hw
  have hcwns : ¬ cw.isWhitespace := not_ws_of_toLower_mem hcL (by decide)
  have hwr := matchUnitWord_rerun hw
  rcases hconn with ⟨rfl, rfl⟩ | ⟨hper, hsp2⟩ | ⟨rfl, rfl⟩
  · have hspan : spanWs (sp ++ ('/' :: (cw :: w'))) = (sp, '/' :: (cw :: w')) :=
      spanWs_resume hsp (headNotWs_cons (by decide))
    unfold Scraper.matchUnit
    simp only [List.nil_append, List.cons_append] at hspan ⊢
    rw [hspan]
    simp only [hwr]
  · obtain ⟨c1, cr, rfl, hc1, hper2⟩ := map_cons_inv (l := 'p') (q := "er".data) hper
    have hc1p : c1.toLower ∈ ['p'] := by rw [hc1]; decide
    have hc1ns : ¬ c1.isWhitespace := not_ws_of_toLower_mem hc1p (by decide)
    have hspan : spanWs (sp ++ ((c1 :: cr) ++ (sp2 ++ (cw :: w')))) =
        (sp, (c1 :: cr) ++ (sp2 ++ (cw :: w'))) :=
      spanWs_resume hsp (headNotWs_cons hc1ns)
    have hspan2 : spanWs (sp2 ++ (cw :: w')) = (sp2, cw :: w') :=
      spanWs_resume hsp2 (headNotWs_cons hcwns)
    have hstrip : stripCI "per".data ((c1 :: cr) ++ (sp2 ++ (cw :: w'))) =
        some (c1 :: cr, sp2 ++ (cw :: w')) := stripCI_self hper _
    unfold Scraper.matchUnit
    simp only [List.cons_append] at hspan hstrip ⊢
    rw [hspan]
    split
    · rename_i r2 heq
      injection heq with e1 e2
      exact absurd e1 (ne_of_toLower_mem hc1p (by decide))
    · rw [hstrip]
      simp only [hspan2, hwr]
      simp [List.append_assoc]
  · have hspan : spanWs (sp ++ (cw :: w')) = (sp, cw :: w') :=
      spanWs_resume hsp (headNotWs_cons hcwns)
    have hstrip : stripCI "per".data (cw :: w') = none :=
      stripCI_none_head (fun he => by rw [he] at hcL; exact absurd hcL (by decide))
    unfold Scraper.matchUnit
    simp only [List.nil_append]
    rw [hspan]
    split
    · rename_i r2 heq
      injection heq with e1 e2
      exact absurd e1 (ne_of_toLower_mem hcL (by decide))
    · rw [hstrip]
      simp only [hwr]

theorem matchRange_nil : Scraper.matchRange [] = ([], []) := rfl

theorem matchRange_null {z : List Char}
    (h : Scraper.matchSep (z.dropWhile Char.isWhitespace) = none) :
    Scraper.matchRange z = ([], z) := by
  have h2 : Scraper.matchSep (spanWs z).2 = none := h
  unfold Scraper.matchRange
  rcases hsw : spanWs z with ⟨sp1, r1⟩
  rw [hsw] at h2
  simp only [h2]

/-- Shape of the optional second-currency part of a matched range. -/
def CoShape (co sp3 : List Char) : Prop :=
  (CurShape co ∧ (∀ c ∈ sp3, c.isWhitespace)) ∨ (co = [] ∧ sp3 = [])

theorem matchRange_parts {cs rng r : List Char} (h : Scraper.matchRange cs = (rng, r)) :
    (rng = [] ∧ r = cs) ∨
    ∃ sp1 sep sp2 co sp3 d th dc sp k,
      rng = sp1 ++ (sep ++ (sp2 ++ (co ++ (sp3 ++ (d ++ (th ++ (dc ++ (sp ++ k)))))))) ∧
      cs = rng ++ r ∧
      (∀ c ∈ sp1, c.isWhitespace) ∧ SepShape sep ∧ (∀ c ∈ sp2, c.isWhitespace) ∧
      CoShape co sp3 ∧
      d ≠ [] ∧ (∀ c ∈ d, c.isDigit) ∧ d.length ≤ 3 ∧
      ThReps th ∧ DecShape dc ∧ (∀ c ∈ sp, c.isWhitespace) ∧ KShape k ∧
      (k = [] → HeadNotWs r ∧ r.head? ≠ some 'k' ∧ r.head? ≠ some 'K') := by
  obtain ⟨hcs, hsp1ws, -⟩ := spanWs_parts cs
  unfold Scraper.matchRange at h
  rcases hsw : spanWs cs with ⟨sp1, r1⟩
  rw [hsw] at h hcs hsp1ws
  split at h
  rename_i sp1' r1' heq0
  injection heq0 with e1 e2
  subst e1
  subst e2
  split at h
  · injection h with e3 e4
    subst e3
    subst e4
    exact Or.inl ⟨rfl, rfl⟩
  · rename_i sep r2 hsep
    obtain ⟨hr1, hsepS⟩ := matchSep_parts hsep
    obtain ⟨hr2, hsp2ws, -⟩ := spanWs_parts r2
    rcases hsw2 : spanWs r2 with ⟨sp2, r3⟩
    rw [hsw2] at h hr2 hsp2ws
    split at h
    rename_i sp2' r3' heq1
    injection heq1 with e3 e4
    subst e3
    subst e4
    split at h
    · rename_i cur r4 hcur
      obtain ⟨hr3, hcurS⟩ := matchCurrency_parts hcur
      obtain ⟨hr4, hsp3ws, -⟩ := spanWs_parts r4
      rcases hsw3 : spanWs r4 with ⟨sp3, r5⟩
      rw [hsw3] at h hr4 hsp3ws
      split at h
      rename_i sp3' r5' heq2
      injection heq2 with e5 e6
      subst e5
      subst e6
      split at h
      · rename_i amt r6 hamt
        injection h with e7 e8
        subst e7
        subst e8
        obtain ⟨d, th, dc, sp, k, hamt1, hamt2, hdne, hdall, hdlen, hth, hdc,
          hspws, hk, hknull⟩ := matchAmount_parts hamt
        refine Or.inr ⟨sp1, sep, sp2, cur, sp3, d, th, dc, sp, k, ?_, ?_,
          hsp1ws, hsepS, hsp2ws, Or.inl ⟨hcurS, hsp3ws⟩,
          hdne, hdall, hdlen, hth, hdc, hspws, hk, hknull⟩
        · rw [hamt1]
          simp [List.append_assoc]
        · rw [hcs, hr1, hr2, hr3, hr4, hamt2, hamt1]
          simp [List.append_assoc]
      · injection h with e7 e8
        subst e7
        subst e8
        exact Or.inl ⟨rfl, rfl⟩
    · split at h
      · rename_i amt r4 hamt
        injection h with e7 e8
        subst e7
        subst e8
        obtain ⟨d, th, dc, sp, k, hamt1, hamt2, hdne, hdall, hdlen, hth, hdc,
          hspws, hk, hknull⟩ := matchAmount_parts hamt
        refine Or.inr ⟨sp1, sep, sp2, [], [], d, th, dc, sp, k, ?_, ?_,
          hsp1ws, hsepS, hsp2ws, Or.inr ⟨rfl, rfl⟩,
          hdne, hdall, hdlen, hth, hdc, hspws, hk, hknull⟩
        · rw [hamt1]
          simp [List.append_assoc]
        · rw [hcs, hr1, hr2, hamt2, hamt1]
          simp [List.append_assoc]
      · injection h with e7 e8
        subst e7
        subst e8
        exact Or.inl ⟨rfl, rfl⟩

theorem sepShape_head_not_ws {sep : List Char} (h : SepShape sep) (X : List Char) :
    HeadNotWs (sep ++ X) := by
  rcases h with rfl | rfl | rfl | ⟨c1, c2, h1, h2, rfl⟩
  · exact headNotWs_cons (by decide)
  · exact headNotWs_cons (by decide)
  · exact headNotWs_cons (by decide)
  · rcases h1 with rfl | rfl <;> exact headNotWs_cons (by decide)

theorem matchRange_fwd {sp1 sep sp2 co sp3 d th dc sp k z : List Char}
    (hsp1 : ∀ c ∈ sp1, c.isWhitespace) (hsep : SepShape sep)
    (hsp2 : ∀ c ∈ sp2, c.isWhitespace) (hco : CoShape co sp3)
    (hdne : d ≠ []) (hdall : ∀ c ∈ d, c.isDigit) (hdlen : d.length ≤ 3)
    (hth : ThReps th) (hdc : DecShape dc) (hsp : ∀ c ∈ sp, c.isWhitespace)
    (hk : KShape k)
    (hzd : HeadNotDigit z) (hznc : z.head? ≠ some ',') (hznd : z.head? ≠ some '.')
    (hknull : k = [] → HeadNotWs z ∧ z.head? ≠ some 'k' ∧ z.head? ≠ some 'K') :
    Scraper.matchRange
        (sp1 ++ (sep ++ (sp2 ++ (co ++ (sp3 ++ (d ++ (th ++ (dc ++ (sp ++ (k ++ z)))))))))) =
      (sp1 ++ (sep ++ (sp2 ++ (co ++ (sp3 ++ (d ++ (th ++ (dc ++ (sp ++ k)))))))), z) := by
  have hamt := matchAmount_fwd hdne hdall hdlen hth hdc hsp hk hzd hznc hznd hknull
  rcases d with - | ⟨dh, d'⟩
  · exact absurd rfl hdne
  have hdh : dh.isDigit := hdall dh (by simp)
  have hdhns : ¬ dh.isWhitespace := digit_not_ws hdh
  rcases hco with ⟨hcur, hsp3⟩ | ⟨rfl, rfl⟩
  · have hspan1 : spanWs (sp1 ++ (sep ++ (sp2 ++ (co ++ (sp3 ++ ((dh :: d') ++ (th ++ (dc ++ (sp ++ (k ++ z)))))))))) =
        (sp1, sep ++ (sp2 ++ (co ++ (sp3 ++ ((dh :: d') ++ (th ++ (dc ++ (sp ++ (k ++ z))))))))) :=
      spanWs_resume hsp1 (sepShape_head_not_ws hsep _)
    have hcons : ∃ ch ct, co = ch :: ct ∧ ¬ ch.isWhitespace := by
      rcases hcur with rfl | ⟨c, hc, rfl⟩ | ⟨c, a, hc, ha, rfl⟩
      · exact ⟨'$', [], rfl, by decide⟩
      · rcases hc with rfl | rfl
        · exact ⟨'C', ['$'], rfl, by decide⟩
        · exact ⟨'c', ['$'], rfl, by decide⟩
      · rcases hc with rfl | rfl <;> exact ⟨_, _, rfl, by decide⟩
    obtain ⟨ch, ct, rfl, hchns⟩ := hcons
    have hspan2 : spanWs (sp2 ++ ((ch :: ct) ++ (sp3 ++ ((dh :: d') ++ (th ++ (dc ++ (sp ++ (k ++ z)))))))) =
        (sp2, (ch :: ct) ++ (sp3 ++ ((dh :: d') ++ (th ++ (dc ++ (sp ++ (k ++ z))))))) :=
      spanWs_resume hsp2 (headNotWs_cons hchns)
    have hspan3 : spanWs (sp3 ++ ((dh :: d') ++ (th ++ (dc ++ (sp ++ (k ++ z)))))) =
        (sp3, (dh :: d') ++ (th ++ (dc ++ (sp ++ (k ++ z))))) :=
      spanWs_resume hsp3 (headNotWs_cons hdhns)
    unfold Scraper.matchRange
    rw [hspan1]
    simp only [matchSep_fwd hsep, hspan2, matchCurrency_fwd hcur, hspan3, hamt]
    simp [List.append_assoc]
  · have hspan1 : spanWs (sp1 ++ (sep ++ (sp2 ++ ([] ++ ([] ++ ((dh :: d') ++ (th ++ (dc ++ (sp ++ (k ++ z)))))))))) =
        (sp1, sep ++ (sp2 ++ ((dh :: d') ++ (th ++ (dc ++ (sp ++ (k ++ z))))))) := by
      simp only [List.nil_append]
      exact spanWs_resume hsp1 (sepShape_head_not_ws hsep _)
    have hspan2 : spanWs (sp2 ++ ((dh :: d') ++ (th ++ (dc ++ (sp ++ (k ++ z)))))) =
        (sp2, (dh :: d') ++ (th ++ (dc ++ (sp ++ (k ++ z))))) :=
      spanWs_resume hsp2 (headNotWs_cons hdhns)
    have hnc : Scraper.matchCurrency ((dh :: d') ++ (th ++ (dc ++ (sp ++ (k ++ z))))) = none :=
      matchCurrency_none_digit (by simp) hdh
    unfold Scraper.matchRange
    rw [hspan1]
    simp only [matchSep_fwd hsep, hspan2, hnc, hamt]
    simp [List.append_assoc]

/-- Conditions on a continuation that keep the numeric components greedy-stable:
it does not start with a digit, a comma, or a dot. -/
def SafeTail (z : List Char) : Prop :=
  HeadNotDigit z ∧ z.head? ≠ some ',' ∧ z.head? ≠ some '.'

theorem safeTail_nil : SafeTail [] :=
  ⟨headNotDigit_nil, by simp, by simp⟩

theorem safeTail_ws_cons {c : Char} {t : List Char} (h : c.isWhitespace) :
    SafeTail (c :: t) :=
  ⟨headNotDigit_cons (ws_not_digit h), by simpa using ws_ne h ',' (by decide),
    by simpa using ws_ne h '.' (by decide)⟩

theorem safeTail_append {a b : List Char} (h : SafeTail a) (hne : a ≠ []) :
    SafeTail (a ++ b) := by
  cases a with
  | nil => exact absurd rfl hne
  | cons c t =>
    obtain ⟨h1, h2, h3⟩ := h
    refine ⟨fun x hx => ?_, ?_, ?_⟩
    · simp only [List.cons_append, List.head?_cons, Option.some.injEq] at hx
      exact hx ▸ h1 c rfl
    · simpa using fun e => h2 (by simp [e])
    · simpa using fun e => h3 (by simp [e])

theorem headFacts_transfer {u r : List Char} (hne : u ≠ [])
    (h : HeadNotWs (u ++ r) ∧ (u ++ r).head? ≠ some 'k' ∧ (u ++ r).head? ≠ some 'K') :
    HeadNotWs u ∧ u.head? ≠ some 'k' ∧ u.head? ≠ some 'K' := by
  cases u with
  | nil => exact absurd rfl hne
  | cons c t =>
    obtain ⟨h1, h2, h3⟩ := h
    refine ⟨fun x hx => ?_, ?_, ?_⟩
    · simp only [List.head?_cons, Option.some.injEq] at hx
      exact hx ▸ h1 c (by simp)
    · simpa using fun e => h2 (by simp [e])
    · simpa using fun e => h3 (by simp [e])

theorem headNotWs_append {a b : List Char} (ha : HeadNotWs a) (hne : a ≠ []) :
    HeadNotWs (a ++ b) := by
  cases a with
  | nil => exact absurd rfl hne
  | cons c t =>
    refine fun x hx => ?_
    simp only [List.cons_append, List.head?_cons, Option.some.injEq] at hx
    exact hx ▸ ha c rfl

theorem lastNotWs_append {a b : List Char} (hb : HeadNotWs b.reverse) (hne : b ≠ []) :
    HeadNotWs (a ++ b).reverse := by
  rw [List.reverse_append]
  exact headNotWs_append hb (by simpa using hne)

theorem curShape_head_not_ws {cur : List Char} (h : CurShape cur) (X : List Char) :
    HeadNotWs (cur ++ X) := by
  rcases h with rfl | ⟨c, hc, rfl⟩ | ⟨c, a, hc, ha, rfl⟩
  · exact headNotWs_cons (by decide)
  · rcases hc with rfl | rfl <;> exact headNotWs_cons (by decide)
  · rcases hc with rfl | rfl <;> exact headNotWs_cons (by decide)

theorem sepBlock_safeTail {sp1 sep X : List Char} (hsp : ∀ c ∈ sp1, c.isWhitespace)
    (hsep : SepShape sep) : SafeTail (sp1 ++ (sep ++ X)) := by
  cases sp1 with
  | cons c t => exact safeTail_ws_cons (hsp c (by simp))
  | nil =>
    simp only [List.nil_append]
    rcases hsep with rfl | rfl | rfl | ⟨c1, c2, h1, h2, rfl⟩
    · exact ⟨headNotDigit_cons (by decide), by simp, by simp⟩
    · exact ⟨headNotDigit_cons (by decide), by simp, by simp⟩
    · exact ⟨headNotDigit_cons (by decide), by simp, by simp⟩
    · rcases h1 with rfl | rfl <;>
        exact ⟨headNotDigit_cons (by decide), by simp, by simp⟩

theorem unit_safeTail {spU conn sp2U w : List Char}
    (hspU : ∀ c ∈ spU, c.isWhitespace) (hW : UWordB w) (hconn : ConnB conn sp2U) :
    SafeTail (spU ++ (conn ++ (sp2U ++ w))) := by
  cases spU with
  | cons c t => exact safeTail_ws_cons (hspU c (by simp))
  | nil =>
    simp only [List.nil_append]
    obtain ⟨cw, w', rfl, hcL⟩ := uwordB_head hW
    rcases hconn with ⟨rfl, rfl⟩ | ⟨hper, hsp2⟩ | ⟨rfl, rfl⟩
    · exact ⟨headNotDigit_cons (by decide), by simp, by simp⟩
    · obtain ⟨c1, cr, rfl, hc1, -⟩ := map_cons_inv (l := 'p') (q := "er".data) hper
      have hc1p : c1.toLower ∈ ['p'] := by rw [hc1]; decide
      refine ⟨headNotDigit_cons (not_digit_of_toLower_mem hc1p (by decide)), ?_, ?_⟩
      · simpa using ne_of_toLower_mem hc1p (by decide)
      · simpa using ne_of_toLower_mem hc1p (by decide)
    · refine ⟨headNotDigit_cons (not_digit_of_toLower_mem hcL (by decide)), ?_, ?_⟩
      · simpa using ne_of_toLower_mem hcL (by decide)
      · simpa using ne_of_toLower_mem hcL (by decide)

theorem unit_ne {spU conn sp2U w : List Char} (hW : UWordB w) :
    spU ++ (conn ++ (sp2U ++ w)) ≠ [] := by
  obtain ⟨cw, w', rfl, -⟩ := uwordB_head hW
  simp

theorem unit_noSep {spU conn sp2U w : List Char}
    (hspU : ∀ c ∈ spU, c.isWhitespace) (hW : UWordB w) (hconn : ConnB conn sp2U) :
    Scraper.matchSep ((spU ++ (conn ++ (sp2U ++ w))).dropWhile Char.isWhitespace) = none := by
  obtain ⟨cw, w', rfl, hcL⟩ := uwordB_head hW
  rw [dropWhile_append_all (by simpa using hspU)]
  rcases hconn with ⟨rfl, rfl⟩ | ⟨hper, hsp2⟩ | ⟨rfl, rfl⟩
  · rw [dropWhile_noop (fun c hc => by
      simp only [List.cons_append, List.head?_cons, Option.some.injEq] at hc
      subst hc
      decide)]
    exact matchSep_none (fun c hc => by
      simp only [List.cons_append, List.head?_cons, Option.some.injEq] at hc
      subst hc
      decide)
  · obtain ⟨c1, cr, rfl, hc1, -⟩ := map_cons_inv (l := 'p') (q := "er".data) hper
    have hc1p : c1.toLower ∈ ['p'] := by rw [hc1]; decide
    rw [dropWhile_noop (fun c hc => by
      simp only [List.cons_append, List.head?_cons, Option.some.injEq] at hc
      subst hc
      simpa using not_ws_of_toLower_mem hc1p (by decide))]
    refine matchSep_none (fun c hc => ?_)
    simp only [List.cons_append, List.head?_cons, Option.some.injEq] at hc
    subst hc
    exact ⟨ne_of_toLower_mem hc1p (by decide), ne_of_toLower_mem hc1p (by decide),
      ne_of_toLower_mem hc1p (by decide), ne_of_toLower_mem hc1p (by decide),
      ne_of_toLower_mem hc1p (by decide)⟩
  · rw [dropWhile_noop (fun c hc => by
      simp only [List.nil_append, List.head?_cons, Option.some.injEq] at hc
      subst hc
      simpa using not_ws_of_toLower_mem hcL (by decide))]
    refine matchSep_none (fun c hc => ?_)
    simp only [List.nil_append, List.head?_cons, Option.some.injEq] at hc
    subst hc
    exact ⟨ne_of_toLower_mem hcL (by decide), ne_of_toLower_mem hcL (by decide),
      ne_of_toLower_mem hcL (by decide), ne_of_toLower_mem hcL (by decide),
      ne_of_toLower_mem hcL (by decide)⟩

theorem unit_last {spU conn sp2U w : List Char} (hW : UWordB w) :
    HeadNotWs (spU ++ (conn ++ (sp2U ++ w))).reverse := by
  obtain ⟨c, r, hrev, hc⟩ := uwordB_last hW
  have hwne : w ≠ [] := by
    intro he
    rw [he] at hrev
    cases hrev
  refine lastNotWs_append (lastNotWs_append (lastNotWs_append ?_ hwne) (by
    simp [hwne])) (by simp [hwne])
  rw [hrev]
  exact headNotWs_cons (not_ws_of_toLower_mem hc (by decide))

theorem threps_rev {th : List Char} (hth : ThReps th) :
    th = [] ∨ ∃ c t, th.reverse = c :: t ∧ c.isDigit := by
  induction hth with
  | nil => exact Or.inl rfl
  | cons h1 h2 h3 h4 hrest ih =>
    rename_i c d1 d2 d3 rest
    refine Or.inr ?_
    rcases ih with rfl | ⟨c', t', hrev, hdig⟩
    · exact ⟨d3, [d2, d1, c], by simp, h4⟩
    · refine ⟨c', t' ++ [d3, d2, d1, c], ?_, hdig⟩
      show (c :: d1 :: d2 :: d3 :: rest).reverse = _
      simp only [List.reverse_cons, List.append_assoc]
      rw [hrev]
      simp

theorem amt_core_last {d th dc : List Char} (hdne : d ≠ [])
    (hdall : ∀ c ∈ d, c.isDigit) (hth : ThReps th) (hdc : DecShape dc) :
    ∃ c t, (d ++ (th ++ dc)).reverse = c :: t ∧ c.isDigit := by
  rcases hdc with rfl | ⟨ds, rfl, hdsne, hds⟩
  · rcases threps_rev hth with rfl | ⟨c, t, hrev, hdig⟩
    · rcases hd : d.reverse with - | ⟨c, t⟩
      · exact absurd (by simpa using congrArg List.reverse hd) hdne
      · refine ⟨c, t, by simpa using hd, ?_⟩
        apply hdall
        have : c ∈ d.reverse := by rw [hd]; simp
        simpa using this
    · refine ⟨c, t ++ d.reverse, ?_, hdig⟩
      simp only [List.append_nil, List.reverse_append, hrev]
      simp
  · rcases hd2 : ds.reverse with - | ⟨c, t⟩
    · exact absurd (by simpa using congrArg List.reverse hd2) hdsne
    · refine ⟨c, t ++ ('.' :: (th.reverse ++ d.reverse)), ?_, ?_⟩
      · simp only [List.reverse_append, List.reverse_cons, hd2]
        simp
      · apply hds
        have : c ∈ ds.reverse := by rw [hd2]; simp
        simpa using this


theorem sepBlock_ne {sp1 sep X : List Char} (hsep : SepShape sep) :
    sp1 ++ (sep ++ X) ≠ [] := by
  have hne : sep ≠ [] := by
    rcases hsep with rfl | rfl | rfl | ⟨c1, c2, h1, h2, rfl⟩ <;> simp
  simp [hne]

theorem lastNotWs_of_eq_append {core a b : List Char} (he : core = a ++ b)
    (h : HeadNotWs b.reverse) (hne : b ≠ []) : HeadNotWs core.reverse :=
  he ▸ lastNotWs_append h hne

theorem matchSalary_rematch {cs m r : List Char}
    (h : Scraper.matchSalary cs = some (m, r)) :
    ∃ core spT, m = core ++ spT ∧ (∀ c ∈ spT, c.isWhitespace) ∧
      HeadNotWs core ∧ HeadNotWs core.reverse ∧ core ≠ [] ∧
      Scraper.matchSalary core = some (core, []) := by
  unfold Scraper.matchSalary at h
  split at h
  · exact absurd h (by simp)
  · rename_i cur r1 hcur
    obtain ⟨hr1eq, hcurS⟩ := matchCurrency_parts hcur
    rcases hsw1 : spanWs r1 with ⟨sp1, r2⟩
    rw [hsw1] at h
    split at h
    rename_i sp1' r2' heq0
    injection heq0 with e1 e2
    subst e1
    subst e2
    obtain ⟨hr1p, hsp1ws, hr2h⟩ := spanWs_parts r1
    rw [hsw1] at hr1p hsp1ws hr2h
    dsimp only at hr1p hsp1ws hr2h
    split at h
    · exact absurd h (by simp)
    · rename_i amt r3 hamt
      obtain ⟨d, th, dc, sp, k, hamtEq, hr2p, hdne, hdall, hdlen, hth, hdcS,
        hspws, hkS, hknullO⟩ := matchAmount_parts hamt
      rcases hrg : Scraper.matchRange r3 with ⟨rng, r4⟩
      rw [hrg] at h
      split at h
      rename_i rng' r4' heq1
      injection heq1 with e3 e4
      subst e3
      subst e4
      rcases hun : Scraper.matchUnit r4 with ⟨unit, r5⟩
      rw [hun] at h
      split at h
      rename_i unit' r5' heq2
      injection heq2 with e5 e6
      subst e5
      subst e6
      simp only [Option.some.injEq, Prod.mk.injEq] at h
      obtain ⟨rfl, rfl⟩ := h
      rcases d with - | ⟨dh, d'⟩
      · exact absurd rfl hdne
      have hdh : dh.isDigit := hdall dh (by simp)
      have hdhns : ¬ dh.isWhitespace := digit_not_ws hdh
      have hcurne : cur ≠ [] := by
        rcases hcurS with rfl | ⟨c, hc, rfl⟩ | ⟨c, a, hc, ha, rfl⟩ <;> simp
      rcases matchUnit_parts hun with ⟨hu0, hr45⟩ |
        ⟨spU, conn, sp2U, w, huEq, hr4p, hspU, hW, hconn⟩
      · -- unit is empty
        subst hu0
        rcases matchRange_parts hrg with ⟨hrg0, hr34⟩ |
          ⟨sp1x, sepx, sp2x, cox, sp3x, d2, th2, dc2, sp2, k2, hrngEq, hr3p,
            hsp1xw, hsepS, hsp2xw, hcoS, hd2ne, hd2all, hd2len, hth2, hdc2S,
            hsp2w2, hk2S, hknull2O⟩
        · -- no range
          subst hrg0
          rcases hkS with hk0 | hkk
          · -- k empty: trim the trailing whitespace of the amount
            subst hk0
            refine ⟨cur ++ (sp1 ++ ((dh :: d') ++ (th ++ dc))), sp, ?_, hspws,
              curShape_head_not_ws hcurS _, ?_, by simp [hcurne], ?_⟩
            · rw [hamtEq]
              simp [List.append_assoc]
            · obtain ⟨c0, t0, hrev0, hdig0⟩ :=
                amt_core_last (d := dh :: d') (by simp) hdall hth hdcS
              refine lastNotWs_of_eq_append
                (a := cur ++ sp1) (b := (dh :: d') ++ (th ++ dc))
                (by simp [List.append_assoc]) ?_ (by simp)
              rw [hrev0]
              exact headNotWs_cons (digit_not_ws hdig0)
            · have hamtF : Scraper.matchAmount ((dh :: d') ++ (th ++ dc)) =
                  some ((dh :: d') ++ (th ++ dc), []) := by
                simpa using @matchAmount_fwd (dh :: d') th dc [] [] []
                  (by simp) hdall hdlen hth hdcS (by simp) (Or.inl rfl)
                  headNotDigit_nil (by simp) (by simp)
                  (fun _ => ⟨headNotWs_nil, by simp, by simp⟩)
              have hspanX : spanWs (sp1 ++ ((dh :: d') ++ (th ++ dc))) =
                  (sp1, (dh :: d') ++ (th ++ dc)) :=
                spanWs_resume hsp1ws (headNotWs_cons hdhns)
              unfold Scraper.matchSalary
              rw [matchCurrency_fwd hcurS]
              simp only [hspanX, hamtF, matchRange_nil, matchUnit_nil]
              simp [List.append_assoc]
          · -- k = 'k' or 'K': nothing to trim
            have hkne : k ≠ [] := by rcases hkk with rfl | rfl <;> simp
            have hkrev : HeadNotWs k.reverse := by
              rcases hkk with rfl | rfl <;> exact headNotWs_cons (by decide)
            refine ⟨cur ++ (sp1 ++ ((dh :: d') ++ (th ++ (dc ++ (sp ++ k))))),
              [], ?_, by simp, curShape_head_not_ws hcurS _, ?_,
              by simp [hcurne], ?_⟩
            · rw [hamtEq]
              simp [List.append_assoc]
            · exact lastNotWs_of_eq_append
                (a := cur ++ (sp1 ++ ((dh :: d') ++ (th ++ (dc ++ sp))))) (b := k)
                (by simp [List.append_assoc]) hkrev hkne
            · have hamtF : Scraper.matchAmount
                  ((dh :: d') ++ (th ++ (dc ++ (sp ++ k)))) =
                  some ((dh :: d') ++ (th ++ (dc ++ (sp ++ k))), []) := by
                simpa using @matchAmount_fwd (dh :: d') th dc sp k []
                  (by simp) hdall hdlen hth hdcS hspws (Or.inr hkk)
                  headNotDigit_nil (by simp) (by simp)
                  (fun _ => ⟨headNotWs_nil, by simp, by simp⟩)
              have hspanX : spanWs (sp1 ++ ((dh :: d') ++ (th ++ (dc ++ (sp ++ k))))) =
                  (sp1, (dh :: d') ++ (th ++ (dc ++ (sp ++ k)))) :=
                spanWs_resume hsp1ws (headNotWs_cons hdhns)
              unfold Scraper.matchSalary
              rw [matchCurrency_fwd hcurS]
              simp only [hspanX, hamtF, matchRange_nil, matchUnit_nil]
              simp [List.append_assoc]
        · -- a range was matched; unit empty
          rcases d2 with - | ⟨d2h, d2'⟩
          · exact absurd rfl hd2ne
          rcases hk2S with hk20 | hk2k
          · -- inner k empty: trim the range amount's trailing whitespace
            subst hk20
            have hr3eq : r3 =
                (sp1x ++ (sepx ++ (sp2x ++ (cox ++ (sp3x ++ ((d2h :: d2') ++
                  (th2 ++ dc2))))))) ++ (sp2 ++ r5) := by
              rw [hr3p, hrngEq, ← hr45]
              simp [List.append_assoc]
            have hamtF : Scraper.matchAmount
                (((dh :: d') ++ (th ++ (dc ++ (sp ++ k)))) ++
                  (sp1x ++ (sepx ++ (sp2x ++ (cox ++ (sp3x ++ ((d2h :: d2') ++
                    (th2 ++ dc2)))))))) =
                some ((dh :: d') ++ (th ++ (dc ++ (sp ++ k))),
                  sp1x ++ (sepx ++ (sp2x ++ (cox ++ (sp3x ++ ((d2h :: d2') ++
                    (th2 ++ dc2))))))) := by
              have hsafe := sepBlock_safeTail (X := sp2x ++ (cox ++ (sp3x ++
                ((d2h :: d2') ++ (th2 ++ dc2))))) hsp1xw hsepS
              have := @matchAmount_fwd (dh :: d') th dc sp k
                (sp1x ++ (sepx ++ (sp2x ++ (cox ++ (sp3x ++ ((d2h :: d2') ++
                  (th2 ++ dc2))))))) (by simp) hdall hdlen hth hdcS hspws hkS
                hsafe.1 hsafe.2.1 hsafe.2.2
                (fun hk0 => headFacts_transfer (sepBlock_ne hsepS)
                  (hr3eq ▸ hknullO hk0))
              simpa [List.append_assoc] using this
            have hrngF : Scraper.matchRange
                (sp1x ++ (sepx ++ (sp2x ++ (cox ++ (sp3x ++ ((d2h :: d2') ++
                  (th2 ++ dc2))))))) =
                (sp1x ++ (sepx ++ (sp2x ++ (cox ++ (sp3x ++ ((d2h :: d2') ++
                  (th2 ++ dc2)))))), []) := by
              have := @matchRange_fwd sp1x sepx sp2x cox sp3x (d2h :: d2')
                th2 dc2 [] [] [] hsp1xw hsepS hsp2xw
                hcoS (by simp) hd2all hd2len hth2 hdc2S (by simp) (Or.inl rfl)
                headNotDigit_nil (by simp) (by simp)
                (fun _ => ⟨headNotWs_nil, by simp, by simp⟩)
              simpa [List.append_assoc] using this
            have hspanX : spanWs (sp1 ++ (((dh :: d') ++ (th ++ (dc ++ (sp ++ k)))) ++
                (sp1x ++ (sepx ++ (sp2x ++ (cox ++ (sp3x ++ ((d2h :: d2') ++
                  (th2 ++ dc2))))))))) =
                (sp1, ((dh :: d') ++ (th ++ (dc ++ (sp ++ k)))) ++
                  (sp1x ++ (sepx ++ (sp2x ++ (cox ++ (sp3x ++ ((d2h :: d2') ++
                    (th2 ++ dc2)))))))) :=
              spanWs_resume hsp1ws (headNotWs_cons hdhns)
            refine ⟨cur ++ (sp1 ++ (((dh :: d') ++ (th ++ (dc ++ (sp ++ k)))) ++
              (sp1x ++ (sepx ++ (sp2x ++ (cox ++ (sp3x ++ ((d2h :: d2') ++
                (th2 ++ dc2))))))))), sp2, ?_, hsp2w2,
              curShape_head_not_ws hcurS _, ?_, by simp [hcurne], ?_⟩
            · rw [hamtEq, hrngEq]
              simp [List.append_assoc]
            · obtain ⟨c0, t0, hrev0, hdig0⟩ :=
                amt_core_last (d := d2h :: d2') (by simp) hd2all hth2 hdc2S
              refine lastNotWs_of_eq_append
                (a := cur ++ (sp1 ++ (((dh :: d') ++ (th ++ (dc ++ (sp ++ k)))) ++
                  (sp1x ++ (sepx ++ (sp2x ++ (cox ++ sp3x)))))))
                (b := (d2h :: d2') ++ (th2 ++ dc2))
                (by simp [List.append_assoc]) ?_ (by simp)
              rw [hrev0]
              exact headNotWs_cons (digit_not_ws hdig0)
            · unfold Scraper.matchSalary
              rw [matchCurrency_fwd hcurS]
              simp only [hspanX, hamtF, hrngF, matchUnit_nil]
              simp [List.append_assoc]
          · -- inner k present: nothing to trim
            have hk2ne : k2 ≠ [] := by rcases hk2k with rfl | rfl <;> simp
            have hk2rev : HeadNotWs k2.reverse := by
              rcases hk2k with rfl | rfl <;> exact headNotWs_cons (by decide)
            have hr3eq : r3 =
                (sp1x ++ (sepx ++ (sp2x ++ (cox ++ (sp3x ++ ((d2h :: d2') ++
                  (th2 ++ (dc2 ++ (sp2 ++ k2))))))))) ++ r5 := by
              rw [hr3p, hrngEq, ← hr45]
            have hamtF : Scraper.matchAmount
                (((dh :: d') ++ (th ++ (dc ++ (sp ++ k)))) ++
                  (sp1x ++ (sepx ++ (sp2x ++ (cox ++ (sp3x ++ ((d2h :: d2') ++
                    (th2 ++ (dc2 ++ (sp2 ++ k2)))))))))) =
                some ((dh :: d') ++ (th ++ (dc ++ (sp ++ k))),
                  sp1x ++ (sepx ++ (sp2x ++ (cox ++ (sp3x ++ ((d2h :: d2') ++
                    (th2 ++ (dc2 ++ (sp2 ++ k2))))))))) := by
              have hsafe := sepBlock_safeTail (X := sp2x ++ (cox ++ (sp3x ++
                ((d2h :: d2') ++ (th2 ++ (dc2 ++ (sp2 ++ k2))))))) hsp1xw hsepS
              have := @matchAmount_fwd (dh :: d') th dc sp k
                (sp1x ++ (sepx ++ (sp2x ++ (cox ++ (sp3x ++ ((d2h :: d2') ++
                  (th2 ++ (dc2 ++ (sp2 ++ k2))))))))) (by simp) hdall hdlen hth
                hdcS hspws hkS hsafe.1 hsafe.2.1 hsafe.2.2
                (fun hk0 => headFacts_transfer (sepBlock_ne hsepS)
                  (hr3eq ▸ hknullO hk0))
              simpa [List.append_assoc] using this
            have hrngF : Scraper.matchRange
                (sp1x ++ (sepx ++ (sp2x ++ (cox ++ (sp3x ++ ((d2h :: d2') ++
                  (th2 ++ (dc2 ++ (sp2 ++ k2))))))))) =
                (sp1x ++ (sepx ++ (sp2x ++ (cox ++ (sp3x ++ ((d2h :: d2') ++
                  (th2 ++ (dc2 ++ (sp2 ++ k2)))))))), []) := by
              have := @matchRange_fwd sp1x sepx sp2x cox sp3x (d2h :: d2')
                th2 dc2 sp2 k2 [] hsp1xw hsepS hsp2xw
                hcoS (by simp) hd2all hd2len hth2 hdc2S hsp2w2 (Or.inr hk2k)
                headNotDigit_nil (by simp) (by simp)
                (fun _ => ⟨headNotWs_nil, by simp, by simp⟩)
              simpa [List.append_assoc] using this
            have hspanX : spanWs (sp1 ++ (((dh :: d') ++ (th ++ (dc ++ (sp ++ k)))) ++
                (sp1x ++ (sepx ++ (sp2x ++ (cox ++ (sp3x ++ ((d2h :: d2') ++
                  (th2 ++ (dc2 ++ (sp2 ++ k2))))))))))) =
                (sp1, ((dh :: d') ++ (th ++ (dc ++ (sp ++ k)))) ++
                  (sp1x ++ (sepx ++ (sp2x ++ (cox ++ (sp3x ++ ((d2h :: d2') ++
                    (th2 ++ (dc2 ++ (sp2 ++ k2)))))))))) :=
              spanWs_resume hsp1ws (headNotWs_cons hdhns)
            refine ⟨cur ++ (sp1 ++ (((dh :: d') ++ (th ++ (dc ++ (sp ++ k)))) ++
              (sp1x ++ (sepx ++ (sp2x ++ (cox ++ (sp3x ++ ((d2h :: d2') ++
                (th2 ++ (dc2 ++ (sp2 ++ k2))))))))))), [], ?_, by simp,
              curShape_head_not_ws hcurS _, ?_, by simp [hcurne], ?_⟩
            · rw [hamtEq, hrngEq]
              simp [List.append_assoc]
            · exact lastNotWs_of_eq_append
                (a := cur ++ (sp1 ++ (((dh :: d') ++ (th ++ (dc ++ (sp ++ k)))) ++
                  (sp1x ++ (sepx ++ (sp2x ++ (cox ++ (sp3x ++ ((d2h :: d2') ++
                    (th2 ++ (dc2 ++ sp2)))))))))))
                (b := k2) (by simp [List.append_assoc]) hk2rev hk2ne
            · unfold Scraper.matchSalary
              rw [matchCurrency_fwd hcurS]
              simp only [hspanX, hamtF, hrngF, matchUnit_nil]
              simp [List.append_assoc]
      · -- a unit was matched: nothing to trim
        subst huEq
        have hUne : spU ++ (conn ++ (sp2U ++ w)) ≠ [] := unit_ne hW
        have hUsafe := unit_safeTail hspU hW hconn
        have hUlast := @unit_last spU conn sp2U w hW
        have huF := matchUnit_fwd hspU hW hconn
        rcases matchRange_parts hrg with ⟨hrg0, hr34⟩ |
          ⟨sp1x, sepx, sp2x, cox, sp3x, d2, th2, dc2, sp2, k2, hrngEq, hr3p,
            hsp1xw, hsepS, hsp2xw, hcoS, hd2ne, hd2all, hd2len, hth2, hdc2S,
            hsp2w2, hk2S, hknull2O⟩
        · -- no range, unit present
          subst hrg0
          have hr3eq : r3 = (spU ++ (conn ++ (sp2U ++ w))) ++ r5 := by
            rw [← hr34]
            exact hr4p
          have hamtF : Scraper.matchAmount
              (((dh :: d') ++ (th ++ (dc ++ (sp ++ k)))) ++
                (spU ++ (conn ++ (sp2U ++ w)))) =
              some ((dh :: d') ++ (th ++ (dc ++ (sp ++ k))),
                spU ++ (conn ++ (sp2U ++ w))) := by
            have := @matchAmount_fwd (dh :: d') th dc sp k
              (spU ++ (conn ++ (sp2U ++ w))) (by simp) hdall hdlen hth
              hdcS hspws hkS hUsafe.1 hUsafe.2.1 hUsafe.2.2
              (fun hk0 => headFacts_transfer hUne (hr3eq ▸ hknullO hk0))
            simpa [List.append_assoc] using this
          have hrngN : Scraper.matchRange (spU ++ (conn ++ (sp2U ++ w))) =
              ([], spU ++ (conn ++ (sp2U ++ w))) :=
            matchRange_null (unit_noSep hspU hW hconn)
          have hspanX : spanWs (sp1 ++ (((dh :: d') ++ (th ++ (dc ++ (sp ++ k)))) ++
              (spU ++ (conn ++ (sp2U ++ w))))) =
              (sp1, ((dh :: d') ++ (th ++ (dc ++ (sp ++ k)))) ++
                (spU ++ (conn ++ (sp2U ++ w)))) :=
            spanWs_resume hsp1ws (headNotWs_cons hdhns)
          refine ⟨cur ++ (sp1 ++ (((dh :: d') ++ (th ++ (dc ++ (sp ++ k)))) ++
            (spU ++ (conn ++ (sp2U ++ w))))), [], ?_, by simp,
            curShape_head_not_ws hcurS _, ?_, by simp [hcurne], ?_⟩
          · rw [hamtEq]
            simp [List.append_assoc]
          · exact lastNotWs_of_eq_append
              (a := cur ++ (sp1 ++ ((dh :: d') ++ (th ++ (dc ++ (sp ++ k))))))
              (b := spU ++ (conn ++ (sp2U ++ w)))
              (by simp [List.append_assoc]) hUlast hUne
          · unfold Scraper.matchSalary
            rw [matchCurrency_fwd hcurS]
            simp only [hspanX, hamtF, hrngN, huF]
            simp [List.append_assoc]
        · -- range and unit both present
          rcases d2 with - | ⟨d2h, d2'⟩
          · exact absurd rfl hd2ne
          have hr4eq : r4 = (spU ++ (conn ++ (sp2U ++ w))) ++ r5 := hr4p
          have hr3eq : r3 =
              ((sp1x ++ (sepx ++ (sp2x ++ (cox ++ (sp3x ++ ((d2h :: d2') ++
                (th2 ++ (dc2 ++ (sp2 ++ k2))))))))) ++
                (spU ++ (conn ++ (sp2U ++ w)))) ++ r5 := by
            rw [hr3p, hrngEq, hr4eq]
            simp [List.append_assoc]
          have hsafeR := sepBlock_safeTail (X := sp2x ++ (cox ++ (sp3x ++
            ((d2h :: d2') ++ (th2 ++ (dc2 ++ (sp2 ++ k2))))))) hsp1xw hsepS
          have hsafeRU := safeTail_append (b := spU ++ (conn ++ (sp2U ++ w)))
            hsafeR (sepBlock_ne hsepS)
          have hamtF : Scraper.matchAmount
              (((dh :: d') ++ (th ++ (dc ++ (sp ++ k)))) ++
                ((sp1x ++ (sepx ++ (sp2x ++ (cox ++ (sp3x ++ ((d2h :: d2') ++
                  (th2 ++ (dc2 ++ (sp2 ++ k2))))))))) ++
                  (spU ++ (conn ++ (sp2U ++ w))))) =
              some ((dh :: d') ++ (th ++ (dc ++ (sp ++ k))),
                (sp1x ++ (sepx ++ (sp2x ++ (cox ++ (sp3x ++ ((d2h :: d2') ++
                  (th2 ++ (dc2 ++ (sp2 ++ k2))))))))) ++
                  (spU ++ (conn ++ (sp2U ++ w)))) := by
            have := @matchAmount_fwd (dh :: d') th dc sp k
              ((sp1x ++ (sepx ++ (sp2x ++ (cox ++ (sp3x ++ ((d2h :: d2') ++
                (th2 ++ (dc2 ++ (sp2 ++ k2))))))))) ++
                (spU ++ (conn ++ (sp2U ++ w)))) (by simp) hdall hdlen hth hdcS
              hspws hkS hsafeRU.1 hsafeRU.2.1 hsafeRU.2.2
              (fun hk0 => headFacts_transfer (by simp [sepBlock_ne hsepS])
                (hr3eq ▸ hknullO hk0))
            simpa [List.append_assoc] using this
          have hrngF : Scraper.matchRange
              ((sp1x ++ (sepx ++ (sp2x ++ (cox ++ (sp3x ++ ((d2h :: d2') ++
                (th2 ++ (dc2 ++ (sp2 ++ k2))))))))) ++
                (spU ++ (conn ++ (sp2U ++ w)))) =
              (sp1x ++ (sepx ++ (sp2x ++ (cox ++ (sp3x ++ ((d2h :: d2') ++
                (th2 ++ (dc2 ++ (sp2 ++ k2)))))))),
                spU ++ (conn ++ (sp2U ++ w))) := by
            have := @matchRange_fwd sp1x sepx sp2x cox sp3x (d2h :: d2')
              th2 dc2 sp2 k2
              (spU ++ (conn ++ (sp2U ++ w))) hsp1xw hsepS hsp2xw hcoS
              (by simp) hd2all hd2len hth2 hdc2S hsp2w2 hk2S
              hUsafe.1 hUsafe.2.1 hUsafe.2.2
              (fun hk20 => headFacts_transfer hUne (hr4eq ▸ hknull2O hk20))
            simpa [List.append_assoc] using this
          have hspanX : spanWs (sp1 ++ (((dh :: d') ++ (th ++ (dc ++ (sp ++ k)))) ++
              ((sp1x ++ (sepx ++ (sp2x ++ (cox ++ (sp3x ++ ((d2h :: d2') ++
                (th2 ++ (dc2 ++ (sp2 ++ k2))))))))) ++
                (spU ++ (conn ++ (sp2U ++ w)))))) =
              (sp1, ((dh :: d') ++ (th ++ (dc ++ (sp ++ k)))) ++
                ((sp1x ++ (sepx ++ (sp2x ++ (cox ++ (sp3x ++ ((d2h :: d2') ++
                  (th2 ++ (dc2 ++ (sp2 ++ k2))))))))) ++
                  (spU ++ (conn ++ (sp2U ++ w))))) :=
            spanWs_resume hsp1ws (headNotWs_cons hdhns)
          refine ⟨cur ++ (sp1 ++ (((dh :: d') ++ (th ++ (dc ++ (sp ++ k)))) ++
            ((sp1x ++ (sepx ++ (sp2x ++ (cox ++ (sp3x ++ ((d2h :: d2') ++
              (th2 ++ (dc2 ++ (sp2 ++ k2))))))))) ++
              (spU ++ (conn ++ (sp2U ++ w)))))), [], ?_, by simp,
            curShape_head_not_ws hcurS _, ?_, by simp [hcurne], ?_⟩
          · rw [hamtEq, hrngEq]
            simp [List.append_assoc]
          · exact lastNotWs_of_eq_append
              (a := cur ++ (sp1 ++ (((dh :: d') ++ (th ++ (dc ++ (sp ++ k)))) ++
                (sp1x ++ (sepx ++ (sp2x ++ (cox ++ (sp3x ++ ((d2h :: d2') ++
                  (th2 ++ (dc2 ++ (sp2 ++ k2))))))))))))
              (b := spU ++ (conn ++ (sp2U ++ w)))
              (by simp [List.append_assoc]) hUlast hUne
          · unfold Scraper.matchSalary
            rw [matchCurrency_fwd hcurS]
            simp only [hspanX, hamtF, hrngF, huF]
            simp [List.append_assoc]


/-- Head condition for the characters matched by `[\d,]+`. -/
def NumSafe (z : List Char) : Prop :=
  ∀ c, z.head? = some c → (c.isDigit || decide (c = ',')) = false

theorem numSafe_nil : NumSafe [] := fun c h => by cases h

theorem numchar_not_ws {c : Char} (h : (c.isDigit || decide (c = ',')) = true) :
    ¬ c.isWhitespace := by
  simp only [Bool.or_eq_true, decide_eq_true_eq] at h
  rcases h with h | rfl
  · exact digit_not_ws h
  · decide

theorem numSafe_cons {c : Char} {z : List Char} (h1 : ¬ c.isDigit) (h2 : c ≠ ',') :
    NumSafe (c :: z) := by
  intro x hx
  simp only [List.head?_cons, Option.some.injEq] at hx
  subst hx
  simp [h1, h2]

theorem numSafe_ws_cons {c : Char} {z : List Char} (h : c.isWhitespace) :
    NumSafe (c :: z) :=
  numSafe_cons (ws_not_digit h) (ws_ne h ',' (by decide))

theorem dropWhile_eq_drop {p : Char → Bool} (cs : List Char) :
    cs.dropWhile p = cs.drop (cs.takeWhile p).length := by
  induction cs with
  | nil => rfl
  | cons c t ih =>
    by_cases hc : p c
    · simp [List.takeWhile_cons, List.dropWhile_cons, hc, ih]
    · simp [List.takeWhile_cons, List.dropWhile_cons, hc]

theorem matchNum_parts {cs n r : List Char} (h : JobScan.matchNum cs = some (n, r)) :
    cs = n ++ r ∧ n ≠ [] ∧ ∀ c ∈ n, (c.isDigit || decide (c = ',')) = true := by
  unfold JobScan.matchNum at h
  dsimp only at h
  split at h
  · exact absurd h (by simp)
  · rename_i hne
    simp only [Option.some.injEq, Prod.mk.injEq] at h
    obtain ⟨rfl, rfl⟩ := h
    refine ⟨?_, by simpa [List.isEmpty_iff] using hne,
      fun c hc => List.mem_takeWhile_imp
        (p := fun c => c.isDigit || decide (c = ',')) hc⟩
    rw [← dropWhile_eq_drop]
    exact (List.takeWhile_append_dropWhile _ cs).symm

theorem matchNum_fwd {n z : List Char} (hne : n ≠ [])
    (hall : ∀ c ∈ n, (c.isDigit || decide (c = ',')) = true) (hz : NumSafe z) :
    JobScan.matchNum (n ++ z) = some (n, z) := by
  have htw := takeWhile_append_of_all (p := fun c => c.isDigit || decide (c = ','))
    hall z hz
  unfold JobScan.matchNum
  dsimp only
  rw [htw.1, if_neg (by simpa [List.isEmpty_iff] using hne), List.drop_left]

/-- Shape of the optional `\.\d{2}` part. -/
def Dec2Shape (dc : List Char) : Prop :=
  dc = [] ∨ ∃ a b, dc = ['.', a, b] ∧ a.isDigit ∧ b.isDigit

theorem matchDec2_parts (cs : List Char) :
    cs = (JobScan.matchDec2 cs).1 ++ (JobScan.matchDec2 cs).2 ∧
      Dec2Shape (JobScan.matchDec2 cs).1 := by
  unfold JobScan.matchDec2
  split
  · rename_i a b t
    split
    · rename_i hab
      exact ⟨rfl, Or.inr ⟨a, b, rfl, hab.1, hab.2⟩⟩
    · exact ⟨rfl, Or.inl rfl⟩
  · exact ⟨rfl, Or.inl rfl⟩

theorem matchDec2_fwd {a b : Char} (ha : a.isDigit) (hb : b.isDigit)
    (z : List Char) : JobScan.matchDec2 ('.' :: a :: b :: z) = (['.', a, b], z) := by
  have he : JobScan.matchDec2 ('.' :: a :: b :: z) =
      if a.isDigit ∧ b.isDigit then (['.', a, b], z)
      else ([], '.' :: a :: b :: z) := rfl
  rw [he, if_pos ⟨ha, hb⟩]

theorem matchDec2_null {z : List Char} (hz : z.head? ≠ some '.') :
    JobScan.matchDec2 z = ([], z) := by
  unfold JobScan.matchDec2
  split
  · rename_i a b t
    simp at hz
  · rfl

theorem numchar_ne_dollar {c : Char} (h : (c.isDigit || decide (c = ',')) = true) :
    c ≠ '$' := by
  simp only [Bool.or_eq_true, decide_eq_true_eq] at h
  rcases h with h | rfl
  · rintro rfl
    simp [Char.isDigit] at h
  · decide

theorem numlist_last {n : List Char} (hne : n ≠ [])
    (hall : ∀ x ∈ n, (x.isDigit || decide (x = ',')) = true) :
    HeadNotWs n.reverse := by
  rcases hrev : n.reverse with - | ⟨c, t⟩
  · exact absurd (by simpa using congrArg List.reverse hrev) hne
  · have hc : c ∈ n := by
      have : c ∈ n.reverse := by rw [hrev]; simp
      simpa using this
    exact headNotWs_cons (numchar_not_ws (hall c hc))

theorem matchRangeA_nil : JobScan.matchRangeA [] = ([], []) := rfl

theorem matchRangeA_null {z : List Char}
    (hz : ∀ c, z.head? = some c → ¬(c = '-' ∨ c = '–' ∨ c = '—')) :
    JobScan.matchRangeA z = ([], z) := by
  cases z with
  | nil => rfl
  | cons c r1 =>
    simp only [JobScan.matchRangeA]
    rw [if_neg (hz c rfl)]

theorem matchRangeA_parts {cs rng r : List Char}
    (h : JobScan.matchRangeA cs = (rng, r)) :
    (rng = [] ∧ r = cs) ∨
    ∃ c sp1 ds sp2 n dc,
      rng = c :: (sp1 ++ (ds ++ (sp2 ++ (n ++ dc)))) ∧ cs = rng ++ r ∧
      (c = '-' ∨ c = '–' ∨ c = '—') ∧ (∀ x ∈ sp1, x.isWhitespace) ∧
      ((ds = ['$'] ∧ ∀ x ∈ sp2, x.isWhitespace) ∨ (ds = [] ∧ sp2 = [])) ∧
      n ≠ [] ∧ (∀ x ∈ n, (x.isDigit || decide (x = ',')) = true) ∧
      Dec2Shape dc := by
  cases cs with
  | nil =>
    injection h with e1 e2
    exact Or.inl ⟨e1.symm, by rw [← e2]⟩
  | cons c r1 =>
    simp only [JobScan.matchRangeA] at h
    split_ifs at h with hdash
    · obtain ⟨hr1p, hsp1ws, hr2h⟩ := spanWs_parts r1
      rcases hsw : spanWs r1 with ⟨sp1, r2⟩
      rw [hsw] at h hr1p hsp1ws hr2h
      dsimp only at h hr1p hsp1ws hr2h
      split at h
      · rename_i r3
        obtain ⟨hr3p, hsp2ws, -⟩ := spanWs_parts r3
        rcases hsw2 : spanWs r3 with ⟨sp2, r4⟩
        rw [hsw2] at h hr3p hsp2ws
        dsimp only at h hr3p hsp2ws
        split at h
        · rename_i n r5 hn
          obtain ⟨hr4p, hnne, hnall⟩ := matchNum_parts hn
          obtain ⟨hr5p, hdcS⟩ := matchDec2_parts r5
          rcases hd2 : JobScan.matchDec2 r5 with ⟨dc, r6⟩
          rw [hd2] at h hr5p hdcS
          dsimp only at h hr5p hdcS
          injection h with e7 e8
          subst e7
          subst e8
          refine Or.inr ⟨c, sp1, ['$'], sp2, n, dc, by simp [List.append_assoc], ?_,
            hdash, hsp1ws, Or.inl ⟨rfl, hsp2ws⟩, hnne, hnall, hdcS⟩
          rw [hr1p, hr3p, hr4p, hr5p]
          simp [List.append_assoc]
        · rename_i hn
          injection h with e7 e8
          subst e7
          subst e8
          exact Or.inl ⟨rfl, rfl⟩
      · split at h
        · rename_i n r3 hn
          obtain ⟨hr2p, hnne, hnall⟩ := matchNum_parts hn
          obtain ⟨hr3p, hdcS⟩ := matchDec2_parts r3
          rcases hd2 : JobScan.matchDec2 r3 with ⟨dc, r4⟩
          rw [hd2] at h hr3p hdcS
          dsimp only at h hr3p hdcS
          injection h with e7 e8
          subst e7
          subst e8
          refine Or.inr ⟨c, sp1, [], [], n, dc, by simp [List.append_assoc], ?_,
            hdash, hsp1ws, Or.inr ⟨rfl, rfl⟩, hnne, hnall, hdcS⟩
          rw [hr1p, hr2p, hr3p]
          simp [List.append_assoc]
        · rename_i hn
          injection h with e7 e8
          subst e7
          subst e8
          exact Or.inl ⟨rfl, rfl⟩
    · injection h with e1 e2
      exact Or.inl ⟨e1.symm, by rw [← e2]⟩

theorem matchRangeA_fwd {c : Char} {sp1 ds sp2 n dc z : List Char}
    (hdash : c = '-' ∨ c = '–' ∨ c = '—') (hsp1 : ∀ x ∈ sp1, x.isWhitespace)
    (hds : (ds = ['$'] ∧ ∀ x ∈ sp2, x.isWhitespace) ∨ (ds = [] ∧ sp2 = []))
    (hn : n ≠ []) (hnall : ∀ x ∈ n, (x.isDigit || decide (x = ',')) = true)
    (hdc : Dec2Shape dc) (hz : NumSafe z) (hzd : z.head? ≠ some '.') :
    JobScan.matchRangeA (c :: (sp1 ++ (ds ++ (sp2 ++ (n ++ (dc ++ z)))))) =
      (c :: (sp1 ++ (ds ++ (sp2 ++ (n ++ dc)))), z) := by
  rcases n with - | ⟨nh, n'⟩
  · exact absurd rfl hn
  have hnh := hnall nh (by simp)
  have hnhns : ¬ nh.isWhitespace := numchar_not_ws hnh
  have hnum : JobScan.matchNum (nh :: (n' ++ (dc ++ z))) = some (nh :: n', dc ++ z) := by
    have hzz : NumSafe (dc ++ z) := by
      rcases hdc with rfl | ⟨a, b, rfl, ha, hb⟩
      · simpa using hz
      · exact numSafe_cons (by decide) (by decide)
    simpa [List.cons_append] using matchNum_fwd hn hnall hzz
  have hdec : JobScan.matchDec2 (dc ++ z) = (dc, z) := by
    rcases hdc with rfl | ⟨a, b, rfl, ha, hb⟩
    · simpa using matchDec2_null hzd
    · exact matchDec2_fwd ha hb z
  rcases hds with ⟨rfl, hsp2⟩ | ⟨rfl, rfl⟩
  · have hspan1 : spanWs (sp1 ++ ('$' :: (sp2 ++ (nh :: (n' ++ (dc ++ z)))))) =
        (sp1, '$' :: (sp2 ++ (nh :: (n' ++ (dc ++ z))))) :=
      spanWs_resume hsp1 (headNotWs_cons (by decide))
    have hspan2 : spanWs (sp2 ++ (nh :: (n' ++ (dc ++ z)))) =
        (sp2, nh :: (n' ++ (dc ++ z))) :=
      spanWs_resume hsp2 (headNotWs_cons hnhns)
    simp only [JobScan.matchRangeA, List.cons_append, List.singleton_append,
      List.nil_append]
    rw [if_pos hdash]
    simp only [hspan1, hspan2, hnum, hdec]
    simp [List.append_assoc]
  · have hspan1 : spanWs (sp1 ++ (nh :: (n' ++ (dc ++ z)))) =
        (sp1, nh :: (n' ++ (dc ++ z))) :=
      spanWs_resume hsp1 (headNotWs_cons hnhns)
    simp only [JobScan.matchRangeA, List.cons_append, List.nil_append]
    rw [if_pos hdash]
    simp only [hspan1]
    split
    · rename_i r3 heq
      injection heq with e1 e2
      exact absurd e1 (numchar_ne_dollar hnh)
    · simp only [hnum, hdec]
      simp [List.append_assoc]

/-- Shapes of the mandatory connector inside a matched unit tail of the
job_scan.py pattern. -/
def ConnA (conn sp2 : List Char) : Prop :=
  (conn.map Char.toLower = "a".data ∧ (∀ c ∈ sp2, c.isWhitespace)) ∨
  (conn.map Char.toLower = "per".data ∧ (∀ c ∈ sp2, c.isWhitespace)) ∨
  (conn = ['/'] ∧ (∀ c ∈ sp2, c.isWhitespace))

theorem matchUnitA_nil : JobScan.matchUnitA [] = ([], []) := rfl

theorem matchUnitA_parts {cs unit r : List Char}
    (h : JobScan.matchUnitA cs = (unit, r)) :
    (unit = [] ∧ r = cs) ∨
    ∃ sp conn sp2 w,
      unit = sp ++ (conn ++ (sp2 ++ w)) ∧ cs = unit ++ r ∧
      (∀ c ∈ sp, c.isWhitespace) ∧ UWordA w ∧ ConnA conn sp2 := by
  obtain ⟨hcs, hspws, hhead⟩ := spanWs_parts cs
  unfold JobScan.matchUnitA at h
  rcases hsw : spanWs cs with ⟨sp, r1⟩
  rw [hsw] at h hcs hspws hhead
  dsimp only at h hcs hspws hhead
  split at h
  · rename_i ca r2 hca
    rcases hsw2 : spanWs r2 with ⟨sp2, r3⟩
    obtain ⟨hr2, hsp2ws, -⟩ := spanWs_parts r2
    rw [hsw2] at h hr2 hsp2ws
    dsimp only at h hr2 hsp2ws
    split at h
    · rename_i w r4 hmw
      injection h with e5 e6
      subst e5
      subst e6
      obtain ⟨hr3, hW⟩ := matchUnitWordA_parts hmw
      refine Or.inr ⟨sp, ca, sp2, w, by simp [List.append_assoc], ?_, hspws, hW,
        Or.inl ⟨stripCI_map hca, hsp2ws⟩⟩
      rw [hcs, stripCI_split hca, hr2, hr3]
      simp [List.append_assoc]
    · injection h with e5 e6
      subst e5
      subst e6
      exact Or.inl ⟨rfl, rfl⟩
  · split at h
    · rename_i cp r2 hcp
      rcases hsw2 : spanWs r2 with ⟨sp2, r3⟩
      obtain ⟨hr2, hsp2ws, -⟩ := spanWs_parts r2
      rw [hsw2] at h hr2 hsp2ws
      dsimp only at h hr2 hsp2ws
      split at h
      · rename_i w r4 hmw
        injection h with e5 e6
        subst e5
        subst e6
        obtain ⟨hr3, hW⟩ := matchUnitWordA_parts hmw
        refine Or.inr ⟨sp, cp, sp2, w, by simp [List.append_assoc], ?_, hspws, hW,
          Or.inr (Or.inl ⟨stripCI_map hcp, hsp2ws⟩)⟩
        rw [hcs, stripCI_split hcp, hr2, hr3]
        simp [List.append_assoc]
      · injection h with e5 e6
        subst e5
        subst e6
        exact Or.inl ⟨rfl, rfl⟩
    · split at h
      · rename_i r2 hna hnp
        rcases hsw2 : spanWs r2 with ⟨sp2, r3⟩
        obtain ⟨hr2, hsp2ws, -⟩ := spanWs_parts r2
        rw [hsw2] at h hr2 hsp2ws
        dsimp only at h hr2 hsp2ws
        split at h
        · rename_i w r4 hmw
          injection h with e5 e6
          subst e5
          subst e6
          obtain ⟨hr3, hW⟩ := matchUnitWordA_parts hmw
          refine Or.inr ⟨sp, ['/'], sp2, w, by simp [List.append_assoc], ?_,
            hspws, hW, Or.inr (Or.inr ⟨rfl, hsp2ws⟩)⟩
          rw [hcs, hr2, hr3]
          simp [List.append_assoc]
        · injection h with e5 e6
          subst e5
          subst e6
          exact Or.inl ⟨rfl, rfl⟩
      · injection h with e5 e6
        subst e5
        subst e6
        exact Or.inl ⟨rfl, rfl⟩

theorem matchUnitA_fwd {sp conn sp2 w : List Char}
    (hsp : ∀ c ∈ sp, c.isWhitespace) (hW : UWordA w) (hconn : ConnA conn sp2)
    (hsp2 : ∀ c ∈ sp2, c.isWhitespace) :
    JobScan.matchUnitA (sp ++ (conn ++ (sp2 ++ w))) =
      (sp ++ (conn ++ (sp2 ++ w)), []) := by
  obtain ⟨cw, w', rfl, hcL⟩ := uwordA_head hW
  have hcwns : ¬ cw.isWhitespace := not_ws_of_toLower_mem hcL (by decide)
  have hwr := matchUnitWordA_rerun hW
  have hspan2 : spanWs (sp2 ++ (cw :: w')) = (sp2, cw :: w') :=
    spanWs_resume hsp2 (headNotWs_cons hcwns)
  rcases hconn with ⟨ha, -⟩ | ⟨hper, -⟩ | ⟨rfl, -⟩
  · obtain ⟨c1, cr, rfl, hc1, hcr⟩ := map_cons_inv (l := 'a') (q := [])
      (by simpa using ha)
    have hcrnil : cr = [] := by simpa using hcr
    subst hcrnil
    have hc1a : c1.toLower ∈ ['a'] := by rw [hc1]; decide
    have hspan1 : spanWs (sp ++ ([c1] ++ (sp2 ++ (cw :: w')))) =
        (sp, [c1] ++ (sp2 ++ (cw :: w'))) :=
      spanWs_resume hsp (headNotWs_cons (not_ws_of_toLower_mem hc1a (by decide)))
    have hstrip : stripCI ['a'] ([c1] ++ (sp2 ++ (cw :: w'))) =
        some ([c1], sp2 ++ (cw :: w')) := stripCI_self ha _
    unfold JobScan.matchUnitA
    rw [hspan1]
    dsimp only
    rw [hstrip]
    simp only [hspan2, hwr]
    simp [List.append_assoc]
  · obtain ⟨c1, cr, rfl, hc1, hcr⟩ := map_cons_inv (l := 'p') (q := "er".data) hper
    have hc1p : c1.toLower ∈ ['p'] := by rw [hc1]; decide
    have hspan1 : spanWs (sp ++ ((c1 :: cr) ++ (sp2 ++ (cw :: w')))) =
        (sp, (c1 :: cr) ++ (sp2 ++ (cw :: w'))) :=
      spanWs_resume hsp (headNotWs_cons (not_ws_of_toLower_mem hc1p (by decide)))
    have hna : stripCI ['a'] ((c1 :: cr) ++ (sp2 ++ (cw :: w'))) = none :=
      stripCI_none_head (fun he => by rw [he] at hc1p; exact absurd hc1p (by decide))
    have hstrip : stripCI ['p', 'e', 'r'] ((c1 :: cr) ++ (sp2 ++ (cw :: w'))) =
        some (c1 :: cr, sp2 ++ (cw :: w')) := stripCI_self hper _
    unfold JobScan.matchUnitA
    rw [hspan1]
    dsimp only
    rw [hna, hstrip]
    simp only [hspan2, hwr]
    simp [List.append_assoc]
  · have hspan1 : spanWs (sp ++ (['/'] ++ (sp2 ++ (cw :: w')))) =
        (sp, ['/'] ++ (sp2 ++ (cw :: w'))) :=
      spanWs_resume hsp (headNotWs_cons (by decide))
    have hna : stripCI ['a'] (['/'] ++ (sp2 ++ (cw :: w'))) = none :=
      stripCI_none_head (by decide)
    have hnp : stripCI ['p', 'e', 'r'] (['/'] ++ (sp2 ++ (cw :: w'))) = none :=
      stripCI_none_head (by decide)
    unfold JobScan.matchUnitA
    rw [hspan1]
    dsimp only
    rw [hna, hnp]
    simp only [List.singleton_append, hspan2, hwr]

theorem connA_head_not_ws {conn sp2 : List Char} (hconn : ConnA conn sp2)
    (X : List Char) : HeadNotWs (conn ++ X) := by
  rcases hconn with ⟨ha, -⟩ | ⟨hper, -⟩ | ⟨rfl, -⟩
  · obtain ⟨c1, cr, rfl, hc1, -⟩ := map_cons_inv (l := 'a') (q := [])
      (by simpa using ha)
    exact headNotWs_cons (not_ws_of_toLower_mem (by rw [hc1]; decide : c1.toLower ∈ ['a']) (by decide))
  · obtain ⟨c1, cr, rfl, hc1, -⟩ := map_cons_inv (l := 'p') (q := "er".data) hper
    exact headNotWs_cons (not_ws_of_toLower_mem (by rw [hc1]; decide : c1.toLower ∈ ['p']) (by decide))
  · exact headNotWs_cons (by decide)

theorem unitA_ne {sp conn sp2 w : List Char} (hW : UWordA w) :
    sp ++ (conn ++ (sp2 ++ w)) ≠ [] := by
  obtain ⟨cw, w', rfl, -⟩ := uwordA_head hW
  simp

theorem unitA_last {sp conn sp2 w : List Char} (hW : UWordA w) :
    HeadNotWs (sp ++ (conn ++ (sp2 ++ w))).reverse := by
  obtain ⟨c, r, hrev, hc⟩ := uwordA_last hW
  have hwne : w ≠ [] := by
    intro he
    rw [he] at hrev
    cases hrev
  refine lastNotWs_append (lastNotWs_append (lastNotWs_append ?_ hwne) (by
    simp [hwne])) (by simp [hwne])
  rw [hrev]
  exact headNotWs_cons (not_ws_of_toLower_mem hc (by decide))

theorem unitA_safe {sp conn sp2 w : List Char} (hsp : ∀ c ∈ sp, c.isWhitespace)
    (_hW : UWordA w) (hconn : ConnA conn sp2) :
    NumSafe (sp ++ (conn ++ (sp2 ++ w))) ∧
    (sp ++ (conn ++ (sp2 ++ w))).head? ≠ some '.' ∧
    (∀ c, (sp ++ (conn ++ (sp2 ++ w))).head? = some c →
      ¬(c = '-' ∨ c = '–' ∨ c = '—')) := by
  cases sp with
  | cons c t =>
    have hc := hsp c (by simp)
    refine ⟨numSafe_ws_cons hc, by simpa using ws_ne hc '.' (by decide), ?_⟩
    intro x hx
    simp only [List.cons_append, List.head?_cons, Option.some.injEq] at hx
    subst hx
    rintro (rfl | rfl | rfl) <;> simp [Char.isWhitespace] at hc
  | nil =>
    simp only [List.nil_append]
    rcases hconn with ⟨ha, -⟩ | ⟨hper, -⟩ | ⟨rfl, -⟩
    · obtain ⟨c1, cr, rfl, hc1, -⟩ := map_cons_inv (l := 'a') (q := [])
        (by simpa using ha)
      have hc1a : c1.toLower ∈ ['a'] := by rw [hc1]; decide
      refine ⟨numSafe_cons (not_digit_of_toLower_mem hc1a (by decide))
        (ne_of_toLower_mem hc1a (by decide)), ?_, ?_⟩
      · simpa using ne_of_toLower_mem hc1a (by decide)
      · intro x hx
        simp only [List.cons_append, List.head?_cons, Option.some.injEq] at hx
        subst hx
        rintro (rfl | rfl | rfl) <;> exact absurd hc1a (by decide)
    · obtain ⟨c1, cr, rfl, hc1, -⟩ := map_cons_inv (l := 'p') (q := "er".data) hper
      have hc1p : c1.toLower ∈ ['p'] := by rw [hc1]; decide
      refine ⟨numSafe_cons (not_digit_of_toLower_mem hc1p (by decide))
        (ne_of_toLower_mem hc1p (by decide)), ?_, ?_⟩
      · simpa using ne_of_toLower_mem hc1p (by decide)
      · intro x hx
        simp only [List.cons_append, List.head?_cons, Option.some.injEq] at hx
        subst hx
        rintro (rfl | rfl | rfl) <;> exact absurd hc1p (by decide)
    · refine ⟨numSafe_cons (by decide) (by decide), by simp, ?_⟩
      intro x hx
      simp only [List.cons_append, List.singleton_append, List.head?_cons,
        Option.some.injEq] at hx
      subst hx
      decide

theorem numSafe_dash_cons {c : Char} {t : List Char}
    (hdash : c = '-' ∨ c = '–' ∨ c = '—') : NumSafe (c :: t) := by
  rcases hdash with rfl | rfl | rfl <;> exact numSafe_cons (by decide) (by decide)

theorem head_ne_dot_dash {c : Char} {t : List Char}
    (hdash : c = '-' ∨ c = '–' ∨ c = '—') : (c :: t).head? ≠ some '.' := by
  rcases hdash with rfl | rfl | rfl <;> simp

theorem matchSalaryA_rematch {cs m r : List Char}
    (h : JobScan.matchSalaryA cs = some (m, r)) :
    ∃ core spT, m = core ++ spT ∧ (∀ c ∈ spT, c.isWhitespace) ∧
      HeadNotWs core ∧ HeadNotWs core.reverse ∧ core ≠ [] ∧
      JobScan.matchSalaryA core = some (core, []) := by
  unfold JobScan.matchSalaryA at h
  split at h
  · rename_i r1
    obtain ⟨hr1p, hsp0ws, hr2h⟩ := spanWs_parts r1
    rcases hsw0 : spanWs r1 with ⟨sp0, r2⟩
    rw [hsw0] at h hr1p hsp0ws hr2h
    dsimp only at h hr1p hsp0ws hr2h
    split at h
    · exact absurd h (by simp)
    · rename_i n r3 hnum0
      obtain ⟨hr2p, hnne, hnall⟩ := matchNum_parts hnum0
      obtain ⟨hr3p, hdcS⟩ := matchDec2_parts r3
      rcases hd2 : JobScan.matchDec2 r3 with ⟨dc, r4⟩
      rw [hd2] at h hr3p hdcS
      dsimp only at h hr3p hdcS
      obtain ⟨hr4p, hsp1ws, hr5h⟩ := spanWs_parts r4
      rcases hsw1 : spanWs r4 with ⟨sp1, r5⟩
      rw [hsw1] at h hr4p hsp1ws hr5h
      dsimp only at h hr4p hsp1ws hr5h
      rcases hrg : JobScan.matchRangeA r5 with ⟨rng, r6⟩
      rw [hrg] at h
      dsimp only at h
      rcases hun : JobScan.matchUnitA r6 with ⟨unit, r7⟩
      rw [hun] at h
      dsimp only at h
      simp only [Option.some.injEq, Prod.mk.injEq] at h
      obtain ⟨rfl, rfl⟩ := h
      rcases n with - | ⟨nh, n'⟩
      · exact absurd rfl hnne
      have hnh := hnall nh (by simp)
      have hnhns : ¬ nh.isWhitespace := numchar_not_ws hnh
      rcases matchUnitA_parts hun with ⟨hu0, hr67⟩ |
        ⟨spU, conn, sp2U, w, huEq, hr6p, hspU, hW, hconn⟩
      · -- unit empty
        subst hu0
        rcases matchRangeA_parts hrg with ⟨hrg0, hr56⟩ |
          ⟨cD, sp1x, dsx, sp2x, n2, dc2, hrngEq, hr5p, hdash, hsp1xw, hdsS,
            hn2ne, hn2all, hdc2S⟩
        · -- no range, no unit: trim the whitespace before the absent range
          subst hrg0
          refine ⟨'$' :: (sp0 ++ (nh :: (n' ++ dc))), sp1, ?_, hsp1ws,
            headNotWs_cons (by decide), ?_, by simp, ?_⟩
          · simp [List.append_assoc]
          · refine lastNotWs_of_eq_append (a := ('$' :: sp0))
              (b := nh :: (n' ++ dc)) (by simp [List.append_assoc]) ?_ (by simp)
            rcases hdcS with rfl | ⟨a, b, rfl, ha, hb⟩
            · simpa using numlist_last hnne hnall
            · rw [show (nh :: (n' ++ ['.', a, b])).reverse =
                b :: (['.', a].reverse ++ (nh :: n').reverse) by simp]
              exact headNotWs_cons (digit_not_ws hb)
          · have hnum : JobScan.matchNum (nh :: (n' ++ dc)) =
                some (nh :: n', dc) := by
              have hzz : NumSafe dc := by
                rcases hdcS with rfl | ⟨a, b, rfl, ha, hb⟩
                · exact numSafe_nil
                · exact numSafe_cons (by decide) (by decide)
              simpa [List.cons_append] using matchNum_fwd hnne hnall hzz
            have hdec : JobScan.matchDec2 dc = (dc, []) := by
              rcases hdcS with rfl | ⟨a, b, rfl, ha, hb⟩
              · rfl
              · simpa using matchDec2_fwd ha hb []
            have hspan0 : spanWs (sp0 ++ (nh :: (n' ++ dc))) =
                (sp0, nh :: (n' ++ dc)) :=
              spanWs_resume hsp0ws (headNotWs_cons hnhns)
            simp only [JobScan.matchSalaryA]
            rw [hspan0]
            dsimp only
            rw [hnum]
            dsimp only
            rw [hdec]
            dsimp only
            rw [show spanWs [] = ([], []) from rfl]
            dsimp only
            rw [matchRangeA_nil]
            dsimp only
            rw [matchUnitA_nil]
            simp [List.append_assoc]
        · -- range, no unit
          rcases n2 with - | ⟨n2h, n2'⟩
          · exact absurd rfl hn2ne
          have hnum : JobScan.matchNum (nh :: (n' ++ (dc ++ (sp1 ++ (cD :: (sp1x ++ (dsx ++ (sp2x ++ ((n2h :: n2') ++ dc2))))))))) =
              some (nh :: n', dc ++ (sp1 ++ (cD :: (sp1x ++ (dsx ++ (sp2x ++ ((n2h :: n2') ++ dc2))))))) := by
            have hzz : NumSafe (dc ++ (sp1 ++ (cD :: (sp1x ++ (dsx ++ (sp2x ++ ((n2h :: n2') ++ dc2))))))) := by
              rcases hdcS with rfl | ⟨a, b, rfl, ha, hb⟩
              · rcases sp1 with - | ⟨c1, t1⟩
                · exact numSafe_dash_cons hdash
                · exact numSafe_ws_cons (hsp1ws c1 (by simp))
              · exact numSafe_cons (by decide) (by decide)
            simpa [List.cons_append] using matchNum_fwd hnne hnall hzz
          have hdec : JobScan.matchDec2 (dc ++ (sp1 ++ (cD :: (sp1x ++ (dsx ++ (sp2x ++ ((n2h :: n2') ++ dc2))))))) =
              (dc, sp1 ++ (cD :: (sp1x ++ (dsx ++ (sp2x ++ ((n2h :: n2') ++ dc2)))))) := by
            rcases hdcS with rfl | ⟨a, b, rfl, ha, hb⟩
            · have hdot : (sp1 ++ (cD :: (sp1x ++ (dsx ++ (sp2x ++ ((n2h :: n2') ++ dc2)))))).head? ≠ some '.' := by
                rcases sp1 with - | ⟨c1, t1⟩
                · rcases hdash with rfl | rfl | rfl <;> simp
                · simpa using ws_ne (hsp1ws c1 (by simp)) '.' (by decide)
              simpa using matchDec2_null hdot
            · exact matchDec2_fwd ha hb _
          have hspan1 : spanWs (sp1 ++ (cD :: (sp1x ++ (dsx ++ (sp2x ++ ((n2h :: n2') ++ dc2)))))) = (sp1, (cD :: (sp1x ++ (dsx ++ (sp2x ++ ((n2h :: n2') ++ dc2)))))) := by
            refine spanWs_resume hsp1ws (headNotWs_cons ?_)
            rcases hdash with rfl | rfl | rfl <;> decide
          have hrngF : JobScan.matchRangeA (cD :: (sp1x ++ (dsx ++ (sp2x ++ ((n2h :: n2') ++ dc2))))) = ((cD :: (sp1x ++ (dsx ++ (sp2x ++ ((n2h :: n2') ++ dc2))))), []) := by
            have := @matchRangeA_fwd cD sp1x dsx sp2x (n2h :: n2') dc2 []
              hdash hsp1xw hdsS (by simp) hn2all hdc2S numSafe_nil (by simp)
            simpa [List.append_assoc] using this
          have hspan0 : spanWs (sp0 ++ (nh :: (n' ++ (dc ++ (sp1 ++ (cD :: (sp1x ++ (dsx ++ (sp2x ++ ((n2h :: n2') ++ dc2)))))))))) =
              (sp0, nh :: (n' ++ (dc ++ (sp1 ++ (cD :: (sp1x ++ (dsx ++ (sp2x ++ ((n2h :: n2') ++ dc2))))))))) :=
            spanWs_resume hsp0ws (headNotWs_cons hnhns)
          refine ⟨'$' :: (sp0 ++ (nh :: (n' ++ (dc ++ (sp1 ++ (cD :: (sp1x ++ (dsx ++ (sp2x ++ ((n2h :: n2') ++ dc2)))))))))), [],
            ?_, by simp, headNotWs_cons (by decide), ?_, by simp, ?_⟩
          · rw [hrngEq]
            simp [List.append_assoc]
          · refine lastNotWs_of_eq_append
              (a := '$' :: (sp0 ++ (nh :: (n' ++ (dc ++ (sp1 ++ (cD :: (sp1x ++
                (dsx ++ sp2x)))))))))
              (b := (n2h :: n2') ++ dc2) (by simp [List.append_assoc]) ?_ (by simp)
            rcases hdc2S with rfl | ⟨a, b, rfl, ha, hb⟩
            · simpa using numlist_last hn2ne hn2all
            · rw [show ((n2h :: n2') ++ ['.', a, b]).reverse =
                b :: (['.', a].reverse ++ (n2h :: n2').reverse) by simp]
              exact headNotWs_cons (digit_not_ws hb)
          · simp only [JobScan.matchSalaryA]
            rw [hspan0]
            dsimp only
            rw [hnum]
            dsimp only
            rw [hdec]
            dsimp only
            rw [hspan1]
            dsimp only
            rw [hrngF]
            dsimp only
            rw [matchUnitA_nil]
            simp [List.append_assoc]
      · -- unit present
        subst huEq
        have hUne : spU ++ (conn ++ (sp2U ++ w)) ≠ [] := unitA_ne hW
        have hUsafe := unitA_safe hspU hW hconn
        have hUlast := @unitA_last spU conn sp2U w hW
        have hsp2Uws : ∀ c ∈ sp2U, c.isWhitespace := by
          rcases hconn with ⟨-, h2⟩ | ⟨-, h2⟩ | ⟨-, h2⟩ <;> exact h2
        rcases matchRangeA_parts hrg with ⟨hrg0, hr56⟩ |
          ⟨cD, sp1x, dsx, sp2x, n2, dc2, hrngEq, hr5p, hdash, hsp1xw, hdsS,
            hn2ne, hn2all, hdc2S⟩
        · -- unit without range
          subst hrg0
          have hspU0 : spU = [] := by
            cases spU with
            | nil => rfl
            | cons c t =>
              exfalso
              have hh : r5.head? = some c := by
                rw [← hr56, hr6p]
                simp
              exact hr5h c hh (hspU c (by simp))
          subst hspU0
          have hconn0 : ConnA conn sp2U := hconn
          have hUheadnw : HeadNotWs (conn ++ (sp2U ++ w)) :=
            connA_head_not_ws hconn _
          have hUsafe0 : NumSafe (conn ++ (sp2U ++ w)) ∧ (conn ++ (sp2U ++ w)).head? ≠ some '.' ∧
              (∀ c, (conn ++ (sp2U ++ w)).head? = some c → ¬(c = '-' ∨ c = '–' ∨ c = '—')) := by
            simpa using hUsafe
          have hnum : JobScan.matchNum (nh :: (n' ++ (dc ++ (sp1 ++ (conn ++ (sp2U ++ w)))))) =
              some (nh :: n', dc ++ (sp1 ++ (conn ++ (sp2U ++ w)))) := by
            have hzz : NumSafe (dc ++ (sp1 ++ (conn ++ (sp2U ++ w)))) := by
              rcases hdcS with rfl | ⟨a, b, rfl, ha, hb⟩
              · rcases sp1 with - | ⟨c1, t1⟩
                · exact hUsafe0.1
                · exact numSafe_ws_cons (hsp1ws c1 (by simp))
              · exact numSafe_cons (by decide) (by decide)
            simpa [List.cons_append] using matchNum_fwd hnne hnall hzz
          have hdec : JobScan.matchDec2 (dc ++ (sp1 ++ (conn ++ (sp2U ++ w)))) =
              (dc, sp1 ++ (conn ++ (sp2U ++ w))) := by
            rcases hdcS with rfl | ⟨a, b, rfl, ha, hb⟩
            · have hdot : (sp1 ++ (conn ++ (sp2U ++ w))).head? ≠ some '.' := by
                rcases sp1 with - | ⟨c1, t1⟩
                · exact hUsafe0.2.1
                · simpa using ws_ne (hsp1ws c1 (by simp)) '.' (by decide)
              simpa using matchDec2_null hdot
            · exact matchDec2_fwd ha hb _
          have hspan1 : spanWs (sp1 ++ (conn ++ (sp2U ++ w))) = (sp1, (conn ++ (sp2U ++ w))) :=
            spanWs_resume hsp1ws hUheadnw
          have hrngN : JobScan.matchRangeA (conn ++ (sp2U ++ w)) = ([], (conn ++ (sp2U ++ w))) :=
            matchRangeA_null hUsafe0.2.2
          have huF : JobScan.matchUnitA (conn ++ (sp2U ++ w)) = ((conn ++ (sp2U ++ w)), []) := by
            simpa using @matchUnitA_fwd [] conn sp2U w (by simp) hW hconn hsp2Uws
          have hspan0 : spanWs (sp0 ++ (nh :: (n' ++ (dc ++ (sp1 ++ (conn ++ (sp2U ++ w))))))) =
              (sp0, nh :: (n' ++ (dc ++ (sp1 ++ (conn ++ (sp2U ++ w)))))) :=
            spanWs_resume hsp0ws (headNotWs_cons hnhns)
          refine ⟨'$' :: (sp0 ++ (nh :: (n' ++ (dc ++ (sp1 ++ (conn ++ (sp2U ++ w))))))), [],
            ?_, by simp, headNotWs_cons (by decide), ?_, by simp, ?_⟩
          · simp [List.append_assoc]
          · exact lastNotWs_of_eq_append
              (a := '$' :: (sp0 ++ (nh :: (n' ++ (dc ++ sp1)))))
              (b := (conn ++ (sp2U ++ w))) (by simp [List.append_assoc])
              (by simpa using hUlast) (by simpa using hUne)
          · simp only [JobScan.matchSalaryA]
            rw [hspan0]
            dsimp only
            rw [hnum]
            dsimp only
            rw [hdec]
            dsimp only
            rw [hspan1]
            dsimp only
            rw [hrngN]
            dsimp only
            rw [huF]
            simp [List.append_assoc]
        · -- range and unit
          rcases n2 with - | ⟨n2h, n2'⟩
          · exact absurd rfl hn2ne
          have hnum : JobScan.matchNum
              (nh :: (n' ++ (dc ++ (sp1 ++ ((cD :: (sp1x ++ (dsx ++ (sp2x ++ ((n2h :: n2') ++ dc2))))) ++ (spU ++ (conn ++ (sp2U ++ w)))))))) =
              some (nh :: n', dc ++ (sp1 ++ ((cD :: (sp1x ++ (dsx ++ (sp2x ++ ((n2h :: n2') ++ dc2))))) ++ (spU ++ (conn ++ (sp2U ++ w)))))) := by
            have hzz : NumSafe (dc ++ (sp1 ++ ((cD :: (sp1x ++ (dsx ++ (sp2x ++ ((n2h :: n2') ++ dc2))))) ++ (spU ++ (conn ++ (sp2U ++ w)))))) := by
              rcases hdcS with rfl | ⟨a, b, rfl, ha, hb⟩
              · rcases sp1 with - | ⟨c1, t1⟩
                · exact numSafe_dash_cons hdash
                · exact numSafe_ws_cons (hsp1ws c1 (by simp))
              · exact numSafe_cons (by decide) (by decide)
            simpa [List.cons_append] using matchNum_fwd hnne hnall hzz
          have hdec : JobScan.matchDec2 (dc ++ (sp1 ++ ((cD :: (sp1x ++ (dsx ++ (sp2x ++ ((n2h :: n2') ++ dc2))))) ++ (spU ++ (conn ++ (sp2U ++ w)))))) =
              (dc, sp1 ++ ((cD :: (sp1x ++ (dsx ++ (sp2x ++ ((n2h :: n2') ++ dc2))))) ++ (spU ++ (conn ++ (sp2U ++ w))))) := by
            rcases hdcS with rfl | ⟨a, b, rfl, ha, hb⟩
            · have hdot : (sp1 ++ ((cD :: (sp1x ++ (dsx ++ (sp2x ++ ((n2h :: n2') ++ dc2))))) ++ (spU ++ (conn ++ (sp2U ++ w))))).head? ≠ some '.' := by
                rcases sp1 with - | ⟨c1, t1⟩
                · rcases hdash with rfl | rfl | rfl <;> simp
                · simpa using ws_ne (hsp1ws c1 (by simp)) '.' (by decide)
              simpa using matchDec2_null hdot
            · exact matchDec2_fwd ha hb _
          have hspan1 : spanWs (sp1 ++ ((cD :: (sp1x ++ (dsx ++ (sp2x ++ ((n2h :: n2') ++ dc2))))) ++ (spU ++ (conn ++ (sp2U ++ w))))) =
              (sp1, (cD :: (sp1x ++ (dsx ++ (sp2x ++ ((n2h :: n2') ++ dc2))))) ++ (spU ++ (conn ++ (sp2U ++ w)))) := by
            refine spanWs_resume hsp1ws (headNotWs_cons ?_)
            rcases hdash with rfl | rfl | rfl <;> decide
          have hrngF : JobScan.matchRangeA ((cD :: (sp1x ++ (dsx ++ (sp2x ++ ((n2h :: n2') ++ dc2))))) ++ (spU ++ (conn ++ (sp2U ++ w)))) =
              ((cD :: (sp1x ++ (dsx ++ (sp2x ++ ((n2h :: n2') ++ dc2))))), (spU ++ (conn ++ (sp2U ++ w)))) := by
            have := @matchRangeA_fwd cD sp1x dsx sp2x (n2h :: n2') dc2
              (spU ++ (conn ++ (sp2U ++ w))) hdash hsp1xw hdsS (by simp)
              hn2all hdc2S hUsafe.1 hUsafe.2.1
            simpa [List.append_assoc] using this
          have huF := matchUnitA_fwd hspU hW hconn hsp2Uws
          have hspan0 : spanWs
              (sp0 ++ (nh :: (n' ++ (dc ++ (sp1 ++ ((cD :: (sp1x ++ (dsx ++ (sp2x ++ ((n2h :: n2') ++ dc2))))) ++ (spU ++ (conn ++ (sp2U ++ w))))))))) =
              (sp0, nh :: (n' ++ (dc ++ (sp1 ++ ((cD :: (sp1x ++ (dsx ++ (sp2x ++ ((n2h :: n2') ++ dc2))))) ++ (spU ++ (conn ++ (sp2U ++ w)))))))) :=
            spanWs_resume hsp0ws (headNotWs_cons hnhns)
          refine ⟨'$' :: (sp0 ++ (nh :: (n' ++ (dc ++ (sp1 ++ ((cD :: (sp1x ++ (dsx ++ (sp2x ++ ((n2h :: n2') ++ dc2))))) ++
            (spU ++ (conn ++ (sp2U ++ w))))))))), [], ?_, by simp, headNotWs_cons (by decide), ?_,
            by simp, ?_⟩
          · rw [hrngEq]
            simp [List.append_assoc]
          · exact lastNotWs_of_eq_append
              (a := '$' :: (sp0 ++ (nh :: (n' ++ (dc ++ (sp1 ++ (cD :: (sp1x ++ (dsx ++ (sp2x ++ ((n2h :: n2') ++ dc2)))))))))))
              (b := (spU ++ (conn ++ (sp2U ++ w)))) (by simp [List.append_assoc])
              hUlast hUne
          · simp only [JobScan.matchSalaryA]
            rw [hspan0]
            dsimp only
            rw [hnum]
            dsimp only
            rw [hdec]
            dsimp only
            rw [hspan1]
            dsimp only
            rw [hrngF]
            dsimp only
            rw [huF]
            simp [List.append_assoc]
  · exact absurd h (by simp)


/-- No two adjacent whitespace characters. -/
def noWW : List Char → Prop
  | c1 :: c2 :: rest => ¬(c1.isWhitespace ∧ c2.isWhitespace) ∧ noWW (c2 :: rest)
  | _ => True

/-- Every whitespace character is a plain space. -/
def onlySp (cs : List Char) : Prop := ∀ c ∈ cs, c.isWhitespace → c = ' '

theorem noWW_cons_of {x : Char} {L : List Char} (hx : ¬ x.isWhitespace)
    (hL : noWW L) : noWW (x :: L) := by
  cases L with
  | nil => trivial
  | cons y t => exact ⟨fun hp => hx hp.1, hL⟩

theorem noWW_tail {x : Char} {L : List Char} (h : noWW (x :: L)) : noWW L := by
  cases L with
  | nil => trivial
  | cons y t => exact h.2

theorem noWW_of_append_right {a b : List Char} (h : noWW (a ++ b)) : noWW b := by
  induction a with
  | nil => exact h
  | cons x a' ih => exact ih (noWW_tail h)

theorem noWW_of_append_left {a b : List Char} (h : noWW (a ++ b)) : noWW a := by
  induction a with
  | nil => trivial
  | cons x a' ih =>
    cases a' with
    | nil => trivial
    | cons y t =>
      exact ⟨(h : noWW (x :: y :: (t ++ b))).1, ih (noWW_tail h)⟩

theorem noWW_append_word {w t : List Char} (hw : ∀ c ∈ w, ¬ c.isWhitespace)
    (ht : noWW t) : noWW (w ++ t) := by
  induction w with
  | nil => exact ht
  | cons x w' ih =>
    exact noWW_cons_of (hw x (by simp)) (ih (fun c hc => hw c (by simp [hc])))

theorem joinSp_headNotWs {v : List Char} {l : List (List Char)}
    (hv : IsWord v) : HeadNotWs (joinSp (v :: l)) := by
  cases l with
  | nil =>
    show HeadNotWs v
    cases v with
    | nil => exact headNotWs_nil
    | cons c t => exact headNotWs_cons (hv.2 c (by simp))
  | cons u l' =>
    show HeadNotWs (v ++ ' ' :: joinSp (u :: l'))
    cases v with
    | nil => exact absurd rfl hv.1
    | cons c t => exact headNotWs_cons (hv.2 c (by simp))

theorem noWW_words {W : List (List Char)} (hW : ∀ w ∈ W, IsWord w) :
    noWW (joinSp W) := by
  induction W with
  | nil => trivial
  | cons w ws ih =>
    cases ws with
    | nil =>
      show noWW w
      have hw := hW w (by simp)
      have h0 : noWW ([] : List Char) := trivial
      simpa using noWW_append_word hw.2 h0
    | cons v ws' =>
      show noWW (w ++ ' ' :: joinSp (v :: ws'))
      have hw := hW w (by simp)
      refine noWW_append_word hw.2 ?_
      have hjn := ih (fun u hu => hW u (by simp [hu]))
      have hhead := joinSp_headNotWs (l := ws') (hW v (by simp))
      cases hj : joinSp (v :: ws') with
      | nil => trivial
      | cons c t =>
        rw [hj] at hjn hhead
        exact ⟨fun hp => hhead c rfl hp.2, hjn⟩

theorem joinSp_mem {c : Char} {W : List (List Char)} (h : c ∈ joinSp W) :
    (∃ w ∈ W, c ∈ w) ∨ c = ' ' := by
  induction W with
  | nil => cases h
  | cons w ws ih =>
    cases ws with
    | nil => exact Or.inl ⟨w, by simp, h⟩
    | cons v ws' =>
      have h2 : c ∈ w ++ ' ' :: joinSp (v :: ws') := h
      rcases List.mem_append.mp h2 with h3 | h3
      · exact Or.inl ⟨w, by simp, h3⟩
      · rcases List.mem_cons.mp h3 with rfl | h4
        · exact Or.inr rfl
        · rcases ih h4 with ⟨u, hu, hc⟩ | h5
          · exact Or.inl ⟨u, by simp [hu], hc⟩
          · exact Or.inr h5

theorem splitWsAux_words (cs : List Char) :
    ∀ cur, (∀ c ∈ cur, ¬ c.isWhitespace) → ∀ w ∈ splitWsAux cur cs, IsWord w := by
  induction cs with
  | nil =>
    intro cur hcur w hw
    unfold splitWsAux at hw
    split at hw
    · cases hw
    · rename_i hne
      rcases List.mem_singleton.mp hw with rfl
      refine ⟨?_, fun c hc => hcur c (by simpa using hc)⟩
      simp only [ne_eq, List.reverse_eq_nil_iff]
      simpa [List.isEmpty_iff] using hne
  | cons c cs' ih =>
    intro cur hcur w hw
    unfold splitWsAux at hw
    split at hw
    · split at hw
      · exact ih [] (by simp) w hw
      · rename_i hws hne
        rcases List.mem_cons.mp hw with rfl | hw2
        · refine ⟨?_, fun x hx => hcur x (by simpa using hx)⟩
          simp only [ne_eq, List.reverse_eq_nil_iff]
          simpa [List.isEmpty_iff] using hne
        · exact ih [] (by simp) w hw2
    · rename_i hws
      refine ih (c :: cur) ?_ w hw
      intro x hx
      rcases List.mem_cons.mp hx with rfl | hx2
      · simpa using hws
      · exact hcur x hx2

theorem splitWs_words (cs : List Char) : ∀ w ∈ splitWs cs, IsWord w :=
  splitWsAux_words cs [] (by simp)

theorem normWs_noWW (cs : List Char) : noWW (normWs cs) :=
  noWW_words (splitWs_words cs)

theorem normWs_onlySp (cs : List Char) : onlySp (normWs cs) := by
  intro c hc hws
  rcases joinSp_mem hc with ⟨w, hw, hcw⟩ | rfl
  · exact absurd hws ((splitWs_words cs w hw).2 c hcw)
  · rfl

theorem lastNotWs_of_append {a b : List Char} (h : HeadNotWs (a ++ b).reverse)
    (hb : b ≠ []) : HeadNotWs b.reverse := by
  rw [List.reverse_append] at h
  intro c hc
  refine h c ?_
  rcases hrev : b.reverse with - | ⟨x, t⟩
  · rw [hrev] at hc
    cases hc
  · rw [hrev] at hc
    simpa using hc

theorem canon_decomp {cs : List Char} (h1 : noWW cs) (h2 : onlySp cs)
    (h3 : HeadNotWs cs) (h4 : HeadNotWs cs.reverse) :
    ∃ W, (∀ w ∈ W, IsWord w) ∧ cs = joinSp W := by
  generalize hn : cs.length = N
  induction N using Nat.strong_induction_on generalizing cs with
  | _ N ih =>
    cases cs with
    | nil => exact ⟨[], by simp, rfl⟩
    | cons c0 rest =>
      have hsplit := List.takeWhile_append_dropWhile
        (fun c => !c.isWhitespace) (c0 :: rest)
      have hwall : ∀ c ∈ (c0 :: rest).takeWhile (fun c => !c.isWhitespace),
          ¬ c.isWhitespace := by
        intro c hc
        simpa using List.mem_takeWhile_imp hc
      have hc0 : ¬ c0.isWhitespace := by simpa using h3 c0 rfl
      have hwcons : (c0 :: rest).takeWhile (fun c => !c.isWhitespace) =
          c0 :: rest.takeWhile (fun c => !c.isWhitespace) := by
        rw [List.takeWhile_cons]
        simp [hc0]
      rcases hr2 : (c0 :: rest).dropWhile (fun c => !c.isWhitespace) with
        - | ⟨d, r3⟩
      · refine ⟨[(c0 :: rest).takeWhile (fun c => !c.isWhitespace)],
          ?_, ?_⟩
        · intro w hw
          rcases List.mem_singleton.mp hw with rfl
          exact ⟨by rw [hwcons]; simp, hwall⟩
        · show c0 :: rest = joinSp [_]
          rw [show joinSp [(c0 :: rest).takeWhile (fun c => !c.isWhitespace)] =
            (c0 :: rest).takeWhile (fun c => !c.isWhitespace) from rfl]
          conv_lhs => rw [← hsplit]
          rw [hr2]
          simp
      · have hd : d.isWhitespace := by
          have := dropWhile_head_false (p := fun c => !c.isWhitespace)
            (by rw [hr2]; rfl)
          simpa using this
        have hcseq : c0 :: rest =
            (c0 :: rest).takeWhile (fun c => !c.isWhitespace) ++ (d :: r3) := by
          conv_lhs => rw [← hsplit]
          rw [hr2]
        have hdmem : d ∈ c0 :: rest := by
          rw [hcseq]
          simp
        have hdsp : d = ' ' := h2 d hdmem hd
        have hr3ne : r3 ≠ [] := by
          rintro rfl
          have h4' := lastNotWs_of_append (a :=
            (c0 :: rest).takeWhile (fun c => !c.isWhitespace)) (b := [d])
            (by rw [← hcseq]; exact h4) (by simp)
          exact h4' d (by simp) hd
        have hnoWWd : noWW (d :: r3) := by
          have := noWW_of_append_right (a :=
            (c0 :: rest).takeWhile (fun c => !c.isWhitespace)) (b := d :: r3)
            (by rw [← hcseq]; exact h1)
          exact this
        have hr3head : HeadNotWs r3 := by
          cases r3 with
          | nil => exact headNotWs_nil
          | cons e r4 =>
            intro x hx
            simp only [List.head?_cons, Option.some.injEq] at hx
            subst hx
            intro hws
            exact hnoWWd.1 ⟨hd, hws⟩
        have hr3noWW : noWW r3 := noWW_tail hnoWWd
        have hr3only : onlySp r3 := by
          intro c hc hws
          refine h2 c ?_ hws
          rw [hcseq]
          simp [hc]
        have hr3last : HeadNotWs r3.reverse := by
          refine lastNotWs_of_append (a :=
            (c0 :: rest).takeWhile (fun c => !c.isWhitespace) ++ [d]) ?_ hr3ne
          rw [List.append_assoc]
          show HeadNotWs ((c0 :: rest).takeWhile (fun c => !c.isWhitespace) ++
            (d :: r3)).reverse
          rw [← hcseq]
          exact h4
        have hlen : r3.length < N := by
          have hL := congrArg List.length hcseq
          rw [hwcons] at hL
          simp only [List.length_cons, List.length_append] at hL hn
          omega
        obtain ⟨W', hW', hjoin⟩ := ih r3.length hlen hr3noWW hr3only hr3head
          hr3last rfl
        have hW'ne : W' ≠ [] := by
          rintro rfl
          exact hr3ne (by simpa using hjoin)
        refine ⟨(c0 :: rest).takeWhile (fun c => !c.isWhitespace) :: W', ?_, ?_⟩
        · intro w hw
          rcases List.mem_cons.mp hw with rfl | hw2
          · exact ⟨by rw [hwcons]; simp, hwall⟩
          · exact hW' w hw2
        · rw [joinSp_cons_ne _ _ hW'ne, ← hjoin, ← hdsp, ← hcseq]
  termination_by N

theorem normWs_eq_self {cs : List Char} (h1 : noWW cs) (h2 : onlySp cs)
    (h3 : HeadNotWs cs) (h4 : HeadNotWs cs.reverse) : normWs cs = cs := by
  obtain ⟨W, hW, rfl⟩ := canon_decomp h1 h2 h3 h4
  unfold normWs
  rw [splitWs_joinSp W hW]

theorem matchRange_split {cs rng r : List Char}
    (h : Scraper.matchRange cs = (rng, r)) : cs = rng ++ r := by
  rcases matchRange_parts h with ⟨rfl, rfl⟩ |
    ⟨s1, se, s2, co, s3, d, th, dc, sp, k, -, h2, -⟩
  · rfl
  · exact h2

theorem matchUnit_split {cs unit r : List Char}
    (h : Scraper.matchUnit cs = (unit, r)) : cs = unit ++ r := by
  rcases matchUnit_parts h with ⟨rfl, rfl⟩ | ⟨sp, conn, sp2, w, -, h2, -⟩
  · rfl
  · exact h2

theorem matchSalary_split {cs m r : List Char}
    (h : Scraper.matchSalary cs = some (m, r)) : cs = m ++ r := by
  unfold Scraper.matchSalary at h
  split at h
  · exact absurd h (by simp)
  · rename_i cur r1 hcur
    obtain ⟨hr1eq, -⟩ := matchCurrency_parts hcur
    rcases hsw1 : spanWs r1 with ⟨sp1, r2⟩
    rw [hsw1] at h
    split at h
    rename_i sp1' r2' heq0
    injection heq0 with e1 e2
    subst e1
    subst e2
    obtain ⟨hr1p, -, -⟩ := spanWs_parts r1
    rw [hsw1] at hr1p
    dsimp only at hr1p
    split at h
    · exact absurd h (by simp)
    · rename_i amt r3 hamt
      obtain ⟨-, -, -, -, -, -, hr2p, -⟩ := matchAmount_parts hamt
      rcases hrg : Scraper.matchRange r3 with ⟨rng, r4⟩
      rw [hrg] at h
      split at h
      rename_i rng' r4' heq1
      injection heq1 with e3 e4
      subst e3
      subst e4
      rcases hun : Scraper.matchUnit r4 with ⟨unit, r5⟩
      rw [hun] at h
      split at h
      rename_i unit' r5' heq2
      injection heq2 with e5 e6
      subst e5
      subst e6
      simp only [Option.some.injEq, Prod.mk.injEq] at h
      obtain ⟨rfl, rfl⟩ := h
      rw [hr1eq, hr1p, hr2p, matchRange_split hrg, matchUnit_split hun]
      simp [List.append_assoc]

theorem clean_salary_B_na : Scraper.clean_salary_text "N/A" = "N/A" := by rfl

theorem clean_salary_A_na : JobScan.clean_salary_text "N/A" = "N/A" := by rfl

theorem clean_salary_B_idem (t : String) :
    Scraper.clean_salary_text (Scraper.clean_salary_text t) =
      Scraper.clean_salary_text t := by
  by_cases ht : t = ""
  · subst ht
    rw [show Scraper.clean_salary_text "" = "N/A" from rfl]
    exact clean_salary_B_na
  · rcases hs : searchAt Scraper.matchSalary (normWs t.data) with - | m
    · have h1 : Scraper.clean_salary_text t = "N/A" := by
        unfold Scraper.clean_salary_text
        rw [if_neg ht, hs]
      rw [h1]
      exact clean_salary_B_na
    · obtain ⟨pre, suf, r, hu, hf⟩ := searchAt_split hs
      obtain ⟨core, spT, hm, hspT, hhead, hlast, hne, hre⟩ :=
        matchSalary_rematch hf
      have hsuf : suf = m ++ r := matchSalary_split hf
      have htrim : trimWs m = core := by
        rw [hm]
        exact trimWs_append_ws hhead hlast hspT
      have hnuw : noWW (normWs t.data) := normWs_noWW _
      rw [hu, hsuf, hm] at hnuw
      have hcorenoWW : noWW core :=
        noWW_of_append_left (noWW_of_append_left (noWW_of_append_right hnuw))
      have hcoreonly : onlySp core := by
        intro c hc hw
        refine normWs_onlySp t.data c ?_ hw
        rw [hu, hsuf, hm]
        simp [hc]
      have hnorm : normWs core = core :=
        normWs_eq_self hcorenoWW hcoreonly hhead hlast
      have h1 : Scraper.clean_salary_text t = ⟨core⟩ := by
        unfold Scraper.clean_salary_text
        rw [if_neg ht, hs]
        dsimp only
        rw [htrim]
      rw [h1]
      have hne2 : ¬((⟨core⟩ : String) = "") :=
        fun he => hne (congrArg String.data he)
      unfold Scraper.clean_salary_text
      rw [if_neg hne2]
      rw [show String.data ⟨core⟩ = core from rfl]
      rw [hnorm, searchAt_hit hre]
      dsimp only
      rw [trimWs_noop hhead hlast]

theorem clean_salary_A_idem (t : String) :
    JobScan.clean_salary_text (JobScan.clean_salary_text t) =
      JobScan.clean_salary_text t := by
  by_cases ht : t = ""
  · subst ht
    rw [show JobScan.clean_salary_text "" = "N/A" from rfl]
    exact clean_salary_A_na
  · rcases hs : searchAt JobScan.matchSalaryA t.data with - | m
    · have h1 : JobScan.clean_salary_text t = "N/A" := by
        unfold JobScan.clean_salary_text
        rw [if_neg ht, hs]
      rw [h1]
      exact clean_salary_A_na
    · obtain ⟨pre, suf, r, hu, hf⟩ := searchAt_split hs
      obtain ⟨core, spT, hm, hspT, hhead, hlast, hne, hre⟩ :=
        matchSalaryA_rematch hf
      have htrim : trimWs m = core := by
        rw [hm]
        exact trimWs_append_ws hhead hlast hspT
      have h1 : JobScan.clean_salary_text t = ⟨core⟩ := by
        unfold JobScan.clean_salary_text
        rw [if_neg ht, hs]
        dsimp only
        rw [htrim]
      rw [h1]
      have hne2 : ¬((⟨core⟩ : String) = "") :=
        fun he => hne (congrArg String.data he)
      unfold JobScan.clean_salary_text
      rw [if_neg hne2]
      rw [show String.data ⟨core⟩ = core from rfl]
      rw [searchAt_hit hre]
      dsimp only
      rw [trimWs_noop hhead hlast]

/-- C6: the salary normalizer is idempotent: for every input string, applying
clean_salary_text twice gives the same result as applying it once — for the
src/job_scan.py variant (lines 63-69) and for the part_000 variant (lines
1449-1534, with its whitespace collapsing) alike; in particular an
already-normalized salary string and the "N/A" sentinel are returned
unchanged. -/
theorem claim_C6_clean_salary_idempotent (t : String) :
    JobScan.clean_salary_text (JobScan.clean_salary_text t) =
      JobScan.clean_salary_text t ∧
    Scraper.clean_salary_text (Scraper.clean_salary_text t) =
      Scraper.clean_salary_text t :=
  ⟨clean_salary_A_idem t, clean_salary_B_idem t⟩
